import Mathlib

/-!
# Three cores of the repository

* `UThreads`: the user-level thread scheduler of `src/UserLevelThreads`;
* `MapReduce`: the shuffle step of `src/MultiThreads/MapReduceFramework.cpp`;
* `VirtualMemory`: the page-table walk of `src/VirtualMemory/VirtualMemory.cpp`.

The definitions of the three embeddings come first, each with the conventions
of its embedding; the theorems follow, in the same order.
-/

/-!
# User-level thread scheduler (`src/UserLevelThreads`)

A shallow embedding of `uthreads.cpp` and `Thread.cpp`.

* The process-wide globals of `uthreads.cpp` (`threads`, `current_tid`,
  `total_quantums`, `quantum_usecs_global`, `ready_queue`, `set`) together with
  the process signal mask form the record `State`; every library function is a
  function on `State`.
* `threads` is a table `Nat → Option Thread`; `none` is `nullptr`.  The table
  has `MAX_THREAD_NUM` slots.  `MAX_THREAD_NUM` comes from `uthreads.h`, which
  is not part of the sources, so it is an explicit parameter of every function
  that mentions it.
* The saved context (`env`) and the stack of a `Thread` carry no scheduling
  information and are dropped.  A `siglongjmp` into the context of the thread
  that was picked is the outcome `Switch.resumed`: control continues in that
  thread, with `SIGVTALRM` unblocked (a context saved inside
  `scheduler_handler` resumes at the `sigsetjmp(...) == 1` branch, which
  unblocks the signal; a context primed by `uthread_spawn` has an empty saved
  mask).
* `int` counters are `Int`; wrap-around after `2^31` quantums is not modelled.
* `sigaction` and `setitimer` are taken to succeed (their arguments are always
  valid), so the two `exit(1)` calls of `uthread_init` are not modelled.
* `is_timer_interrupt` is written only by `timer_interrupt_handler`, which is
  never installed as a handler, and is dropped.
* A timer tick is the step `scheduler_handler MAX_THREAD_NUM SIGVTALRM`.
  Library calls are atomic steps, which is what they are once
  `scheduler_handler` has run for the first time.  Before that `set` is empty
  and `ignoreClock` blocks nothing: `uthread_spawn` is also given in two parts,
  for the run `interrupted_spawn` in which the timer fires between them.
-/

namespace UThreads

/-! ## Data model (`Thread.h`, `Thread.cpp`) -/

/-- The enum `ThreadState` of `Thread.h`. -/
inductive ThreadState where
  | READY
  | RUNNING
  | BLOCKED
  deriving DecidableEq

/-- A `thread_entry_point` is a function pointer: `none` is `nullptr`, `some f`
is the address of a function. -/
abbrev thread_entry_point := Option Nat

/-- The scheduling fields of `class Thread`.  `active` and `env_initialized`
are `int` flags that only ever hold `0` or `1`. -/
structure Thread where
  tid : Nat
  state : ThreadState
  entry_point : thread_entry_point
  quantum_count : Int
  sleep_quantums : Int
  active : Bool
  env_initialized : Bool
  manually_blocked : Bool
  deriving DecidableEq

/-- The constructor `Thread::Thread()` (the main thread). -/
def Thread.new : Thread :=
  { tid := 0, state := .RUNNING, entry_point := none, quantum_count := 0,
    sleep_quantums := 0, active := true, env_initialized := true,
    manually_blocked := false }

/-- The constructor `Thread::Thread(entry_point_func, tid)`. -/
def Thread.new_entry (entry_point_func : thread_entry_point) (tid : Nat) : Thread :=
  { tid := tid, state := .READY, entry_point := entry_point_func, quantum_count := 0,
    sleep_quantums := 0, active := true, env_initialized := true,
    manually_blocked := false }

/-- The globals of `uthreads.cpp` and the process signal mask.
`set_has_sigvtalrm` says whether the global `sigset_t set` contains `SIGVTALRM`
(it is zero-initialised and filled in by `scheduler_handler`);
`sigvtalrm_blocked` says whether `SIGVTALRM` is blocked in the signal mask. -/
structure State where
  threads : Nat → Option Thread
  current_tid : Nat
  total_quantums : Int
  quantum_usecs_global : Int
  ready_queue : List Nat
  set_has_sigvtalrm : Bool
  sigvtalrm_blocked : Bool

/-- The state of the globals before `uthread_init`: static initialisation. -/
def State.initial : State :=
  { threads := fun _ => none, current_tid := 0, total_quantums := 0,
    quantum_usecs_global := 0, ready_queue := [], set_has_sigvtalrm := false,
    sigvtalrm_blocked := false }

/-- `#define FAIL -1`. -/
def FAIL : Int := -1

/-- `#define SUCCESS 0`. -/
def SUCCESS : Int := 0

/-- The signal number of the virtual timer (Linux). -/
def SIGVTALRM : Int := 26

/-- The assignment `threads[i] = t`. -/
def State.set_thread (s : State) (i : Nat) (t : Option Thread) : State :=
  { s with threads := Function.update s.threads i t }

/-- `ignoreClock`: `sigprocmask(SIG_BLOCK, &set, NULL)`. -/
def ignoreClock (s : State) : State :=
  { s with sigvtalrm_blocked := s.sigvtalrm_blocked || s.set_has_sigvtalrm }

/-- `acceptClockSignal`: `sigprocmask(SIG_UNBLOCK, &set, NULL)`. -/
def acceptClockSignal (s : State) : State :=
  { s with sigvtalrm_blocked := s.sigvtalrm_blocked && !s.set_has_sigvtalrm }

/-- How a library call ends.
* `ret v s`: the call returns `v` to its caller, the globals being `s` when
  the step is over.  For a call that switched to another thread
  (`uthread_block` of the running thread, `uthread_sleep`) `s` is the state
  right after the switch and `v` is what the caller receives once it is
  scheduled again.
* `noreturn s`: the calling thread terminated itself; control has passed to
  thread `s.current_tid` and never comes back to the call.
* `exit status s`: the process ended with `exit(status)`, the globals being `s`.
* `undefined`: a null pointer was dereferenced. -/
inductive Outcome where
  | ret (value : Int) (s : State)
  | noreturn (s : State)
  | exit (status : Int) (s : State)
  | undefined

/-- How `scheduler_handler` ends: by `siglongjmp` into thread
`s.current_tid`, or by `exit(1)` when nothing can be scheduled. -/
inductive Switch where
  | resumed (s : State)
  | fatal (s : State)

/-! ## `uthread_init` -/

/-- The function `uthread_init` (uthreads.cpp 88-125). -/
def uthread_init (quantum_usecs : Int) (s : State) : Outcome :=
  if quantum_usecs ≤ 0 then .ret FAIL s
  else
    let s := { s with quantum_usecs_global := quantum_usecs, total_quantums := 1,
                      current_tid := 0 }
    let s := s.set_thread 0 (some { Thread.new with active := true, quantum_count := 1 })
    .ret SUCCESS { s with ready_queue := [] }

/-- The function `uthread_get_tid`. -/
def uthread_get_tid (s : State) : Int := s.current_tid

/-- The function `uthread_get_total_quantums`. -/
def uthread_get_total_quantums (s : State) : Int := s.total_quantums

/-! ## `scheduler_handler` -/

/-- One iteration of the wake-up loop of `scheduler_handler` (lines 138-149)
for index `i`. -/
def wake_one (s : State) (i : Nat) : State :=
  match s.threads i with
  | none => s
  | some t =>
    if t.active = true ∧ t.state = .BLOCKED ∧ 0 < t.sleep_quantums then
      let t := { t with sleep_quantums := t.sleep_quantums - 1 }
      if t.sleep_quantums = 0 ∧ t.manually_blocked = false then
        { s with threads := Function.update s.threads i (some { t with state := .READY }),
                 ready_queue := s.ready_queue ++ [i] }
      else s.set_thread i (some t)
    else s

/-- The first `n` iterations (`i = 0, ..., n-1`) of the wake-up loop. -/
def wake_loop (s : State) : Nat → State
  | 0 => s
  | n + 1 => wake_one (wake_loop s n) n

/-- Lines 155-171 of `scheduler_handler`: a running current thread is demoted
to `READY` and pushed on the ready queue. -/
def save_current (s : State) : State :=
  match s.threads s.current_tid with
  | none => s
  | some t =>
    if t.active = true then
      if t.state = .RUNNING then
        { s with threads := Function.update s.threads s.current_tid
                              (some { t with state := .READY }),
                 ready_queue := s.ready_queue ++ [s.current_tid] }
      else s
    else s

/-- The loop of lines 173-185: pops the queue until an entry can be scheduled.
Returns `next_tid` (`none` for `-1`) and what is left of the queue. -/
def pick_next (threads : Nat → Option Thread) : List Nat → Option Nat × List Nat
  | [] => (none, [])
  | tid :: rest =>
    match threads tid with
    | none => pick_next threads rest
    | some t =>
      if t.active = true ∧ t.env_initialized = true ∧ t.state = .READY then (some tid, rest)
      else pick_next threads rest

/-- Applies `f` to the thread in slot `i` (`threads[i]->...`), which the
callers have checked to be non-null. -/
def State.modify (s : State) (i : Nat) (f : Thread → Thread) : State :=
  match s.threads i with
  | none => s
  | some t => s.set_thread i (some (f t))

/-- Lines 130-171 of `scheduler_handler`: the signal is blocked (which fills
in the global `set`), a timer signal runs the wake-up loop, and the current
thread is saved. -/
def sched_prepare (MAX_THREAD_NUM : Nat) (sig : Int) (s : State) : State :=
  let s := { s with set_has_sigvtalrm := true, sigvtalrm_blocked := true }
  let s := if sig = SIGVTALRM then wake_loop s MAX_THREAD_NUM else s
  save_current s

/-- Lines 193-203 of `scheduler_handler`: `next_tid` becomes the running
thread, a timer signal counts a quantum, and the signal is unblocked on the
way into the thread. -/
def sched_dispatch (sig : Int) (next_tid : Nat) (s : State) : State :=
  let s := { s with current_tid := next_tid }
  let s := s.modify next_tid (fun t => { t with state := .RUNNING })
  let s :=
    if sig = SIGVTALRM then
      { s with total_quantums := s.total_quantums + 1 }.modify next_tid
        (fun t => { t with quantum_count := t.quantum_count + 1 })
    else s
  { s with sigvtalrm_blocked := false }

/-- The function `scheduler_handler` (uthreads.cpp 127-204). -/
def scheduler_handler (MAX_THREAD_NUM : Nat) (sig : Int) (s : State) : Switch :=
  let s := sched_prepare MAX_THREAD_NUM sig s
  match pick_next s.threads s.ready_queue with
  | (none, rest) => .fatal { s with ready_queue := rest }
  | (some next_tid, rest) => .resumed (sched_dispatch sig next_tid { s with ready_queue := rest })

/-! ## Library calls -/

/-- The test `threads[i] == nullptr || !threads[i]->active` of `uthread_spawn`. -/
def slot_free (s : State) (i : Nat) : Prop :=
  match s.threads i with
  | none => True
  | some t => t.active = false

instance (s : State) (i : Nat) : Decidable (slot_free s i) := by
  unfold slot_free; cases s.threads i <;> exact inferInstance

/-- The search loop of `uthread_spawn` (lines 216-222) over the indices
`i, i+1, ..., i+n-1`; `none` is `tid == -1`. -/
def find_free (s : State) (i : Nat) : Nat → Option Nat
  | 0 => none
  | n + 1 => if slot_free s i then some i else find_free s (i + 1) n

/-- The function `uthread_spawn` (uthreads.cpp 209-249). -/
def uthread_spawn (MAX_THREAD_NUM : Nat) (entry_point : thread_entry_point) (s : State) :
    Outcome :=
  let s := ignoreClock s
  if entry_point = none then .ret FAIL s
  else
    match find_free s 0 MAX_THREAD_NUM with
    | none => .ret FAIL s
    | some tid =>
      let s := s.set_thread tid (some (Thread.new_entry entry_point tid))
      let s := s.modify tid (fun t => { t with active := true })
      let s := s.modify tid (fun t => { t with state := .READY })
      let s := s.modify tid (fun t => { t with quantum_count := 0 })
      let s := s.modify tid (fun t => { t with env_initialized := true })
      let s := { s with ready_queue := s.ready_queue ++ [tid] }
      .ret tid (acceptClockSignal s)

/-- The validation `tid < 0 || tid >= MAX_THREAD_NUM || threads[tid] == nullptr ||
!threads[tid]->active` shared by terminate, block, resume and get_quantums. -/
def invalid_tid (MAX_THREAD_NUM : Nat) (s : State) (tid : Int) : Prop :=
  tid < 0 ∨ (MAX_THREAD_NUM : Int) ≤ tid ∨ slot_free s tid.toNat

instance (M : Nat) (s : State) (tid : Int) : Decidable (invalid_tid M s tid) := by
  unfold invalid_tid; exact inferInstance

/-- The queue-rebuilding loop of `uthread_terminate` and `uthread_block`:
every entry different from `tid` is kept, in order. -/
def remove_from_queue (s : State) (tid : Nat) : State :=
  { s with ready_queue := s.ready_queue.filter (fun curr_tid => curr_tid ≠ tid) }

/-- The state of thread `tid` (`threads[tid]->getState()`), if the slot is
non-null. -/
def State.state_of (s : State) (tid : Nat) : Option ThreadState :=
  (s.threads tid).map Thread.state

/-- The function `uthread_terminate` (uthreads.cpp 251-301). -/
def uthread_terminate (MAX_THREAD_NUM : Nat) (tid : Int) (s : State) : Outcome :=
  let s := ignoreClock s
  if invalid_tid MAX_THREAD_NUM s tid then .ret FAIL s
  else if tid = 0 then
    .exit 0 { s with threads := fun i => if i < MAX_THREAD_NUM then none else s.threads i,
                     ready_queue := [] }
  else
    let tid := tid.toNat
    let s := if s.state_of tid = some .READY then remove_from_queue s tid else s
    if tid = s.current_tid then
      let s := s.modify tid (fun t => { t with active := false })
      let s := s.set_thread tid none
      match scheduler_handler MAX_THREAD_NUM SIGVTALRM s with
      | .resumed s => .noreturn s
      | .fatal s => .exit 1 s
    else
      let s := s.set_thread tid none
      .ret SUCCESS (acceptClockSignal s)

/-- The function `uthread_block` (uthreads.cpp 305-345). -/
def uthread_block (MAX_THREAD_NUM : Nat) (tid : Int) (s : State) : Outcome :=
  let s := ignoreClock s
  if invalid_tid MAX_THREAD_NUM s tid then .ret FAIL s
  else if tid = 0 then .ret FAIL s
  else
    let tid := tid.toNat
    match s.threads tid with
    | none => .undefined
    | some t =>
      if t.state = .BLOCKED ∧ t.manually_blocked = true then .ret SUCCESS s
      else
        let s := if t.state = .READY then remove_from_queue s tid else s
        let s := s.modify tid (fun t => { t with manually_blocked := true })
        let s := s.modify tid (fun t => { t with state := .BLOCKED })
        if tid = s.current_tid then
          match scheduler_handler MAX_THREAD_NUM 0 s with
          | .resumed s => .ret SUCCESS (acceptClockSignal s)
          | .fatal s => .exit 1 s
        else .ret SUCCESS (acceptClockSignal s)

/-- The function `uthread_resume` (uthreads.cpp 347-367). -/
def uthread_resume (MAX_THREAD_NUM : Nat) (tid : Int) (s : State) : Outcome :=
  let s := ignoreClock s
  if invalid_tid MAX_THREAD_NUM s tid then .ret FAIL s
  else
    let tid := tid.toNat
    match s.threads tid with
    | none => .undefined
    | some t =>
      if tid = 0 ∨ tid = s.current_tid ∨ t.state = .READY then .ret SUCCESS s
      else
        let s := s.modify tid (fun t => { t with manually_blocked := false })
        let s :=
          if t.sleep_quantums = 0 then
            { s.modify tid (fun t => { t with state := .READY }) with
              ready_queue := s.ready_queue ++ [tid] }
          else s
        .ret SUCCESS (acceptClockSignal s)

/-- The function `uthread_sleep` (uthreads.cpp 369-390). -/
def uthread_sleep (MAX_THREAD_NUM : Nat) (num_quantums : Int) (s : State) : Outcome :=
  let s := ignoreClock s
  if num_quantums ≤ 0 then .ret FAIL s
  else if s.current_tid = 0 then .ret FAIL s
  else
    match s.threads s.current_tid with
    | none => .undefined
    | some _ =>
      let s := s.modify s.current_tid (fun t => { t with sleep_quantums := num_quantums })
      let s := s.modify s.current_tid (fun t => { t with state := .BLOCKED })
      match scheduler_handler MAX_THREAD_NUM 0 s with
      | .resumed s => .ret SUCCESS (acceptClockSignal s)
      | .fatal s => .exit 1 s

/-- The function `uthread_get_quantums` (uthreads.cpp 402-411). -/
def uthread_get_quantums (MAX_THREAD_NUM : Nat) (tid : Int) (s : State) : Outcome :=
  let s := ignoreClock s
  if invalid_tid MAX_THREAD_NUM s tid then .ret FAIL s
  else
    match s.threads tid.toNat with
    | none => .undefined
    | some t => .ret t.quantum_count (acceptClockSignal s)

/-! ## Runs of the library -/

/-- A timer tick: the handler installed for `SIGVTALRM` runs. -/
def tick (MAX_THREAD_NUM : Nat) (s : State) : Switch :=
  scheduler_handler MAX_THREAD_NUM SIGVTALRM s

/-- One event of a run after `uthread_init`: a library call made by the
running thread, or a timer tick. -/
inductive Op where
  | spawn (entry_point : thread_entry_point)
  | terminate (tid : Int)
  | block (tid : Int)
  | resume (tid : Int)
  | sleep (num_quantums : Int)
  | get_quantums (tid : Int)
  | tick

/-- The state in which the program continues after an outcome, if it does. -/
def Outcome.next : Outcome → Option State
  | .ret _ s => some s
  | .noreturn s => some s
  | .exit _ _ => none
  | .undefined => none

/-- The state in which the program continues after a scheduler pass. -/
def Switch.next : Switch → Option State
  | .resumed s => some s
  | .fatal _ => none

/-- The successor state of one event; `none` when the process has ended. -/
def step (MAX_THREAD_NUM : Nat) (s : State) : Op → Option State
  | .spawn entry_point => (uthread_spawn MAX_THREAD_NUM entry_point s).next
  | .terminate tid => (uthread_terminate MAX_THREAD_NUM tid s).next
  | .block tid => (uthread_block MAX_THREAD_NUM tid s).next
  | .resume tid => (uthread_resume MAX_THREAD_NUM tid s).next
  | .sleep num_quantums => (uthread_sleep MAX_THREAD_NUM num_quantums s).next
  | .get_quantums tid => (uthread_get_quantums MAX_THREAD_NUM tid s).next
  | .tick => (tick MAX_THREAD_NUM s).next

/-- The state after a sequence of events, from `s`. -/
def exec (MAX_THREAD_NUM : Nat) (s : State) : List Op → Option State
  | [] => some s
  | op :: ops =>
    match step MAX_THREAD_NUM s op with
    | none => none
    | some s => exec MAX_THREAD_NUM s ops

/-- The state right after a successful `uthread_init quantum_usecs` on the
initial globals. -/
def init_state (quantum_usecs : Int) : State :=
  ((uthread_init quantum_usecs State.initial).next).getD State.initial

/-- A state is reachable by atomic steps when a run `uthread_init`, then
library calls and timer ticks, each of them one indivisible step, leads to it.
The table has at least the slot of the main thread, and `uthread_init` is called
once, at the start.  A tick may follow any event, also one that left `SIGVTALRM`
blocked.  These are not all the states in which the running program can be
between two operations: until the first pass of `scheduler_handler` the global
`set` is empty, `ignoreClock` blocks nothing, and the timer can interrupt a
library call of the main thread half-way.  `interrupted_spawn` is such a run,
and the state it ends in is not among these. -/
def Reachable (MAX_THREAD_NUM : Nat) (s : State) : Prop :=
  0 < MAX_THREAD_NUM ∧
    ∃ (quantum_usecs : Int) (ops : List Op), 0 < quantum_usecs ∧
      exec MAX_THREAD_NUM (init_state quantum_usecs) ops = some s

/-- `k` consecutive timer ticks. -/
def ticks (MAX_THREAD_NUM : Nat) : Nat → State → Option State
  | 0, s => some s
  | k + 1, s =>
    match tick MAX_THREAD_NUM s with
    | .resumed s => ticks MAX_THREAD_NUM k s
    | .fatal _ => none

/-- Consecutive `uthread_spawn` calls, one per entry point: the returned
values in call order, and the final state. -/
def spawn_many (MAX_THREAD_NUM : Nat) : List thread_entry_point → State → List Int × State
  | [], s => ([], s)
  | entry_point :: rest, s =>
    match uthread_spawn MAX_THREAD_NUM entry_point s with
    | .ret value s =>
      let r := spawn_many MAX_THREAD_NUM rest s
      (value :: r.1, r.2)
    | _ => ([], s)

/-- The scheduler state proper is the same in `s` and `s'`: thread table (every
field of every thread), ready queue, current id, quantum counter and quantum
length.  Only the signal mask may differ. -/
def State.same_scheduling (s s' : State) : Prop :=
  s'.threads = s.threads ∧ s'.ready_queue = s.ready_queue ∧
    s'.current_tid = s.current_tid ∧ s'.total_quantums = s.total_quantums ∧
    s'.quantum_usecs_global = s.quantum_usecs_global

/-- The state after `uthread_init(1000)` and the events `ops`, for a table of
three slots: the concrete runs at which the theorems are instantiated. -/
def example_run (ops : List Op) : State :=
  (exec 3 (init_state 1000) ops).getD State.initial

/-- The ids of the threads that `k` consecutive timer ticks make the running
thread, in the order of the ticks. -/
def tick_trace (MAX_THREAD_NUM : Nat) : Nat → State → List Nat
  | 0, _ => []
  | k + 1, s =>
    match tick MAX_THREAD_NUM s with
    | .resumed s => s.current_tid :: tick_trace MAX_THREAD_NUM k s
    | .fatal _ => []

/-- The ids of the occupied slots of the table, in index order. -/
def live_ids (MAX_THREAD_NUM : Nat) (s : State) : List Nat :=
  (List.range MAX_THREAD_NUM).filter (fun i => (s.threads i).isSome)

/-- Lines 209-245 of `uthread_spawn`: the call up to, and not including,
`ready_queue.push(tid)`.  `none` when the call returns `FAIL` before it gets
that far; otherwise the id chosen and the globals at line 246. -/
def uthread_spawn_create (MAX_THREAD_NUM : Nat) (entry_point : thread_entry_point)
    (s : State) : Option (Nat × State) :=
  let s := ignoreClock s
  if entry_point = none then none
  else
    match find_free s 0 MAX_THREAD_NUM with
    | none => none
    | some tid =>
      let s := s.set_thread tid (some (Thread.new_entry entry_point tid))
      let s := s.modify tid (fun t => { t with active := true })
      let s := s.modify tid (fun t => { t with state := .READY })
      let s := s.modify tid (fun t => { t with quantum_count := 0 })
      let s := s.modify tid (fun t => { t with env_initialized := true })
      some (tid, s)

/-- Lines 246-248 of `uthread_spawn`: `ready_queue.push(tid)`,
`acceptClockSignal()` and `return tid`, from the globals `s`. -/
def uthread_spawn_push (tid : Nat) (s : State) : Outcome :=
  .ret tid (acceptClockSignal { s with ready_queue := s.ready_queue ++ [tid] })

/-- A run of the program, for a table of three slots, in which the timer
interrupts a library call: `uthread_init(1000)`; `uthread_spawn(f1)`; the main
thread calls `uthread_spawn(f2)` and `SIGVTALRM` is delivered when the call has
reached line 246 (the signal is not blocked there, `set` being empty), which
makes thread 1 run; thread 1 calls `uthread_block(2)`; the next timer tick
resumes the main thread, which finishes its `uthread_spawn` from line 246.  The
value is the state in which that `uthread_spawn` returns, and `none` if a step
cannot take place as described. -/
def interrupted_spawn : Option State :=
  match exec 3 (init_state 1000) [.spawn (some 1)] with
  | none => none
  | some s₁ =>
    match uthread_spawn_create 3 (some 2) s₁ with
    | none => none
    | some (tid, s₂) =>
      if s₂.sigvtalrm_blocked = true then none
      else
        match exec 3 s₂ [.tick, .block 2, .tick] with
        | none => none
        | some s₃ =>
          if s₃.current_tid = 0 then (uthread_spawn_push tid s₃).next else none

/-- The state after the run `interrupted_spawn` and then the events `ops`. -/
def interrupted_run (ops : List Op) : State :=
  match interrupted_spawn with
  | none => State.initial
  | some s => (exec 3 s ops).getD State.initial

/-! ## Auxiliary definitions for the proofs -/

/-- What one pass of the wake-up loop does to a thread: a blocked thread with
a positive countdown has it decremented, and becomes `READY` when the
countdown reaches zero and the thread is not manually blocked. -/
def wake_thread (t : Thread) : Thread :=
  if t.active = true ∧ t.state = .BLOCKED ∧ 0 < t.sleep_quantums then
    if t.sleep_quantums - 1 = 0 ∧ t.manually_blocked = false then
      { t with sleep_quantums := t.sleep_quantums - 1, state := .READY }
    else { t with sleep_quantums := t.sleep_quantums - 1 }
  else t

/-- The thread in slot `i` is woken (pushed on the ready queue) by the
wake-up loop. -/
def woken (s : State) (i : Nat) : Prop :=
  ∃ t, s.threads i = some t ∧ t.active = true ∧ t.state = .BLOCKED ∧ 0 < t.sleep_quantums ∧
    t.sleep_quantums - 1 = 0 ∧ t.manually_blocked = false

instance (s : State) (i : Nat) : Decidable (woken s i) := by
  unfold woken
  cases s.threads i with
  | none => exact isFalse (by simp)
  | some t =>
    exact decidable_of_iff (t.active = true ∧ t.state = .BLOCKED ∧ 0 < t.sleep_quantums ∧
      t.sleep_quantums - 1 = 0 ∧ t.manually_blocked = false) (by simp)

/-! ## Invariants -/

/-- What holds of the thread `t` stored in slot `i` of a reachable table. -/
structure Thread.ok (i : Nat) (t : Thread) : Prop where
  tid_eq : t.tid = i
  active : t.active = true
  env : t.env_initialized = true
  count_nonneg : 0 ≤ t.quantum_count
  sleep_nonneg : 0 ≤ t.sleep_quantums
  sleeping : 0 < t.sleep_quantums → t.state = .BLOCKED
  manual : t.manually_blocked = true → t.state = .BLOCKED
  blocked : t.state = .BLOCKED → 0 < t.sleep_quantums ∨ t.manually_blocked = true

/-- The part of the invariant that also holds inside a library call, when
the running thread has just been blocked or removed and `scheduler_handler`
is about to pick its successor. -/
structure Base (MAX_THREAD_NUM : Nat) (s : State) : Prop where
  main : ∃ t, s.threads 0 = some t ∧ t.state ≠ .BLOCKED
  bound : ∀ i t, s.threads i = some t → i < MAX_THREAD_NUM
  ok : ∀ i t, s.threads i = some t → t.ok i
  running : ∀ i t, s.threads i = some t → t.state = .RUNNING → i = s.current_tid
  queue_nodup : s.ready_queue.Nodup
  queue_iff : ∀ i, i ∈ s.ready_queue ↔ ∃ t, s.threads i = some t ∧ t.state = .READY

/-- The invariant of the scheduler at operation boundaries. -/
structure Inv (MAX_THREAD_NUM : Nat) (s : State) extends Base MAX_THREAD_NUM s : Prop where
  cur : ∃ t, s.threads s.current_tid = some t ∧ t.state = .RUNNING

end UThreads

/-!
# Map-reduce shuffle (`src/MultiThreads/MapReduceFramework.cpp`)

A shallow embedding of `shuffle`, the single-threaded step that thread 0 runs
between the map phase and the reduce phase.

* Keys (`K2`) are only ever compared through `operator<`; the embedding takes
  the key type `K` and the comparison `lt : K → K → Bool` (`lt a b` is
  `*a < *b`) as parameters.  Values (`V2`) are never inspected.
* A `std::vector` is represented by the list of its elements from the back to
  the front: `back()` is the head of the list, `pop_back()` its tail and
  `push_back(x)` is `x :: _`.  So the elements of a vector in index order are
  the reverse of the list, and the groups of `shuffled_queue` in the order in
  which they were pushed are the reverse of the list.
* `while (true)` has no bound in the source; `shuffle_loop` takes the number of
  iterations it may run as fuel and returns `none` when the fuel runs out.
* Only the fields of `JobContext` that `shuffle` reads or writes are kept.
-/

namespace MapReduce

/-- The enum `stage_t` of `MapReduceFramework.h`. -/
inductive stage_t where
  | UNDEFINED_STAGE
  | MAP_STAGE
  | SHUFFLE_STAGE
  | REDUCE_STAGE
  deriving DecidableEq

/-- An `IntermediatePair`: a key and a value. -/
abbrev IntermediatePair (K V : Type) := K × V

/-- An `IntermediateVec`, from the back to the front. -/
abbrev IntermediateVec (K V : Type) := List (IntermediatePair K V)

/-- The fields of `JobContext` that `shuffle` uses. -/
structure JobContext (K V : Type) where
  stage : stage_t
  intermediate_vectors : List (IntermediateVec K V)
  shuffled_queue : List (IntermediateVec K V)
  total_reduce_groups : Int

/-- Step 1 of `shuffle` (lines 166-173): the loop over the vectors that keeps
in `maxKey` the largest key seen among the back elements. -/
def find_max_key {K V : Type} (lt : K → K → Bool) :
    List (IntermediateVec K V) → Option K → Option K
  | [], maxKey => maxKey
  | vec :: vectors, maxKey =>
    match vec with
    | [] => find_max_key lt vectors maxKey
    | back :: _ =>
      match maxKey with
      | none => find_max_key lt vectors (some back.1)
      | some k =>
        if lt k back.1 then find_max_key lt vectors (some back.1)
        else find_max_key lt vectors (some k)

/-- The inner `while` of step 2 (lines 183-186): pops the back of `vec` into
`group` as long as its key is neither smaller nor larger than `maxKey`. -/
def pop_equivalent {K V : Type} (lt : K → K → Bool) (maxKey : K) :
    IntermediateVec K V → IntermediateVec K V → IntermediateVec K V × IntermediateVec K V
  | [], group => ([], group)
  | back :: vec, group =>
    if (!lt back.1 maxKey && !lt maxKey back.1) = true then
      pop_equivalent lt maxKey vec (back :: group)
    else (back :: vec, group)

/-- Step 2 of `shuffle` (lines 180-187): the loop over the vectors, which
returns the vectors as they are left and the group collected. -/
def collect_group {K V : Type} (lt : K → K → Bool) (maxKey : K) :
    List (IntermediateVec K V) → IntermediateVec K V →
      List (IntermediateVec K V) × IntermediateVec K V
  | [], group => ([], group)
  | vec :: vectors, group =>
    let r := pop_equivalent lt maxKey vec group
    let rs := collect_group lt maxKey vectors r.2
    (r.1 :: rs.1, rs.2)

/-- The `while (true)` loop of `shuffle` (lines 162-191), run for at most `fuel`
iterations. -/
def shuffle_loop {K V : Type} (lt : K → K → Bool) :
    Nat → JobContext K V → Option (JobContext K V)
  | 0, _ => none
  | fuel + 1, job =>
    match find_max_key lt job.intermediate_vectors none with
    | none => some job
    | some maxKey =>
      let r := collect_group lt maxKey job.intermediate_vectors []
      shuffle_loop lt fuel
        { job with intermediate_vectors := r.1,
                   shuffled_queue := r.2 :: job.shuffled_queue,
                   total_reduce_groups := job.total_reduce_groups + 1 }

/-- The function `shuffle` (MapReduceFramework.cpp 155-194). -/
def shuffle {K V : Type} (lt : K → K → Bool) (fuel : Nat) (job : JobContext K V) :
    Option (JobContext K V) :=
  shuffle_loop lt fuel { job with stage := .SHUFFLE_STAGE }

/-- Two keys are equivalent: neither is smaller than the other. -/
def equivalent {K : Type} (lt : K → K → Bool) (a b : K) : Bool :=
  !lt a b && !lt b a

/-- The comparison is a strict weak order: irreflexive, transitive, and with a
transitive equivalence. -/
structure StrictWeakOrder {K : Type} (lt : K → K → Bool) : Prop where
  irrefl : ∀ a, lt a a = false
  trans : ∀ a b c, lt a b = true → lt b c = true → lt a c = true
  equivalent_trans : ∀ a b c, equivalent lt a b = true → equivalent lt b c = true →
    equivalent lt a c = true

/-- One key out of every class of equivalent keys of the list. -/
def distinct_keys {K : Type} (lt : K → K → Bool) : List K → List K
  | [] => []
  | k :: ks =>
    if (distinct_keys lt ks).any (fun k' => equivalent lt k k') = true then distinct_keys lt ks
    else k :: distinct_keys lt ks

/-- All the pairs held by a list of vectors. -/
def all_pairs {K V : Type} (vectors : List (IntermediateVec K V)) :
    List (IntermediatePair K V) :=
  vectors.flatten

/-- A vector is sorted ascending by key, in index order (front to back): no
element has a key smaller than the key of an element before it. -/
def sorted_ascending {K V : Type} (lt : K → K → Bool) (vec : IntermediateVec K V) : Prop :=
  vec.reverse.Pairwise (fun a b => lt b.1 a.1 = false)

/-- What step 2 does to a vector: a stretch of elements equivalent to `maxKey`
is removed from its back, and what is left does not end in such an element. -/
def popped_from {K V : Type} (lt : K → K → Bool) (maxKey : K)
    (vec vec' : IntermediateVec K V) : Prop :=
  ∃ popped : IntermediateVec K V, vec = popped ++ vec' ∧
    (∀ p, p ∈ popped → equivalent lt p.1 maxKey = true) ∧
    (∀ p rest, vec' = p :: rest → equivalent lt p.1 maxKey = false)

/-- The comparison of natural-number keys, for concrete runs. -/
def nat_lt (a b : Nat) : Bool := decide (a < b)

/-- A job after the map phase with three threads: the vectors (front to back)
`[(1, 11), (3, 10)]`, `[(2, 13), (3, 12)]` and `[]`. -/
def example_job : JobContext Nat Nat :=
  { stage := .MAP_STAGE,
    intermediate_vectors := [[(3, 10), (1, 11)], [(3, 12), (2, 13)], []],
    shuffled_queue := [],
    total_reduce_groups := 0 }

end MapReduce

/-!
# Hierarchical page tables (`src/VirtualMemory/VirtualMemory.cpp`)

A shallow embedding of `VirtualMemory.cpp`.

* `MemoryConstants.h` is not among the sources.  Its constants are the fields
  of the record `MemoryConstants`; how they are related (`PAGE_SIZE` is
  `2 ^ OFFSET_WIDTH`, and so on) is stated by `MemoryConstants.valid` and is a
  hypothesis wherever it is needed.
* `PhysicalMemory.cpp` is not among the sources either.  The four functions
  `PMread`, `PMwrite`, `PMevict`, `PMrestore` are the fields of the record
  `PhysicalMemory`, over an arbitrary type `σ` of states of the physical memory
  and the swap space; every function of the embedding takes such a record and
  passes the state along.
* `uint64_t` values are natural numbers, reduced modulo `2 ^ 64` (`wrap64`,
  `sub64`) wherever the C++ arithmetic can wrap around.  Shifts by 64 or more
  and a division by zero are undefined in C++; they do not occur when the
  constants are valid.
* `word_t` is taken to be a 32-bit `int`: a word is an `Int`, the conversion to
  `uint64_t` is `to_uint64`, the conversion from `uint64_t` is `to_word`.
* `dfs` recurses on the number of levels left below the frame it visits,
  `TABLES_DEPTH - depth`: the test `depth == TABLES_DEPTH` is the case of zero
  levels left.
-/

namespace VirtualMemory

/-- The constants of `MemoryConstants.h`. -/
structure MemoryConstants where
  OFFSET_WIDTH : Nat
  PAGE_SIZE : Nat
  VIRTUAL_ADDRESS_WIDTH : Nat
  VIRTUAL_MEMORY_SIZE : Nat
  NUM_FRAMES : Nat
  NUM_PAGES : Nat
  TABLES_DEPTH : Nat

/-- The functions of `PhysicalMemory.h`, on a state `σ` of the physical memory
and the swap space. -/
structure PhysicalMemory (σ : Type) where
  PMread : σ → Nat → Int
  PMwrite : σ → Nat → Int → σ
  PMevict : σ → Nat → Nat → σ
  PMrestore : σ → Nat → Nat → σ

/-- The value `std::numeric_limits<uint64_t>::max()`, also `(uint64_t)-1`. -/
def UINT64_MAX : Nat := 2 ^ 64 - 1

/-- Reduction of an arithmetic result to `uint64_t`. -/
def wrap64 (n : Nat) : Nat := n % 2 ^ 64

/-- Subtraction of `uint64_t` values. -/
def sub64 (a b : Nat) : Nat := (a % 2 ^ 64 + 2 ^ 64 - b % 2 ^ 64) % 2 ^ 64

/-- Conversion of a `word_t` to `uint64_t`. -/
def to_uint64 (w : Int) : Nat := (w % 2 ^ 64).toNat

/-- Conversion of a `uint64_t` to `word_t`. -/
def to_word (n : Nat) : Int := (((n + 2 ^ 31) % 2 ^ 32 : Nat) : Int) - 2 ^ 31

/-- The function `clearTable` (lines 8-11). -/
def clearTable {σ : Type} (c : MemoryConstants) (pm : PhysicalMemory σ) (frameIdx : Nat)
    (m : σ) : σ :=
  (List.range c.PAGE_SIZE).foldl
    (fun m i => pm.PMwrite m (wrap64 (frameIdx * c.PAGE_SIZE + i)) 0) m

/-- The function `VMinitialize` (line 14). -/
def VMinitialize {σ : Type} (c : MemoryConstants) (pm : PhysicalMemory σ) (m : σ) : σ :=
  clearTable c pm 0 m

/-- The function `cyclicDistance` (lines 17-20). -/
def cyclicDistance (c : MemoryConstants) (a b : Nat) : Nat :=
  let diff := if a > b then a - b else b - a
  min (sub64 c.NUM_PAGES diff) diff

/-- The reference parameters of `dfs`. -/
structure Search where
  highestUsed : Nat
  emptyTblFrame : Nat
  emptyTblParent : Nat
  bestLeafFrame : Nat
  bestLeafPage : Nat
  bestLeafParent : Nat
  bestLeafDist : Nat
  deriving DecidableEq

/-- The expression `(virtPrefix << OFFSET_WIDTH) | i` of `dfs` (line 53). -/
def childPrefix (c : MemoryConstants) (virtPrefix i : Nat) : Nat :=
  wrap64 (virtPrefix <<< c.OFFSET_WIDTH) ||| i

/-- The function `dfs` (lines 23-63), with `levels` levels left below `frame`
(`levels = TABLES_DEPTH - depth`). -/
def dfs {σ : Type} (c : MemoryConstants) (pm : PhysicalMemory σ) (m : σ) (forbid : List Nat)
    (targetPage : Nat) : Nat → Nat → Nat → Nat → Search → Search
  | 0, frame, virtPrefix, parentAddr, r =>
    let r := { r with highestUsed := max r.highestUsed frame }
    let forbiddenHere := forbid.any (fun f => decide (f = frame))
    if forbiddenHere = false then
      let dist := cyclicDistance c virtPrefix targetPage
      if dist > r.bestLeafDist ∨ (dist = r.bestLeafDist ∧ virtPrefix < r.bestLeafPage) then
        { r with bestLeafDist := dist, bestLeafFrame := frame, bestLeafPage := virtPrefix,
                 bestLeafParent := parentAddr }
      else r
    else r
  | levels + 1, frame, virtPrefix, parentAddr, r =>
    let r := { r with highestUsed := max r.highestUsed frame }
    let forbiddenHere := forbid.any (fun f => decide (f = frame))
    let loop := (List.range c.PAGE_SIZE).foldl
      (fun (acc : Bool × Search) i =>
        let child := pm.PMread m (wrap64 (frame * c.PAGE_SIZE + i))
        if child = 0 then acc
        else
          (false, dfs c pm m forbid targetPage levels (to_uint64 child)
            (childPrefix c virtPrefix i) (wrap64 (frame * c.PAGE_SIZE + i)) acc.2))
      (true, r)
    if loop.1 = true ∧ forbiddenHere = false ∧ loop.2.emptyTblFrame = 0 then
      { loop.2 with emptyTblFrame := frame, emptyTblParent := parentAddr }
    else loop.2

/-- The values with which `chooseFrame` initialises the search (lines 68-69). -/
def Search.initial : Search :=
  { highestUsed := 0, emptyTblFrame := 0, emptyTblParent := UINT64_MAX,
    bestLeafFrame := 0, bestLeafPage := 0, bestLeafParent := UINT64_MAX, bestLeafDist := 0 }

/-- The function `chooseFrame` (lines 66-88): the frame chosen and the memory
afterwards. -/
def chooseFrame {σ : Type} (c : MemoryConstants) (pm : PhysicalMemory σ) (targetPage : Nat)
    (forbid : List Nat) (asTable : Bool) (m : σ) : Nat × σ :=
  let r := dfs c pm m forbid targetPage c.TABLES_DEPTH 0 0 UINT64_MAX Search.initial
  if wrap64 (r.highestUsed + 1) < c.NUM_FRAMES then
    let newFrame := wrap64 (r.highestUsed + 1)
    (newFrame, if asTable = true then clearTable c pm newFrame m else m)
  else if r.emptyTblFrame ≠ 0 then
    let m := pm.PMwrite m r.emptyTblParent 0
    (r.emptyTblFrame, if asTable = true then clearTable c pm r.emptyTblFrame m else m)
  else
    let m := pm.PMevict m r.bestLeafFrame r.bestLeafPage
    let m := pm.PMwrite m r.bestLeafParent 0
    (r.bestLeafFrame, if asTable = true then clearTable c pm r.bestLeafFrame m else m)

/-- The variable `top_level_bits` of `toPhysical` (lines 100-102). -/
def top_level_bits (c : MemoryConstants) : Nat :=
  let total_page_num_bits := sub64 c.VIRTUAL_ADDRESS_WIDTH c.OFFSET_WIDTH
  let top_level_bits := total_page_num_bits % c.OFFSET_WIDTH
  if top_level_bits = 0 ∧ c.TABLES_DEPTH > 0 then c.OFFSET_WIDTH
  else if c.TABLES_DEPTH = 0 then 0
  else top_level_bits

/-- The variable `current_level_shift_in_page_num` of `toPhysical` (lines
105-109) at level `depth`. -/
def level_shift (c : MemoryConstants) (depth : Nat) : Nat :=
  let total_page_num_bits := sub64 c.VIRTUAL_ADDRESS_WIDTH c.OFFSET_WIDTH
  if depth = 0 then sub64 total_page_num_bits (top_level_bits c)
  else sub64 (sub64 total_page_num_bits (top_level_bits c)) (wrap64 (depth * c.OFFSET_WIDTH))

/-- The variable `index` of `toPhysical` (line 111) at level `depth`. -/
def level_index (c : MemoryConstants) (page_num depth : Nat) : Nat :=
  (page_num >>> level_shift c depth) &&& sub64 (wrap64 (1 <<< c.OFFSET_WIDTH)) 1

/-- One iteration of the loop of `toPhysical` (lines 104-126) at level `depth`,
on the variables `frame`, `forbid` and the memory. -/
def toPhysical_step {σ : Type} (c : MemoryConstants) (pm : PhysicalMemory σ) (page_num : Nat)
    (st : Nat × List Nat × σ) (depth : Nat) : Nat × List Nat × σ :=
  let frame := st.1
  let forbid := st.2.1
  let m := st.2.2
  let index := level_index c page_num depth
  let entry := pm.PMread m (wrap64 (frame * c.PAGE_SIZE + index))
  let r : Int × σ :=
    if entry = 0 then
      let needTable := decide (depth + 1 < c.TABLES_DEPTH)
      let chosen := chooseFrame c pm page_num forbid needTable m
      let newFrame := chosen.1
      let m := chosen.2
      let m := if needTable = false then pm.PMrestore m newFrame page_num else m
      let m := pm.PMwrite m (wrap64 (frame * c.PAGE_SIZE + index)) (to_word newFrame)
      (to_word newFrame, m)
    else (entry, m)
  let frame := to_uint64 r.1
  let forbid := if depth + 1 < c.TABLES_DEPTH then forbid.set (depth + 1) frame else forbid
  (frame, forbid, r.2)

/-- The function `toPhysical` (lines 91-128): the physical address and the
memory afterwards. -/
def toPhysical {σ : Type} (c : MemoryConstants) (pm : PhysicalMemory σ) (vaddr : Nat) (m : σ) :
    Nat × σ :=
  if c.TABLES_DEPTH = 0 then (vaddr, m)
  else
    let forbid := (List.replicate c.TABLES_DEPTH UINT64_MAX).set 0 0
    let page_num := vaddr >>> c.OFFSET_WIDTH
    let st := (List.range c.TABLES_DEPTH).foldl (toPhysical_step c pm page_num) (0, forbid, m)
    (wrap64 (st.1 * c.PAGE_SIZE + (vaddr &&& (c.PAGE_SIZE - 1))), st.2.2)

/-- The function `VMread` (lines 131-136): the return value, the word read and
the memory afterwards. -/
def VMread {σ : Type} (c : MemoryConstants) (pm : PhysicalMemory σ) (vaddr : Nat) (m : σ) :
    Int × Option Int × σ :=
  if vaddr ≥ c.VIRTUAL_MEMORY_SIZE then (0, none, m)
  else
    let r := toPhysical c pm vaddr m
    (1, some (pm.PMread r.2 r.1), r.2)

/-- The function `VMwrite` (lines 139-144): the return value and the memory
afterwards. -/
def VMwrite {σ : Type} (c : MemoryConstants) (pm : PhysicalMemory σ) (vaddr : Nat) (val : Int)
    (m : σ) : Int × σ :=
  if vaddr ≥ c.VIRTUAL_MEMORY_SIZE then (0, m)
  else
    let r := toPhysical c pm vaddr m
    (1, pm.PMwrite r.2 r.1 val)

/-- How the constants of `MemoryConstants.h` are related: the offset is at
least one bit wide, the page number too, an address fits in 64 bits, a page has
`2 ^ OFFSET_WIDTH` words, the virtual memory `2 ^ VIRTUAL_ADDRESS_WIDTH` words,
and `TABLES_DEPTH` is the number of bits of the page number divided by
`OFFSET_WIDTH`, rounded up. -/
structure MemoryConstants.valid (c : MemoryConstants) : Prop where
  offset_pos : 0 < c.OFFSET_WIDTH
  offset_lt : c.OFFSET_WIDTH < c.VIRTUAL_ADDRESS_WIDTH
  width_le : c.VIRTUAL_ADDRESS_WIDTH ≤ 64
  page_size : c.PAGE_SIZE = 2 ^ c.OFFSET_WIDTH
  memory_size : c.VIRTUAL_MEMORY_SIZE = 2 ^ c.VIRTUAL_ADDRESS_WIDTH
  tables_depth : c.TABLES_DEPTH =
    (c.VIRTUAL_ADDRESS_WIDTH - c.OFFSET_WIDTH + c.OFFSET_WIDTH - 1) / c.OFFSET_WIDTH

/-- The indices that `toPhysical` extracts from a page number, from the root
down. -/
def page_indices (c : MemoryConstants) (page_num : Nat) : List Nat :=
  (List.range c.TABLES_DEPTH).map (level_index c page_num)

/-- The walk of `toPhysical` down the tables from `frame` along the indices
`path`, for as long as no entry is zero: the frame it ends in, or `none` when it
meets a zero entry. -/
def descend {σ : Type} (c : MemoryConstants) (pm : PhysicalMemory σ) (m : σ) :
    List Nat → Nat → Option Nat
  | [], frame => some frame
  | i :: path, frame =>
    if pm.PMread m (wrap64 (frame * c.PAGE_SIZE + i)) = 0 then none
    else descend c pm m path (to_uint64 (pm.PMread m (wrap64 (frame * c.PAGE_SIZE + i))))

/-- The search `r'` has the same best leaf as `r`. -/
def Search.same_leaf (r r' : Search) : Prop :=
  r'.bestLeafFrame = r.bestLeafFrame ∧ r'.bestLeafPage = r.bestLeafPage ∧
    r'.bestLeafParent = r.bestLeafParent ∧ r'.bestLeafDist = r.bestLeafDist

/-- The best leaf of the search `r'` lies `levels` levels below `frame`: some
path of `levels` indices leads from `frame` to the leaf frame through non-zero
entries, and the page of the leaf is the prefix built along this path from
`virtPrefix`. -/
def leaf_below {σ : Type} (c : MemoryConstants) (pm : PhysicalMemory σ) (m : σ)
    (levels frame virtPrefix : Nat) (r' : Search) : Prop :=
  ∃ path : List Nat, path.length = levels ∧ (∀ i, i ∈ path → i < c.PAGE_SIZE) ∧
    descend c pm m path frame = some r'.bestLeafFrame ∧
    r'.bestLeafPage = path.foldl (childPrefix c) virtPrefix

/-- Constants for concrete runs: 2 offset bits, 7 address bits, so 5 bits of
page number over 3 levels of tables, the top level indexed by one bit. -/
def example_constants : MemoryConstants :=
  { OFFSET_WIDTH := 2, PAGE_SIZE := 4, VIRTUAL_ADDRESS_WIDTH := 7, VIRTUAL_MEMORY_SIZE := 128,
    NUM_FRAMES := 4, NUM_PAGES := 32, TABLES_DEPTH := 3 }

/-- A physical memory for concrete runs: the state is the RAM, a function from
addresses to words; there is no swap space, so `PMevict` and `PMrestore` do
nothing. -/
def example_memory : PhysicalMemory (Nat → Int) :=
  { PMread := fun m a => m a,
    PMwrite := fun m a w => Function.update m a w,
    PMevict := fun m _ _ => m,
    PMrestore := fun m _ _ => m }

/-- A RAM in which entry 1 of frame 0 is frame 1, entry 2 of frame 1 is frame 2
and entry 3 of frame 2 is frame 3: page `(1 * 4 + 2) * 4 + 3 = 27` is in
frame 3. -/
def example_ram : Nat → Int :=
  fun a => if a = 1 then 1 else if a = 6 then 2 else if a = 11 then 3 else 0

end VirtualMemory

namespace UThreads

/-! ## Basic facts -/

theorem set_thread_same (s : State) (i : Nat) (t : Option Thread) :
    (s.set_thread i t).threads i = t := by
  simp [State.set_thread]

theorem set_thread_other (s : State) (i j : Nat) (t : Option Thread) (h : j ≠ i) :
    (s.set_thread i t).threads j = s.threads j := by
  simp [State.set_thread, Function.update_noteq h]

theorem modify_some (s : State) (i : Nat) (f : Thread → Thread) (t : Thread)
    (h : s.threads i = some t) : s.modify i f = s.set_thread i (some (f t)) := by
  simp [State.modify, h]

theorem find_free_some (s : State) (n i k : Nat) (h : find_free s i n = some k) :
    i ≤ k ∧ k < i + n ∧ slot_free s k ∧ ∀ j, i ≤ j → j < k → ¬ slot_free s j := by
  induction n generalizing i with
  | zero => simp [find_free] at h
  | succ n ih =>
    unfold find_free at h
    by_cases hf : slot_free s i
    · rw [if_pos hf] at h
      cases h
      exact ⟨le_refl _, by omega, hf, fun j h1 h2 => by omega⟩
    · rw [if_neg hf] at h
      obtain ⟨h1, h2, h3, h4⟩ := ih (i + 1) h
      refine ⟨by omega, by omega, h3, fun j hj1 hj2 => ?_⟩
      by_cases hji : j = i
      · subst hji; exact hf
      · exact h4 j (by omega) hj2

theorem find_free_none (s : State) (n i : Nat) :
    find_free s i n = none ↔ ∀ j, i ≤ j → j < i + n → ¬ slot_free s j := by
  induction n generalizing i with
  | zero => simp [find_free]; intro j h1 h2; omega
  | succ n ih =>
    unfold find_free
    by_cases hf : slot_free s i
    · rw [if_pos hf]
      simp only [reduceCtorEq, false_iff]
      intro h
      exact h i (le_refl _) (by omega) hf
    · rw [if_neg hf, ih]
      constructor
      · intro h j h1 h2
        by_cases hji : j = i
        · subst hji; exact hf
        · exact h j (by omega) (by omega)
      · intro h j h1 h2
        exact h j (by omega) (by omega)

theorem find_free_of_exists (s : State) (M : Nat) (h : ∃ i, i < M ∧ slot_free s i) :
    ∃ k, find_free s 0 M = some k := by
  cases hk : find_free s 0 M with
  | some k => exact ⟨k, rfl⟩
  | none =>
    obtain ⟨i, hi, hf⟩ := h
    exact absurd hf ((find_free_none s M 0).1 hk i (Nat.zero_le _) (by omega))

theorem slot_free_ignoreClock (s : State) (i : Nat) :
    slot_free (ignoreClock s) i ↔ slot_free s i := Iff.rfl

theorem find_free_ignoreClock (s : State) (i n : Nat) :
    find_free (ignoreClock s) i n = find_free s i n := by
  induction n generalizing i with
  | zero => rfl
  | succ n ih => simp only [find_free, slot_free_ignoreClock, ih]

/-- The effect of a successful `uthread_spawn`, as one equation. -/
theorem uthread_spawn_eq (M : Nat) (s : State) (f : Nat) (k : Nat)
    (h : find_free s 0 M = some k) :
    uthread_spawn M (some f) s =
      .ret k { s with threads := Function.update s.threads k (some (Thread.new_entry (some f) k)),
                      ready_queue := s.ready_queue ++ [k],
                      sigvtalrm_blocked :=
                        (s.sigvtalrm_blocked || s.set_has_sigvtalrm) && !s.set_has_sigvtalrm } := by
  have h2 : find_free (ignoreClock s) 0 M = some k := by rw [find_free_ignoreClock]; exact h
  simp only [uthread_spawn, reduceCtorEq, if_false, h2]
  simp [State.modify, State.set_thread, acceptClockSignal, ignoreClock, Thread.new_entry]

/-- The effect of a successful `uthread_init`, as one equation. -/
theorem uthread_init_eq (quantum_usecs : Int) (hq : 0 < quantum_usecs) (s : State) :
    uthread_init quantum_usecs s =
      .ret SUCCESS { s with threads := Function.update s.threads 0
                              (some { Thread.new with quantum_count := 1 }),
                            current_tid := 0, total_quantums := 1,
                            quantum_usecs_global := quantum_usecs, ready_queue := [] } := by
  have hq2 : ¬ quantum_usecs ≤ 0 := by omega
  simp only [uthread_init, if_neg hq2, State.set_thread]
  rfl

/-- C1. For every `quantum_usecs > 0`, `uthread_init quantum_usecs` on the initial
(empty) globals returns `SUCCESS` and leaves the current id 0, total quantums 1,
thread 0 active, `RUNNING` and with quantum count 1, and an empty ready queue;
so `uthread_get_tid` gives 0 and `uthread_get_total_quantums` gives 1. -/
theorem uthread_init_spec (quantum_usecs : Int) (hq : 0 < quantum_usecs) :
    ∃ s t, uthread_init quantum_usecs State.initial = .ret SUCCESS s ∧
      s.current_tid = 0 ∧ s.total_quantums = 1 ∧
      s.threads 0 = some t ∧ t.active = true ∧ t.state = .RUNNING ∧ t.quantum_count = 1 ∧
      s.ready_queue = [] ∧
      uthread_get_tid s = 0 ∧ uthread_get_total_quantums s = 1 := by
  refine ⟨_, { Thread.new with quantum_count := 1 }, uthread_init_eq quantum_usecs hq _,
    rfl, rfl, ?_, rfl, rfl, rfl, rfl, rfl, rfl⟩
  simp

theorem uthread_init_spec_witness :
    (0 : Int) < 1000 ∧
    ∃ s t, uthread_init 1000 State.initial = .ret SUCCESS s ∧
      s.current_tid = 0 ∧ s.total_quantums = 1 ∧
      s.threads 0 = some t ∧ t.active = true ∧ t.state = .RUNNING ∧ t.quantum_count = 1 ∧
      s.ready_queue = [] ∧
      uthread_get_tid s = 0 ∧ uthread_get_total_quantums s = 1 :=
  ⟨by decide, uthread_init_spec 1000 (by decide)⟩

theorem find_free_eq (s : State) (M k : Nat) (hk : k < M) (hfree : slot_free s k)
    (hlow : ∀ j, j < k → ¬ slot_free s j) : find_free s 0 M = some k := by
  obtain ⟨k', hk'⟩ := find_free_of_exists s M ⟨k, hk, hfree⟩
  obtain ⟨-, -, h3, h4⟩ := find_free_some s M 0 k' hk'
  have h5 : ¬ k < k' := fun h => h4 k (Nat.zero_le _) h hfree
  have h6 : ¬ k' < k := fun h => hlow k' h h3
  have : k' = k := by omega
  rw [hk', this]

/-- A spawn that finds no free slot fails and only touches the signal mask. -/
theorem uthread_spawn_full (M : Nat) (s : State) (e : thread_entry_point)
    (hfull : ∀ j, j < M → ¬ slot_free s j) :
    uthread_spawn M e s = .ret FAIL (ignoreClock s) := by
  have h : find_free (ignoreClock s) 0 M = none := by
    rw [find_free_ignoreClock, find_free_none]
    intro j _ hj
    exact hfull j (by omega)
  unfold uthread_spawn
  by_cases he : e = none
  · simp only [he, if_true]
  · simp only [he, if_false, h]

/-- A spawn with a null entry point fails and only touches the signal mask. -/
theorem uthread_spawn_null (M : Nat) (s : State) :
    uthread_spawn M none s = .ret FAIL (ignoreClock s) := by
  simp [uthread_spawn]

theorem spawn_many_fresh (M : Nat) (fs : List Nat) :
    ∀ (s : State) (k : Nat), (∀ j, j < k → ¬ slot_free s j) → (∀ j, k ≤ j → s.threads j = none) →
      k + fs.length ≤ M →
      (spawn_many M (fs.map some) s).1 = (List.range' k fs.length).map Int.ofNat ∧
      (spawn_many M (fs.map some) s).2.ready_queue = s.ready_queue ++ List.range' k fs.length ∧
      (spawn_many M (fs.map some) s).2.current_tid = s.current_tid ∧
      (spawn_many M (fs.map some) s).2.total_quantums = s.total_quantums ∧
      (∀ j, j < k + fs.length → ¬ slot_free (spawn_many M (fs.map some) s).2 j) ∧
      (∀ j, k + fs.length ≤ j → (spawn_many M (fs.map some) s).2.threads j = none) ∧
      (∀ j, j < k → (spawn_many M (fs.map some) s).2.threads j = s.threads j) := by
  induction fs with
  | nil =>
    intro s k h1 h2 _
    simp [spawn_many]
    exact ⟨h1, h2⟩
  | cons f fs ih =>
    intro s k h1 h2 hlen
    simp only [List.length_cons] at hlen
    have hfree : slot_free s k := by simp [slot_free, h2 k (le_refl _)]
    have hk := find_free_eq s M k (by omega) hfree h1
    obtain ⟨s', heq, ht, hq, hc, htot⟩ : ∃ s', uthread_spawn M (some f) s = .ret k s' ∧
        s'.threads = Function.update s.threads k (some (Thread.new_entry (some f) k)) ∧
        s'.ready_queue = s.ready_queue ++ [k] ∧ s'.current_tid = s.current_tid ∧
        s'.total_quantums = s.total_quantums :=
      ⟨_, uthread_spawn_eq M s f k hk, rfl, rfl, rfl, rfl⟩
    simp only [List.map_cons, spawn_many, heq]
    have h1' : ∀ j, j < k + 1 → ¬ slot_free s' j := by
      intro j hj
      by_cases hjk : j = k
      · subst hjk; simp [slot_free, ht, Thread.new_entry]
      · have := h1 j (by omega)
        simpa [slot_free, ht, Function.update_noteq hjk] using this
    have h2' : ∀ j, k + 1 ≤ j → s'.threads j = none := by
      intro j hj
      have hjk : j ≠ k := by omega
      rw [ht, Function.update_noteq hjk]
      exact h2 j (by omega)
    obtain ⟨r1, r2, r3, r4, r5, r6, r7⟩ := ih s' (k + 1) h1' h2' (by omega)
    refine ⟨?_, ?_, ?_, ?_, ?_, ?_, ?_⟩
    · simp [r1, List.range'_succ]
    · rw [r2, hq]; simp [List.range'_succ]
    · rw [r3, hc]
    · rw [r4, htot]
    · intro j hj; exact r5 j (by simp only [List.length_cons] at hj; omega)
    · intro j hj; exact r6 j (by simp only [List.length_cons] at hj; omega)
    · intro j hj
      rw [r7 j (by omega), ht, Function.update_noteq (by omega)]

theorem init_state_eq (q : Int) (hq : 0 < q) :
    init_state q = { State.initial with
      threads := Function.update State.initial.threads 0
        (some { Thread.new with quantum_count := 1 }),
      current_tid := 0, total_quantums := 1, quantum_usecs_global := q, ready_queue := [] } := by
  simp [init_state, uthread_init_eq q hq, Outcome.next]

/-- C3. Right after `uthread_init`, `N < MAX_THREAD_NUM` consecutive spawns with
non-null entry points return `1, 2, ..., N` in this order and leave the ready
queue `[1, ..., N]` with current id 0.  When that fills the table
(`N + 1 = MAX_THREAD_NUM`) a further spawn returns `FAIL` and changes neither
the table, nor the queue, nor the current id, nor the quantum counter; the same
holds in any state whose slots are all occupied. -/
theorem spawn_after_init (MAX_THREAD_NUM : Nat) (quantum_usecs : Int) (hq : 0 < quantum_usecs)
    (fs : List Nat) (hN : fs.length < MAX_THREAD_NUM) :
    ∃ s, spawn_many MAX_THREAD_NUM (fs.map some) (init_state quantum_usecs) =
        ((List.range' 1 fs.length).map Int.ofNat, s) ∧
      s.ready_queue = List.range' 1 fs.length ∧ s.current_tid = 0 ∧
      (fs.length + 1 = MAX_THREAD_NUM → ∀ entry_point,
        ∃ s₂, uthread_spawn MAX_THREAD_NUM entry_point s = .ret FAIL s₂ ∧
          s₂.threads = s.threads ∧ s₂.ready_queue = s.ready_queue ∧
          s₂.current_tid = s.current_tid ∧ s₂.total_quantums = s.total_quantums) ∧
      ∀ s₁, (∀ j, j < MAX_THREAD_NUM → ¬ slot_free s₁ j) → ∀ entry_point,
        ∃ s₂, uthread_spawn MAX_THREAD_NUM entry_point s₁ = .ret FAIL s₂ ∧
          s₂.threads = s₁.threads ∧ s₂.ready_queue = s₁.ready_queue ∧
          s₂.current_tid = s₁.current_tid ∧ s₂.total_quantums = s₁.total_quantums := by
  have h0 := init_state_eq quantum_usecs hq
  have h1 : ∀ j, j < 1 → ¬ slot_free (init_state quantum_usecs) j := by
    intro j hj
    have : j = 0 := by omega
    subst this
    simp [h0, slot_free, Thread.new]
  have h2 : ∀ j, 1 ≤ j → (init_state quantum_usecs).threads j = none := by
    intro j hj
    have : j ≠ 0 := by omega
    simp [h0, Function.update_noteq this, State.initial]
  obtain ⟨r1, r2, r3, -, r5, -, -⟩ :=
    spawn_many_fresh MAX_THREAD_NUM fs (init_state quantum_usecs) 1 h1 h2 (by omega)
  refine ⟨(spawn_many MAX_THREAD_NUM (fs.map some) (init_state quantum_usecs)).2,
    ?_, ?_, ?_, ?_, ?_⟩
  · rw [← r1]
  · rw [r2, h0]; simp
  · rw [r3, h0]
  · intro hM e
    exact ⟨_, uthread_spawn_full MAX_THREAD_NUM _ e (fun j hj => r5 j (by omega)),
      rfl, rfl, rfl, rfl⟩
  · intro s₁ hfull e
    exact ⟨_, uthread_spawn_full MAX_THREAD_NUM s₁ e hfull, rfl, rfl, rfl, rfl⟩

/-! ## Preservation of the invariant: building blocks -/

theorem Base.frame {M : Nat} {s s' : State} (h : Base M s) (ht : s'.threads = s.threads)
    (hq : s'.ready_queue = s.ready_queue) (hc : s'.current_tid = s.current_tid) : Base M s' := by
  refine ⟨?_, ?_, ?_, ?_, ?_, ?_⟩
  · rw [ht]; exact h.main
  · rw [ht]; exact h.bound
  · rw [ht]; exact h.ok
  · rw [ht, hc]; exact h.running
  · rw [hq]; exact h.queue_nodup
  · rw [ht, hq]; exact h.queue_iff

theorem Inv.mask_only {M : Nat} {s s' : State} (h : Inv M s) (ht : s'.threads = s.threads)
    (hq : s'.ready_queue = s.ready_queue) (hc : s'.current_tid = s.current_tid) : Inv M s' :=
  ⟨h.toBase.frame ht hq hc, by rw [ht, hc]; exact h.cur⟩

/-- Slot `i` is overwritten with a well-formed thread. -/
theorem Base.update {M : Nat} {s s' : State} (h : Base M s) (i : Nat) (t' : Thread)
    (ht : s'.threads = Function.update s.threads i (some t'))
    (hi : i < M) (hok : t'.ok i)
    (hmain : i = 0 → t'.state ≠ .BLOCKED)
    (hrun : t'.state = .RUNNING → i = s'.current_tid)
    (hrun' : ∀ j tj, j ≠ i → s.threads j = some tj → tj.state = .RUNNING → j = s'.current_tid)
    (hnd : s'.ready_queue.Nodup)
    (hqi : i ∈ s'.ready_queue ↔ t'.state = .READY)
    (hqj : ∀ j, j ≠ i → (j ∈ s'.ready_queue ↔ j ∈ s.ready_queue)) : Base M s' := by
  refine ⟨?_, ?_, ?_, ?_, hnd, ?_⟩
  · by_cases h0 : i = 0
    · subst h0
      exact ⟨t', by simp [ht], hmain rfl⟩
    · rw [ht, Function.update_noteq (Ne.symm h0)]
      exact h.main
  · intro j tj hj
    by_cases hji : j = i
    · subst hji; exact hi
    · rw [ht, Function.update_noteq hji] at hj
      exact h.bound j tj hj
  · intro j tj hj
    by_cases hji : j = i
    · subst hji
      simp [ht] at hj
      subst hj; exact hok
    · rw [ht, Function.update_noteq hji] at hj
      exact h.ok j tj hj
  · intro j tj hj hr
    by_cases hji : j = i
    · subst hji
      simp [ht] at hj
      subst hj; exact hrun hr
    · rw [ht, Function.update_noteq hji] at hj
      exact hrun' j tj hji hj hr
  · intro j
    by_cases hji : j = i
    · subst hji
      rw [hqi, ht]
      simp
    · rw [hqj j hji, ht, Function.update_noteq hji]
      exact h.queue_iff j

/-- Slot `i` (not the main thread) is emptied. -/
theorem Base.erase {M : Nat} {s s' : State} (h : Base M s) (i : Nat)
    (ht : s'.threads = Function.update s.threads i none)
    (hi : i ≠ 0)
    (hc : s'.current_tid = s.current_tid)
    (hnd : s'.ready_queue.Nodup)
    (hqi : i ∉ s'.ready_queue)
    (hqj : ∀ j, j ≠ i → (j ∈ s'.ready_queue ↔ j ∈ s.ready_queue)) : Base M s' := by
  refine ⟨?_, ?_, ?_, ?_, hnd, ?_⟩
  · rw [ht, Function.update_noteq (Ne.symm hi)]
    exact h.main
  · intro j tj hj
    by_cases hji : j = i
    · subst hji; simp [ht] at hj
    · rw [ht, Function.update_noteq hji] at hj
      exact h.bound j tj hj
  · intro j tj hj
    by_cases hji : j = i
    · subst hji; simp [ht] at hj
    · rw [ht, Function.update_noteq hji] at hj
      exact h.ok j tj hj
  · intro j tj hj hr
    by_cases hji : j = i
    · subst hji; simp [ht] at hj
    · rw [ht, Function.update_noteq hji] at hj
      rw [hc]
      exact h.running j tj hj hr
  · intro j
    by_cases hji : j = i
    · subst hji
      simp [ht, hqi]
    · rw [hqj j hji, ht, Function.update_noteq hji]
      exact h.queue_iff j

/-- Under the invariant a slot is free exactly when it is empty. -/
theorem Base.free_iff_none {M : Nat} {s : State} (h : Base M s) (i : Nat) :
    slot_free s i ↔ s.threads i = none := by
  unfold slot_free
  cases hi : s.threads i with
  | none => simp
  | some t => simp [(h.ok i t hi).active]

/-- A thread that is not `READY` is not queued. -/
theorem Base.not_mem_queue {M : Nat} {s : State} (h : Base M s) (i : Nat)
    (hi : ∀ t, s.threads i = some t → t.state ≠ .READY) : i ∉ s.ready_queue := by
  intro hmem
  obtain ⟨t, ht, hr⟩ := (h.queue_iff i).1 hmem
  exact hi t ht hr

/-! ## The wake-up loop -/

theorem wake_one_threads (s : State) (i : Nat) :
    (wake_one s i).threads = Function.update s.threads i ((s.threads i).map wake_thread) := by
  rcases Option.eq_none_or_eq_some (s.threads i) with hi | ⟨t, hi⟩
  · simp only [wake_one, hi, Option.map_none']
    rw [← hi, Function.update_eq_self]
  · simp only [wake_one, hi, Option.map_some', wake_thread]
    split_ifs <;> simp_all [State.set_thread, ← hi]

theorem woken_iff (s : State) (i : Nat) (t : Thread) (hi : s.threads i = some t) :
    woken s i ↔ (t.active = true ∧ t.state = .BLOCKED ∧ 0 < t.sleep_quantums ∧
      t.sleep_quantums - 1 = 0 ∧ t.manually_blocked = false) := by
  simp [woken, hi]

theorem not_woken_of_none (s : State) (i : Nat) (hi : s.threads i = none) : ¬ woken s i := by
  simp [woken, hi]

theorem wake_one_queue (s : State) (i : Nat) :
    (wake_one s i).ready_queue = s.ready_queue ++ if woken s i then [i] else [] := by
  rcases Option.eq_none_or_eq_some (s.threads i) with hi | ⟨t, hi⟩
  · simp [wake_one, hi, not_woken_of_none s i hi]
  · simp only [wake_one, hi, woken_iff s i t hi]
    split_ifs <;> simp_all [State.set_thread]

theorem wake_one_fields (s : State) (i : Nat) :
    (wake_one s i).current_tid = s.current_tid ∧
    (wake_one s i).total_quantums = s.total_quantums ∧
    (wake_one s i).quantum_usecs_global = s.quantum_usecs_global ∧
    (wake_one s i).set_has_sigvtalrm = s.set_has_sigvtalrm ∧
    (wake_one s i).sigvtalrm_blocked = s.sigvtalrm_blocked := by
  rcases Option.eq_none_or_eq_some (s.threads i) with hi | ⟨t, hi⟩
  · simp [wake_one, hi]
  · simp only [wake_one, hi]
    split_ifs <;> simp [State.set_thread]

theorem wake_loop_fields (s : State) (n : Nat) :
    (wake_loop s n).current_tid = s.current_tid ∧
    (wake_loop s n).total_quantums = s.total_quantums ∧
    (wake_loop s n).quantum_usecs_global = s.quantum_usecs_global ∧
    (wake_loop s n).set_has_sigvtalrm = s.set_has_sigvtalrm ∧
    (wake_loop s n).sigvtalrm_blocked = s.sigvtalrm_blocked := by
  induction n with
  | zero => simp [wake_loop]
  | succ n ih =>
    obtain ⟨a, b, c, d, e⟩ := wake_one_fields (wake_loop s n) n
    obtain ⟨a', b', c', d', e'⟩ := ih
    simp only [wake_loop]
    exact ⟨a.trans a', b.trans b', c.trans c', d.trans d', e.trans e'⟩

theorem wake_loop_threads (s : State) (n j : Nat) :
    (wake_loop s n).threads j = if j < n then (s.threads j).map wake_thread else s.threads j := by
  induction n with
  | zero => simp [wake_loop]
  | succ n ih =>
    simp only [wake_loop, wake_one_threads]
    by_cases hjn : j = n
    · subst hjn
      have hn : (wake_loop s j).threads j = s.threads j := by
        have := ih
        simpa using this
      simp [hn]
    · rw [Function.update_noteq hjn, ih]
      have : (j < n + 1) = (j < n) := by
        apply propext; constructor <;> intro h <;> omega
      simp only [this]

theorem woken_wake_loop (s : State) (n : Nat) :
    woken (wake_loop s n) n ↔ woken s n := by
  unfold woken
  have := wake_loop_threads s n n
  simp only [lt_irrefl, if_false] at this
  rw [this]

theorem wake_loop_queue (s : State) (n : Nat) :
    (wake_loop s n).ready_queue = s.ready_queue ++ (List.range n).filter (fun i => woken s i) := by
  induction n with
  | zero => simp [wake_loop]
  | succ n ih =>
    simp only [wake_loop, wake_one_queue, ih, List.range_succ, List.filter_append,
      List.append_assoc, woken_wake_loop]
    by_cases hw : woken s n <;> simp [hw]

theorem wake_thread_of_not_blocked (t : Thread) (h : t.state ≠ .BLOCKED) : wake_thread t = t := by
  simp [wake_thread, h]

theorem wake_thread_ok (i : Nat) (t : Thread) (h : t.ok i) : (wake_thread t).ok i := by
  obtain ⟨h1, h2, h3, h4, h5, h6, h7, h8⟩ := h
  unfold wake_thread
  split_ifs with ha hb
  · obtain ⟨hb1, hb2⟩ := hb
    refine ⟨h1, h2, h3, h4, by simp [hb1], ?_, ?_, ?_⟩
    · intro h; simp only [hb1] at h; omega
    · intro h; simp [hb2] at h
    · intro h; simp at h
  · refine ⟨h1, h2, h3, h4, ?_, ?_, h7, ?_⟩
    · show 0 ≤ t.sleep_quantums - 1
      omega
    · intro _; exact ha.2.1
    · intro _
      show 0 < t.sleep_quantums - 1 ∨ t.manually_blocked = true
      by_cases hm : t.manually_blocked = true
      · exact Or.inr hm
      · left
        have : t.sleep_quantums - 1 ≠ 0 := fun h0 => hb ⟨h0, by simpa using hm⟩
        omega
  · exact ⟨h1, h2, h3, h4, h5, h6, h7, h8⟩

theorem wake_thread_state (t : Thread) :
    (wake_thread t).state =
      if t.active = true ∧ t.state = .BLOCKED ∧ 0 < t.sleep_quantums ∧
          t.sleep_quantums - 1 = 0 ∧ t.manually_blocked = false then .READY
      else t.state := by
  unfold wake_thread
  split_ifs <;> simp_all

theorem wake_thread_running (t : Thread) :
    (wake_thread t).state = .RUNNING ↔ t.state = .RUNNING := by
  rw [wake_thread_state]
  split_ifs with h
  · simp [h.2.1]
  · rfl

theorem wake_loop_threads_all {M : Nat} {s : State} (h : Base M s) (j : Nat) :
    (wake_loop s M).threads j = (s.threads j).map wake_thread := by
  rw [wake_loop_threads]
  split_ifs with hj
  · rfl
  · rcases Option.eq_none_or_eq_some (s.threads j) with hn | ⟨t, ht⟩
    · simp [hn]
    · exact absurd (h.bound j t ht) hj

theorem mem_wake_loop_queue {M : Nat} {s : State} (h : Base M s) (j : Nat) :
    j ∈ (wake_loop s M).ready_queue ↔ j ∈ s.ready_queue ∨ woken s j := by
  rw [wake_loop_queue]
  simp only [List.mem_append, List.mem_filter, List.mem_range, decide_eq_true_eq]
  constructor
  · rintro (h1 | ⟨-, h2⟩)
    · exact Or.inl h1
    · exact Or.inr h2
  · rintro (h1 | h2)
    · exact Or.inl h1
    · obtain ⟨t, ht, hw⟩ := h2
      exact Or.inr ⟨h.bound j t ht, ⟨t, ht, hw⟩⟩

theorem Base.wake_loop {M : Nat} {s : State} (h : Base M s) : Base M (wake_loop s M) := by
  refine ⟨?_, ?_, ?_, ?_, ?_, ?_⟩
  · obtain ⟨t, ht, hb⟩ := h.main
    exact ⟨t, by rw [wake_loop_threads_all h, ht, Option.map_some',
      wake_thread_of_not_blocked t hb], hb⟩
  · intro j tj hj
    rw [wake_loop_threads_all h] at hj
    rcases Option.eq_none_or_eq_some (s.threads j) with hn | ⟨t, ht⟩
    · simp [hn] at hj
    · exact h.bound j t ht
  · intro j tj hj
    rw [wake_loop_threads_all h] at hj
    rcases Option.eq_none_or_eq_some (s.threads j) with hn | ⟨t, ht⟩
    · simp [hn] at hj
    · simp only [ht, Option.map_some', Option.some.injEq] at hj
      subst hj
      exact wake_thread_ok j t (h.ok j t ht)
  · intro j tj hj hr
    rw [wake_loop_threads_all h] at hj
    rcases Option.eq_none_or_eq_some (s.threads j) with hn | ⟨t, ht⟩
    · simp [hn] at hj
    · simp only [ht, Option.map_some', Option.some.injEq] at hj
      subst hj
      rw [(wake_loop_fields s M).1]
      exact h.running j t ht ((wake_thread_running t).1 hr)
  · rw [wake_loop_queue]
    refine List.Nodup.append h.queue_nodup (List.nodup_range M |>.filter _) ?_
    intro a ha hb
    obtain ⟨t, ht, hr⟩ := (h.queue_iff a).1 ha
    simp only [List.mem_filter, List.mem_range, decide_eq_true_eq] at hb
    obtain ⟨-, t', ht', -, hbl, -⟩ := hb
    rw [ht] at ht'
    cases ht'
    rw [hr] at hbl
    cases hbl
  · intro j
    rw [mem_wake_loop_queue h, wake_loop_threads_all h]
    rcases Option.eq_none_or_eq_some (s.threads j) with hn | ⟨t, ht⟩
    · have h1 : j ∉ s.ready_queue := fun hm => by
        obtain ⟨t, ht, -⟩ := (h.queue_iff j).1 hm
        rw [hn] at ht; cases ht
      simp [hn, h1, not_woken_of_none s j hn]
    · have h1 : j ∈ s.ready_queue ↔ t.state = .READY := by
        rw [h.queue_iff j]; simp [ht]
      rw [h1, woken_iff s j t ht]
      simp only [ht, Option.map_some', Option.some.injEq, exists_eq_left', wake_thread_state]
      split_ifs with hw
      · simp [hw]
      · simp [hw]

/-! ## Saving the current thread and picking the next one -/

theorem save_current_running (s : State) (t : Thread) (hc : s.threads s.current_tid = some t)
    (ha : t.active = true) (hr : t.state = .RUNNING) :
    save_current s = { s with threads := Function.update s.threads s.current_tid
                                (some { t with state := .READY }),
                              ready_queue := s.ready_queue ++ [s.current_tid] } := by
  simp [save_current, hc, ha, hr]

theorem save_current_idle (s : State)
    (hc : ∀ t, s.threads s.current_tid = some t → t.state ≠ .RUNNING) :
    save_current s = s := by
  rcases Option.eq_none_or_eq_some (s.threads s.current_tid) with hn | ⟨t, ht⟩
  · simp [save_current, hn]
  · simp [save_current, ht, hc t ht]

theorem save_current_current (s : State) : (save_current s).current_tid = s.current_tid := by
  rcases Option.eq_none_or_eq_some (s.threads s.current_tid) with hn | ⟨t, ht⟩
  · simp [save_current, hn]
  · simp only [save_current, ht]
    split_ifs <;> rfl

theorem Thread.ok.demote {i : Nat} {t : Thread} (h : t.ok i) (hr : t.state = .RUNNING) :
    Thread.ok i { t with state := .READY } := by
  obtain ⟨h1, h2, h3, h4, h5, h6, h7, h8⟩ := h
  refine ⟨h1, h2, h3, h4, h5, ?_, ?_, ?_⟩
  · intro hs; have := h6 hs; rw [hr] at this; cases this
  · intro hm; have := h7 hm; rw [hr] at this; cases this
  · intro hb; cases hb

theorem Base.save_current {M : Nat} {s : State} (h : Base M s) :
    Base M (save_current s) ∧
      ∀ j t, (save_current s).threads j = some t → t.state ≠ .RUNNING := by
  by_cases hc : ∃ t, s.threads s.current_tid = some t ∧ t.state = .RUNNING
  · obtain ⟨t, ht, hr⟩ := hc
    have hok := h.ok _ t ht
    have hnotin : s.current_tid ∉ s.ready_queue :=
      h.not_mem_queue _ (fun t' ht' => by rw [ht] at ht'; cases ht'; simp [hr])
    rw [save_current_running s t ht hok.active hr]
    constructor
    · refine h.update s.current_tid { t with state := .READY } rfl (h.bound _ t ht)
        (hok.demote hr) (by simp) (by simp) ?_ ?_ (by simp) ?_
      · intro j tj hj hjt hjr
        exact absurd (h.running j tj hjt hjr) hj
      · exact List.Nodup.append h.queue_nodup (List.nodup_singleton _)
          (by simpa using hnotin)
      · intro j hj
        simp [hj]
    · intro j tj hj hjr
      by_cases hjc : j = s.current_tid
      · subst hjc
        simp at hj
        subst hj
        cases hjr
      · simp only [Function.update_noteq hjc] at hj
        exact hjc (h.running j tj hj hjr)
  · have hidle : ∀ t, s.threads s.current_tid = some t → t.state ≠ .RUNNING :=
      fun t ht hr => hc ⟨t, ht, hr⟩
    rw [save_current_idle s hidle]
    refine ⟨h, ?_⟩
    intro j tj hj hjr
    have := h.running j tj hj hjr
    subst this
    exact hidle tj hj hjr

theorem pick_next_head (threads : Nat → Option Thread) (tid : Nat) (rest : List Nat) (t : Thread)
    (ht : threads tid = some t) (ha : t.active = true) (he : t.env_initialized = true)
    (hr : t.state = .READY) : pick_next threads (tid :: rest) = (some tid, rest) := by
  simp [pick_next, ht, ha, he, hr]

/-! ## `scheduler_handler` under the invariant -/

theorem sched_dispatch_eq (sig : Int) (next : Nat) (s : State) (th : Thread)
    (hn : s.threads next = some th) :
    sched_dispatch sig next s =
      { s with current_tid := next,
               threads := Function.update s.threads next
                 (some { th with state := .RUNNING,
                                 quantum_count := if sig = SIGVTALRM then th.quantum_count + 1
                                                  else th.quantum_count }),
               total_quantums := if sig = SIGVTALRM then s.total_quantums + 1
                                 else s.total_quantums,
               sigvtalrm_blocked := false } := by
  by_cases hs : sig = SIGVTALRM
  · simp [sched_dispatch, State.modify, State.set_thread, hn, hs]
  · simp [sched_dispatch, State.modify, State.set_thread, hn, hs]

theorem sched_prepare_current (M : Nat) (sig : Int) (s : State) :
    (sched_prepare M sig s).current_tid = s.current_tid := by
  unfold sched_prepare
  simp only [save_current_current]
  split_ifs
  · rw [(wake_loop_fields _ M).1]
  · rfl

theorem Base.sched_prepare {M : Nat} {s : State} (sig : Int) (h : Base M s) :
    Base M (sched_prepare M sig s) ∧
      ∀ j t, (sched_prepare M sig s).threads j = some t → t.state ≠ .RUNNING := by
  have h1 : Base M { s with set_has_sigvtalrm := true, sigvtalrm_blocked := true } :=
    h.frame rfl rfl rfl
  unfold UThreads.sched_prepare
  by_cases hs : sig = SIGVTALRM
  · simp only [hs, if_true]
    exact h1.wake_loop.save_current
  · simp only [hs, if_false]
    exact h1.save_current

/-- In a state ready for the pick (no thread is `RUNNING`) the queue has a
head, and the head can be scheduled. -/
theorem Base.queue_head {M : Nat} {p : State} (hb : Base M p)
    (hnr : ∀ j t, p.threads j = some t → t.state ≠ .RUNNING) :
    ∃ next rest th, p.ready_queue = next :: rest ∧ p.threads next = some th ∧
      th.state = .READY ∧ pick_next p.threads p.ready_queue = (some next, rest) := by
  obtain ⟨t0, ht0, hb0⟩ := hb.main
  have hr0 : t0.state = .READY := by
    have := hnr 0 t0 ht0
    cases hst : t0.state <;> simp_all
  have hmem : 0 ∈ p.ready_queue := (hb.queue_iff 0).2 ⟨t0, ht0, hr0⟩
  cases hq : p.ready_queue with
  | nil => rw [hq] at hmem; cases hmem
  | cons next rest =>
    have hnext : next ∈ p.ready_queue := by rw [hq]; exact List.mem_cons_self _ _
    obtain ⟨th, hth, hrd⟩ := (hb.queue_iff next).1 hnext
    have hok := hb.ok next th hth
    exact ⟨next, rest, th, rfl, hth, hrd,
      pick_next_head p.threads next rest th hth hok.active hok.env hrd⟩

theorem Thread.ok.promote {i : Nat} {t : Thread} (h : t.ok i) (hr : t.state = .READY)
    (n : Int) (hn : 0 ≤ n) :
    Thread.ok i { t with state := .RUNNING, quantum_count := n } := by
  obtain ⟨h1, h2, h3, h4, h5, h6, h7, h8⟩ := h
  refine ⟨h1, h2, h3, hn, h5, ?_, ?_, ?_⟩
  · intro hs; have := h6 hs; rw [hr] at this; cases this
  · intro hm; have := h7 hm; rw [hr] at this; cases this
  · intro hb; cases hb

/-- The pick: the head of the queue becomes the running thread. -/
theorem Base.dispatch {M : Nat} {p : State} (sig : Int) (hb : Base M p)
    (hnr : ∀ j t, p.threads j = some t → t.state ≠ .RUNNING)
    (next : Nat) (rest : List Nat) (th : Thread)
    (hq : p.ready_queue = next :: rest) (hth : p.threads next = some th)
    (hrd : th.state = .READY) :
    Inv M (sched_dispatch sig next { p with ready_queue := rest }) := by
  rw [sched_dispatch_eq sig next { p with ready_queue := rest } th hth]
  have hnd : (next :: rest).Nodup := hq ▸ hb.queue_nodup
  have hok := hb.ok next th hth
  refine ⟨?_, ⟨_, Function.update_same _ _ _, rfl⟩⟩
  refine hb.update next _ rfl (hb.bound next th hth)
    (hok.promote hrd _ ?_) (by simp) (by simp) ?_ (List.nodup_cons.1 hnd).2 ?_ ?_
  · have := hok.count_nonneg
    split_ifs <;> omega
  · intro j tj _ hj hjr
    exact absurd hjr (hnr j tj hj)
  · simp only [reduceCtorEq, iff_false]
    exact (List.nodup_cons.1 hnd).1
  · intro j hj
    simp [hq, hj]

/-- Under the invariant's base part `scheduler_handler` always finds a
thread to run, and the state it leaves satisfies the full invariant. -/
theorem scheduler_handler_spec {M : Nat} {s : State} (sig : Int) (h : Base M s) :
    ∃ next rest th, (sched_prepare M sig s).ready_queue = next :: rest ∧
      (sched_prepare M sig s).threads next = some th ∧ th.state = .READY ∧
      scheduler_handler M sig s =
        .resumed (sched_dispatch sig next { sched_prepare M sig s with ready_queue := rest }) ∧
      Inv M (sched_dispatch sig next { sched_prepare M sig s with ready_queue := rest }) := by
  obtain ⟨hb, hnr⟩ := h.sched_prepare sig
  obtain ⟨next, rest, th, hq, hth, hrd, hpick⟩ := hb.queue_head hnr
  refine ⟨next, rest, th, hq, hth, hrd, ?_, hb.dispatch sig hnr next rest th hq hth hrd⟩
  simp only [scheduler_handler, hpick]

/-! ## The library calls under the invariant -/

theorem invalid_tid_ignoreClock (M : Nat) (s : State) (tid : Int) :
    invalid_tid M (ignoreClock s) tid ↔ invalid_tid M s tid := Iff.rfl

theorem Base.valid_of_some {M : Nat} {s : State} (h : Base M s) (i : Nat) (t : Thread)
    (ht : s.threads i = some t) : ¬ invalid_tid M s (i : Int) := by
  have hb := h.bound i t ht
  have ha := (h.ok i t ht).active
  simp [invalid_tid, slot_free, ht, ha]
  omega

theorem invalid_tid_of_none (M : Nat) (s : State) (i : Nat) (hn : s.threads i = none) :
    invalid_tid M s (i : Int) := by
  simp [invalid_tid, slot_free, hn]

/-- A valid id is a natural number below `MAX_THREAD_NUM` whose slot holds
an active thread. -/
theorem exists_of_valid {M : Nat} {s : State} {tid : Int} (h : ¬ invalid_tid M s tid) :
    ∃ (i : Nat) (t : Thread), tid = (i : Int) ∧ i < M ∧ s.threads i = some t ∧
      t.active = true := by
  simp only [invalid_tid, not_or, not_lt, not_le] at h
  obtain ⟨h0, hM, hf⟩ := h
  obtain ⟨i, rfl⟩ := Int.eq_ofNat_of_zero_le h0
  simp only [Int.toNat_ofNat] at hf
  rcases Option.eq_none_or_eq_some (s.threads i) with hn | ⟨t, ht⟩
  · exact absurd (by simp [slot_free, hn]) hf
  · refine ⟨i, t, rfl, by omega, ht, ?_⟩
    simpa [slot_free, ht] using hf

theorem uthread_get_quantums_eq {M : Nat} {s : State} (h : Base M s) (i : Nat) (t : Thread)
    (ht : s.threads i = some t) :
    uthread_get_quantums M (i : Int) s = .ret t.quantum_count (acceptClockSignal (ignoreClock s)) := by
  have hv : ¬ invalid_tid M (ignoreClock s) (i : Int) := h.valid_of_some i t ht
  have ht' : (ignoreClock s).threads i = some t := ht
  simp only [uthread_get_quantums, hv, if_false, Int.toNat_ofNat, ht']

theorem uthread_get_quantums_invalid (M : Nat) (s : State) (tid : Int)
    (h : invalid_tid M s tid) : uthread_get_quantums M tid s = .ret FAIL (ignoreClock s) := by
  have hv : invalid_tid M (ignoreClock s) tid := h
  simp only [uthread_get_quantums, hv, if_true]

theorem uthread_resume_invalid (M : Nat) (s : State) (tid : Int)
    (h : invalid_tid M s tid) : uthread_resume M tid s = .ret FAIL (ignoreClock s) := by
  have hv : invalid_tid M (ignoreClock s) tid := h
  simp only [uthread_resume, hv, if_true]

theorem uthread_block_invalid (M : Nat) (s : State) (tid : Int)
    (h : invalid_tid M s tid ∨ tid = 0) : uthread_block M tid s = .ret FAIL (ignoreClock s) := by
  unfold uthread_block
  by_cases hv : invalid_tid M (ignoreClock s) tid
  · simp only [hv, if_true]
  · have h0 : tid = 0 := h.resolve_left hv
    simp only [h0, if_true, ite_self]

theorem uthread_terminate_invalid (M : Nat) (s : State) (tid : Int)
    (h : invalid_tid M s tid) : uthread_terminate M tid s = .ret FAIL (ignoreClock s) := by
  have hv : invalid_tid M (ignoreClock s) tid := h
  simp only [uthread_terminate, hv, if_true]

theorem uthread_sleep_invalid (M : Nat) (s : State) (n : Int)
    (h : n ≤ 0 ∨ s.current_tid = 0) : uthread_sleep M n s = .ret FAIL (ignoreClock s) := by
  unfold uthread_sleep
  by_cases hn : n ≤ 0
  · simp only [hn, if_true]
  · have h0 : (ignoreClock s).current_tid = 0 := h.resolve_left hn
    simp only [hn, if_false, h0, if_true]

theorem uthread_init_invalid (q : Int) (s : State) (h : q ≤ 0) :
    uthread_init q s = .ret FAIL s := by
  simp only [uthread_init, h, if_true]

/-- `uthread_resume` on the main thread, the running thread or a `READY`
thread returns at once. -/
theorem uthread_resume_noop {M : Nat} {s : State} (h : Base M s) (i : Nat) (t : Thread)
    (ht : s.threads i = some t) (hc : i = 0 ∨ i = s.current_tid ∨ t.state = .READY) :
    uthread_resume M (i : Int) s = .ret SUCCESS (ignoreClock s) := by
  have hv : ¬ invalid_tid M (ignoreClock s) (i : Int) := h.valid_of_some i t ht
  have ht' : (ignoreClock s).threads i = some t := ht
  have hc' : i = 0 ∨ i = (ignoreClock s).current_tid ∨ t.state = .READY := hc
  simp only [uthread_resume, hv, if_false, Int.toNat_ofNat, ht', hc', if_true]

theorem modify_eq (s : State) (i : Nat) (f : Thread → Thread) :
    s.modify i f = { s with threads := Function.update s.threads i ((s.threads i).map f) } := by
  rcases Option.eq_none_or_eq_some (s.threads i) with hn | ⟨t, ht⟩
  · simp only [State.modify, hn, Option.map_none']
    rw [← hn, Function.update_eq_self]
  · simp [State.modify, State.set_thread, ht]

/-- `uthread_resume` on a thread that is neither the main thread, nor the
running thread, nor `READY`. -/
theorem uthread_resume_eq {M : Nat} {s : State} (h : Base M s) (i : Nat) (t : Thread)
    (ht : s.threads i = some t) (hc : ¬ (i = 0 ∨ i = s.current_tid ∨ t.state = .READY)) :
    uthread_resume M (i : Int) s = .ret SUCCESS (acceptClockSignal
      (if t.sleep_quantums = 0 then
        { ignoreClock s with
          threads := Function.update s.threads i
            (some { t with manually_blocked := false, state := .READY }),
          ready_queue := s.ready_queue ++ [i] }
       else
        { ignoreClock s with
          threads := Function.update s.threads i (some { t with manually_blocked := false }) })) := by
  have hv : ¬ invalid_tid M (ignoreClock s) (i : Int) := h.valid_of_some i t ht
  have ht' : (ignoreClock s).threads i = some t := ht
  have hc' : ¬ (i = 0 ∨ i = (ignoreClock s).current_tid ∨ t.state = .READY) := hc
  simp only [uthread_resume, hv, if_false, Int.toNat_ofNat, ht', hc']
  by_cases hs : t.sleep_quantums = 0
  · simp [hs, modify_eq, ignoreClock, ht]
  · simp [hs, modify_eq, ignoreClock, ht]

/-- A thread other than the running one is overwritten with a thread that is
not `RUNNING`. -/
theorem Inv.update_other {M : Nat} {s s' : State} (h : Inv M s) (i : Nat) (t' : Thread)
    (ht : s'.threads = Function.update s.threads i (some t'))
    (hc : s'.current_tid = s.current_tid) (hic : i ≠ s.current_tid)
    (hi : i < M) (hok : t'.ok i)
    (hmain : i = 0 → t'.state ≠ .BLOCKED) (hnr : t'.state ≠ .RUNNING)
    (hnd : s'.ready_queue.Nodup)
    (hqi : i ∈ s'.ready_queue ↔ t'.state = .READY)
    (hqj : ∀ j, j ≠ i → (j ∈ s'.ready_queue ↔ j ∈ s.ready_queue)) : Inv M s' := by
  refine ⟨h.toBase.update i t' ht hi hok hmain (fun hr => absurd hr hnr) ?_ hnd hqi hqj, ?_⟩
  · intro j tj _ hj hjr
    rw [hc]; exact h.running j tj hj hjr
  · obtain ⟨tc, htc, hrc⟩ := h.cur
    exact ⟨tc, by rw [ht, hc, Function.update_noteq (Ne.symm hic)]; exact htc, hrc⟩

/-- A blocked thread is neither the main thread nor the running thread, and
is not queued. -/
theorem Inv.blocked_facts {M : Nat} {s : State} (h : Inv M s) (i : Nat) (t : Thread)
    (ht : s.threads i = some t) (hb : t.state = .BLOCKED) :
    i ≠ 0 ∧ i ≠ s.current_tid ∧ i ∉ s.ready_queue := by
  obtain ⟨t0, ht0, hb0⟩ := h.main
  obtain ⟨tc, htc, hrc⟩ := h.cur
  refine ⟨?_, ?_, ?_⟩
  · rintro rfl
    rw [ht] at ht0; cases ht0; exact hb0 hb
  · rintro rfl
    rw [ht] at htc; cases htc; rw [hb] at hrc; cases hrc
  · exact h.not_mem_queue i (fun t' ht' => by rw [ht] at ht'; cases ht'; simp [hb])

/-- `uthread_resume` on a blocked thread: the manual block is cleared, and the
thread is made `READY` and queued when it is not sleeping. -/
theorem uthread_resume_blocked {M : Nat} {s : State} (h : Inv M s) (i : Nat) (t : Thread)
    (ht : s.threads i = some t) (hb : t.state = .BLOCKED) :
    ∃ s', uthread_resume M (i : Int) s = .ret SUCCESS s' ∧
      s'.threads = Function.update s.threads i
        (some { t with manually_blocked := false,
                       state := if t.sleep_quantums = 0 then .READY else .BLOCKED }) ∧
      s'.ready_queue = (if t.sleep_quantums = 0 then s.ready_queue ++ [i] else s.ready_queue) ∧
      s'.current_tid = s.current_tid ∧ s'.total_quantums = s.total_quantums ∧ Inv M s' := by
  obtain ⟨hi0, hic, hnot⟩ := h.blocked_facts i t ht hb
  have hc : ¬ (i = 0 ∨ i = s.current_tid ∨ t.state = .READY) := by
    rintro (h1 | h1 | h1)
    · exact hi0 h1
    · exact hic h1
    · rw [hb] at h1; cases h1
  obtain ⟨h1, h2, h3, h4, h5, h6, h7, h8⟩ := h.ok i t ht
  rw [uthread_resume_eq h.toBase i t ht hc]
  by_cases hs : t.sleep_quantums = 0
  · simp only [if_pos hs]
    refine ⟨_, rfl, rfl, rfl, rfl, rfl, ?_⟩
    refine h.update_other i _ rfl rfl hic (h.bound i t ht) ⟨h1, h2, h3, h4, h5, ?_, ?_, ?_⟩
      (by simp) (by simp) ?_ ?_ ?_
    · intro hh
      have : 0 < t.sleep_quantums := hh
      omega
    · intro hh; cases hh
    · intro hh; cases hh
    · exact List.Nodup.append h.queue_nodup (List.nodup_singleton _) (by simpa using hnot)
    · simp [acceptClockSignal]
    · intro j hj; simp [acceptClockSignal, hj]
  · simp only [if_neg hs]
    refine ⟨_, rfl, ?_, rfl, rfl, rfl, ?_⟩
    · simp [acceptClockSignal, ignoreClock, hb]
    refine h.update_other i _ rfl rfl hic (h.bound i t ht) ⟨h1, h2, h3, h4, h5, h6, ?_, ?_⟩
      (by simp [hi0]) (by simp [hb]) h.queue_nodup ?_ ?_
    · intro hh; cases hh
    · intro _
      refine Or.inl ?_
      show 0 < t.sleep_quantums
      omega
    · simp [acceptClockSignal, ignoreClock, hb, hnot]
    · intro j hj; rfl

/-! ### `uthread_block` -/

/-- `uthread_block` on a thread that is already blocked by request. -/
theorem uthread_block_again {M : Nat} {s : State} (h : Base M s) (i : Nat) (t : Thread)
    (ht : s.threads i = some t) (hi0 : i ≠ 0)
    (hb : t.state = .BLOCKED ∧ t.manually_blocked = true) :
    uthread_block M (i : Int) s = .ret SUCCESS (ignoreClock s) := by
  have hv : ¬ invalid_tid M (ignoreClock s) (i : Int) := h.valid_of_some i t ht
  have ht' : (ignoreClock s).threads i = some t := ht
  have h0 : ¬ ((i : Int) = 0) := by omega
  simp only [uthread_block, hv, if_false, h0, Int.toNat_ofNat, ht', hb, and_self, if_true]

/-- `uthread_block` on a thread other than the running one. -/
theorem uthread_block_other_eq {M : Nat} {s : State} (h : Base M s) (i : Nat) (t : Thread)
    (ht : s.threads i = some t) (hi0 : i ≠ 0) (hic : i ≠ s.current_tid)
    (hb : ¬ (t.state = .BLOCKED ∧ t.manually_blocked = true)) :
    uthread_block M (i : Int) s = .ret SUCCESS (acceptClockSignal
      { ignoreClock s with
        threads := Function.update s.threads i
          (some { t with manually_blocked := true, state := .BLOCKED }),
        ready_queue := if t.state = .READY then s.ready_queue.filter (fun j => j ≠ i)
                       else s.ready_queue }) := by
  have hv : ¬ invalid_tid M (ignoreClock s) (i : Int) := h.valid_of_some i t ht
  have ht' : (ignoreClock s).threads i = some t := ht
  have h0 : ¬ ((i : Int) = 0) := by omega
  simp only [uthread_block, hv, if_false, h0, Int.toNat_ofNat, ht', hb]
  by_cases hr : t.state = .READY
  · simp [hr, modify_eq, ignoreClock, ht, remove_from_queue, hic]
  · simp [hr, modify_eq, ignoreClock, ht, remove_from_queue, hic]

/-- `uthread_block` on the running thread: the thread is marked and
`scheduler_handler(0)` picks its successor. -/
theorem uthread_block_self_eq {M : Nat} {s : State} (h : Inv M s) (t : Thread)
    (ht : s.threads s.current_tid = some t) (hi0 : s.current_tid ≠ 0) :
    uthread_block M (s.current_tid : Int) s =
      match scheduler_handler M 0
        { ignoreClock s with
          threads := Function.update s.threads s.current_tid
            (some { t with manually_blocked := true, state := .BLOCKED }) } with
      | .resumed s => .ret SUCCESS (acceptClockSignal s)
      | .fatal s => .exit 1 s := by
  have hv : ¬ invalid_tid M (ignoreClock s) (s.current_tid : Int) :=
    h.valid_of_some _ t ht
  have ht' : (ignoreClock s).threads s.current_tid = some t := ht
  have h0 : ¬ ((s.current_tid : Int) = 0) := by omega
  obtain ⟨tc, htc, hrc⟩ := h.cur
  rw [ht] at htc; cases htc
  have hb : ¬ (t.state = .BLOCKED ∧ t.manually_blocked = true) := by simp [hrc]
  simp only [uthread_block, hv, if_false, h0, Int.toNat_ofNat, ht', hb]
  simp [hrc, modify_eq, ignoreClock, ht]

theorem sched_prepare_yield (M : Nat) (s : State)
    (hidle : ∀ t, s.threads s.current_tid = some t → t.state ≠ .RUNNING) :
    sched_prepare M 0 s = { s with set_has_sigvtalrm := true, sigvtalrm_blocked := true } := by
  have h0 : ¬ ((0 : Int) = SIGVTALRM) := by decide
  simp only [sched_prepare, h0, if_false]
  exact save_current_idle _ hidle

/-- `scheduler_handler(0)` entered while the current thread is not `RUNNING`
(it has just been blocked): the head of the ready queue becomes the running
thread and no counter moves. -/
theorem scheduler_handler_yield {M : Nat} {s : State} (h : Base M s)
    (hidle : ∀ t, s.threads s.current_tid = some t → t.state ≠ .RUNNING) :
    ∃ next rest th s', s.ready_queue = next :: rest ∧ s.threads next = some th ∧
      th.state = .READY ∧ scheduler_handler M 0 s = .resumed s' ∧
      s'.threads = Function.update s.threads next (some { th with state := .RUNNING }) ∧
      s'.ready_queue = rest ∧ s'.current_tid = next ∧
      s'.total_quantums = s.total_quantums ∧ s'.sigvtalrm_blocked = false ∧ Inv M s' := by
  obtain ⟨next, rest, th, hq, hth, hrd, heq, hinv⟩ := scheduler_handler_spec 0 h
  rw [sched_prepare_yield M s hidle] at hq hth heq hinv
  have h0 : ¬ ((0 : Int) = SIGVTALRM) := by decide
  have hd := sched_dispatch_eq 0 next
    { s with set_has_sigvtalrm := true, sigvtalrm_blocked := true, ready_queue := rest } th hth
  simp only [h0, if_false] at hd
  rw [hd] at heq hinv
  exact ⟨next, rest, th, _, hq, hth, hrd, heq, rfl, rfl, rfl, rfl, rfl, hinv⟩

/-- The running thread (not the main thread) is overwritten with a blocked
thread: the state in which `uthread_block` and `uthread_sleep` enter
`scheduler_handler`. -/
theorem Inv.block_current {M : Nat} {s : State} (h : Inv M s) (s' : State) (t t' : Thread)
    (ht : s.threads s.current_tid = some t) (hc0 : s.current_tid ≠ 0)
    (hok : t'.ok s.current_tid) (hb : t'.state = .BLOCKED)
    (hth : s'.threads = Function.update s.threads s.current_tid (some t'))
    (hq : s'.ready_queue = s.ready_queue) (hc : s'.current_tid = s.current_tid) :
    Base M s' ∧ ∀ t, s'.threads s'.current_tid = some t → t.state ≠ .RUNNING := by
  obtain ⟨tc, htc, hrc⟩ := h.cur
  rw [ht] at htc; cases htc
  have hnot : s.current_tid ∉ s.ready_queue :=
    h.not_mem_queue _ (fun t' ht' => by rw [ht] at ht'; cases ht'; simp [hrc])
  constructor
  · refine h.toBase.update s.current_tid t' hth (h.bound _ t ht) hok
      (fun h0 => absurd h0 hc0) (by simp [hb]) ?_ (hq ▸ h.queue_nodup) ?_ ?_
    · intro j tj hj hjt hjr
      exact absurd (h.running j tj hjt hjr) hj
    · simp [hq, hnot, hb]
    · intro j _; rw [hq]
  · intro t1 ht1
    rw [hth, hc, Function.update_same] at ht1
    cases ht1
    simp [hb]

theorem filter_ne_of_not_mem (q : List Nat) (i : Nat) (h : i ∉ q) :
    q.filter (fun j => j ≠ i) = q := by
  rw [List.filter_eq_self]
  intro a ha
  have : a ≠ i := fun hai => h (hai ▸ ha)
  simpa using this

/-- `uthread_block` on a thread other than the running one. -/
theorem uthread_block_other {M : Nat} {s : State} (h : Inv M s) (i : Nat) (t : Thread)
    (ht : s.threads i = some t) (hi0 : i ≠ 0) (hic : i ≠ s.current_tid) :
    ∃ s', uthread_block M (i : Int) s = .ret SUCCESS s' ∧
      s'.threads = Function.update s.threads i
        (some { t with manually_blocked := true, state := .BLOCKED }) ∧
      s'.ready_queue = s.ready_queue.filter (fun j => j ≠ i) ∧
      s'.current_tid = s.current_tid ∧ s'.total_quantums = s.total_quantums ∧ Inv M s' := by
  by_cases hb : t.state = .BLOCKED ∧ t.manually_blocked = true
  · have hnot := (h.blocked_facts i t ht hb.1).2.2
    refine ⟨_, uthread_block_again h.toBase i t ht hi0 hb, ?_, ?_, rfl, rfl, h.mask_only rfl rfl rfl⟩
    · have : ({ t with manually_blocked := true, state := .BLOCKED } : Thread) = t := by
        cases t; simp_all
      rw [this, ← ht, Function.update_eq_self]; rfl
    · rw [filter_ne_of_not_mem _ i hnot]; rfl
  · obtain ⟨h1, h2, h3, h4, h5, h6, h7, h8⟩ := h.ok i t ht
    have hnr : t.state ≠ .RUNNING := fun hr => hic (h.running i t ht hr)
    have hqeq : (if t.state = .READY then s.ready_queue.filter (fun j => j ≠ i)
        else s.ready_queue) = s.ready_queue.filter (fun j => j ≠ i) := by
      split_ifs with hr
      · rfl
      · rw [filter_ne_of_not_mem _ i (h.not_mem_queue i
          (fun t' ht' => by rw [ht] at ht'; cases ht'; exact hr))]
    rw [uthread_block_other_eq h.toBase i t ht hi0 hic hb, hqeq]
    refine ⟨_, rfl, rfl, rfl, rfl, rfl, ?_⟩
    refine h.update_other i _ rfl rfl hic (h.bound i t ht) ⟨h1, h2, h3, h4, h5, ?_, ?_, ?_⟩
      (fun h0 => absurd h0 hi0) (by simp) ?_ ?_ ?_
    · intro _; rfl
    · intro _; rfl
    · intro _; exact Or.inr rfl
    · exact h.queue_nodup.filter _
    · simp [acceptClockSignal]
    · intro j hj
      simp [acceptClockSignal, hj]

/-- `uthread_block` on the running thread. -/
theorem uthread_block_self {M : Nat} {s : State} (h : Inv M s) (t : Thread)
    (ht : s.threads s.current_tid = some t) (hc0 : s.current_tid ≠ 0) :
    ∃ next rest th s', s.ready_queue = next :: rest ∧ s.threads next = some th ∧
      th.state = .READY ∧ next ≠ s.current_tid ∧
      uthread_block M (s.current_tid : Int) s = .ret SUCCESS s' ∧
      s'.threads = Function.update
        (Function.update s.threads s.current_tid
          (some { t with manually_blocked := true, state := .BLOCKED }))
        next (some { th with state := .RUNNING }) ∧
      s'.ready_queue = rest ∧ s'.current_tid = next ∧
      s'.total_quantums = s.total_quantums ∧ Inv M s' := by
  obtain ⟨h1, h2, h3, h4, h5, h6, h7, h8⟩ := h.ok _ t ht
  have hok : Thread.ok s.current_tid { t with manually_blocked := true, state := .BLOCKED } :=
    ⟨h1, h2, h3, h4, h5, fun _ => rfl, fun _ => rfl, fun _ => Or.inr rfl⟩
  obtain ⟨hbase, hidle⟩ := h.block_current { ignoreClock s with
      threads := Function.update s.threads s.current_tid
        (some { t with manually_blocked := true, state := .BLOCKED }) } t _ ht hc0 hok rfl
    rfl rfl rfl
  obtain ⟨next, rest, th, s', hq, hth, hrd, heq, e1, e2, e3, e4, e5, hinv⟩ :=
    scheduler_handler_yield hbase hidle
  have hne : next ≠ s.current_tid := by
    rintro rfl
    simp only [Function.update_same, Option.some.injEq] at hth
    subst hth
    cases hrd
  simp only [Function.update_noteq hne] at hth
  refine ⟨next, rest, th, acceptClockSignal s', hq, hth, hrd, hne, ?_, e1, e2, e3, e4, ?_⟩
  · rw [uthread_block_self_eq h t ht hc0, heq]
  · exact hinv.mask_only rfl rfl rfl

/-! ### `uthread_sleep` -/

theorem uthread_sleep_eq (M : Nat) (s : State) (n : Int) (t : Thread)
    (hn : 0 < n) (hc0 : s.current_tid ≠ 0) (ht : s.threads s.current_tid = some t)
    (s₁ : State)
    (hs : scheduler_handler M 0
      { ignoreClock s with
        threads := Function.update s.threads s.current_tid
          (some { t with sleep_quantums := n, state := .BLOCKED }) } = .resumed s₁) :
    uthread_sleep M n s = .ret SUCCESS (acceptClockSignal s₁) := by
  have hn' : ¬ n ≤ 0 := by omega
  have hc0' : ¬ (ignoreClock s).current_tid = 0 := hc0
  have ht' : (ignoreClock s).threads (ignoreClock s).current_tid = some t := ht
  simp only [uthread_sleep, hn', if_false, hc0', ht']
  simp only [modify_eq, ignoreClock, ht, Function.update_same, Option.map_some',
    Function.update_idem] at hs ⊢
  rw [hs]

/-- `uthread_sleep` called by a thread other than the main thread. -/
theorem uthread_sleep_spec {M : Nat} {s : State} (h : Inv M s) (n : Int) (t : Thread)
    (hn : 0 < n) (hc0 : s.current_tid ≠ 0) (ht : s.threads s.current_tid = some t) :
    ∃ next rest th s', s.ready_queue = next :: rest ∧ s.threads next = some th ∧
      th.state = .READY ∧ next ≠ s.current_tid ∧
      uthread_sleep M n s = .ret SUCCESS s' ∧
      s'.threads = Function.update
        (Function.update s.threads s.current_tid
          (some { t with sleep_quantums := n, state := .BLOCKED }))
        next (some { th with state := .RUNNING }) ∧
      s'.ready_queue = rest ∧ s'.current_tid = next ∧
      s'.total_quantums = s.total_quantums ∧ Inv M s' := by
  obtain ⟨h1, h2, h3, h4, h5, h6, h7, h8⟩ := h.ok _ t ht
  have hok : Thread.ok s.current_tid { t with sleep_quantums := n, state := .BLOCKED } :=
    ⟨h1, h2, h3, h4, le_of_lt hn, fun _ => rfl, fun _ => rfl, fun _ => Or.inl hn⟩
  obtain ⟨hbase, hidle⟩ := h.block_current { ignoreClock s with
      threads := Function.update s.threads s.current_tid
        (some { t with sleep_quantums := n, state := .BLOCKED }) } t _ ht hc0 hok rfl
    rfl rfl rfl
  obtain ⟨next, rest, th, s', hq, hth, hrd, heq, e1, e2, e3, e4, e5, hinv⟩ :=
    scheduler_handler_yield hbase hidle
  have hne : next ≠ s.current_tid := by
    rintro rfl
    simp only [Function.update_same, Option.some.injEq] at hth
    subst hth
    cases hrd
  simp only [Function.update_noteq hne] at hth
  exact ⟨next, rest, th, acceptClockSignal s', hq, hth, hrd, hne,
    uthread_sleep_eq M s n t hn hc0 ht s' heq, e1, e2, e3, e4, hinv.mask_only rfl rfl rfl⟩

/-! ### `uthread_terminate` -/

theorem state_of_some (s : State) (i : Nat) (t : Thread) (ht : s.threads i = some t) :
    s.state_of i = some t.state := by
  simp [State.state_of, ht]

/-- `uthread_terminate(0)` ends the process. -/
theorem uthread_terminate_main {M : Nat} {s : State} (h : Base M s) :
    uthread_terminate M 0 s =
      .exit 0 { ignoreClock s with threads := fun i => if i < M then none else s.threads i,
                                   ready_queue := [] } := by
  obtain ⟨t0, ht0, -⟩ := h.main
  have hv : ¬ invalid_tid M (ignoreClock s) ((0 : Nat) : Int) := h.valid_of_some 0 t0 ht0
  simp only [Nat.cast_zero] at hv
  simp only [uthread_terminate, hv, if_false, if_true]
  rfl

theorem uthread_terminate_other_eq {M : Nat} {s : State} (h : Base M s) (i : Nat) (t : Thread)
    (ht : s.threads i = some t) (hi0 : i ≠ 0) (hic : i ≠ s.current_tid) :
    uthread_terminate M (i : Int) s = .ret SUCCESS (acceptClockSignal
      { ignoreClock s with
        threads := Function.update s.threads i none,
        ready_queue := if t.state = .READY then s.ready_queue.filter (fun j => j ≠ i)
                       else s.ready_queue }) := by
  have hv : ¬ invalid_tid M (ignoreClock s) (i : Int) := h.valid_of_some i t ht
  have ht' : (ignoreClock s).threads i = some t := ht
  have h0 : ¬ ((i : Int) = 0) := by omega
  simp only [uthread_terminate, hv, if_false, h0, Int.toNat_ofNat, state_of_some _ i t ht']
  by_cases hr : t.state = .READY
  · simp [hr, ignoreClock, remove_from_queue, hic, State.set_thread]
  · simp [hr, ignoreClock, remove_from_queue, hic, State.set_thread]

/-- `uthread_terminate` on a thread that is neither the main thread nor the
running thread. -/
theorem uthread_terminate_other {M : Nat} {s : State} (h : Inv M s) (i : Nat) (t : Thread)
    (ht : s.threads i = some t) (hi0 : i ≠ 0) (hic : i ≠ s.current_tid) :
    ∃ s', uthread_terminate M (i : Int) s = .ret SUCCESS s' ∧
      s'.threads = Function.update s.threads i none ∧
      s'.ready_queue = s.ready_queue.filter (fun j => j ≠ i) ∧
      s'.current_tid = s.current_tid ∧ s'.total_quantums = s.total_quantums ∧ Inv M s' := by
  have hqeq : (if t.state = .READY then s.ready_queue.filter (fun j => j ≠ i)
      else s.ready_queue) = s.ready_queue.filter (fun j => j ≠ i) := by
    split_ifs with hr
    · rfl
    · rw [filter_ne_of_not_mem _ i (h.not_mem_queue i
        (fun t' ht' => by rw [ht] at ht'; cases ht'; exact hr))]
  rw [uthread_terminate_other_eq h.toBase i t ht hi0 hic, hqeq]
  refine ⟨_, rfl, rfl, rfl, rfl, rfl, ?_, ?_⟩
  · refine h.toBase.erase i rfl hi0 rfl (h.queue_nodup.filter _) ?_ ?_
    · simp [acceptClockSignal]
    · intro j hj; simp [acceptClockSignal, hj]
  · obtain ⟨tc, htc, hrc⟩ := h.cur
    exact ⟨tc, by
      show Function.update s.threads i none s.current_tid = some tc
      rw [Function.update_noteq (Ne.symm hic)]; exact htc, hrc⟩

theorem uthread_terminate_self_eq {M : Nat} {s : State} (h : Inv M s)
    (hc0 : s.current_tid ≠ 0) (s₁ : State)
    (hs : scheduler_handler M SIGVTALRM
      { ignoreClock s with threads := Function.update s.threads s.current_tid none } =
        .resumed s₁) :
    uthread_terminate M (s.current_tid : Int) s = .noreturn s₁ := by
  obtain ⟨t, ht, hr⟩ := h.cur
  have hv : ¬ invalid_tid M (ignoreClock s) (s.current_tid : Int) := h.valid_of_some _ t ht
  have ht' : (ignoreClock s).threads s.current_tid = some t := ht
  have h0 : ¬ ((s.current_tid : Int) = 0) := by omega
  have h1 : (ignoreClock s).current_tid = s.current_tid := rfl
  simp only [uthread_terminate, hv, if_false, h0, Int.toNat_ofNat, state_of_some _ _ t ht', hr,
    Option.some.injEq, reduceCtorEq, h1, if_true]
  simp only [modify_eq, State.set_thread, ignoreClock, Function.update_idem] at hs ⊢
  rw [hs]

/-- `uthread_terminate` on the running thread (not the main thread): the slot
is emptied and `scheduler_handler(SIGVTALRM)` picks the successor. -/
theorem uthread_terminate_self {M : Nat} {s : State} (h : Inv M s) (hc0 : s.current_tid ≠ 0) :
    ∃ s', uthread_terminate M (s.current_tid : Int) s = .noreturn s' ∧
      scheduler_handler M SIGVTALRM
        { ignoreClock s with threads := Function.update s.threads s.current_tid none } =
          .resumed s' ∧ Inv M s' := by
  obtain ⟨t, ht, hr⟩ := h.cur
  have hnot : s.current_tid ∉ s.ready_queue :=
    h.not_mem_queue _ (fun t' ht' => by rw [ht] at ht'; cases ht'; simp [hr])
  have hbase : Base M
      { ignoreClock s with threads := Function.update s.threads s.current_tid none } :=
    h.toBase.erase s.current_tid rfl hc0 rfl h.queue_nodup hnot (fun j _ => Iff.rfl)
  obtain ⟨next, rest, th, -, -, -, heq, hinv⟩ := scheduler_handler_spec SIGVTALRM hbase
  exact ⟨_, uthread_terminate_self_eq h hc0 _ heq, heq, hinv⟩

/-! ### `uthread_spawn`, `uthread_get_quantums`, timer ticks -/

theorem uthread_spawn_inv {M : Nat} {s : State} (h : Inv M s) (e : thread_entry_point) :
    ∃ v s', uthread_spawn M e s = .ret v s' ∧ Inv M s' := by
  cases e with
  | none => exact ⟨_, _, uthread_spawn_null M s, h.mask_only rfl rfl rfl⟩
  | some f =>
    by_cases hfree : ∃ i, i < M ∧ slot_free s i
    · obtain ⟨k, hk⟩ := find_free_of_exists s M hfree
      obtain ⟨-, h2, h3, -⟩ := find_free_some s M 0 k hk
      have hnone : s.threads k = none := (h.free_iff_none k).1 h3
      obtain ⟨tc, htc, hrc⟩ := h.cur
      have hkc : k ≠ s.current_tid := by
        rintro rfl; rw [hnone] at htc; cases htc
      obtain ⟨t0, ht0, -⟩ := h.main
      have hk0 : k ≠ 0 := by
        rintro rfl; rw [hnone] at ht0; cases ht0
      have hnot : k ∉ s.ready_queue :=
        h.not_mem_queue k (fun t' ht' => by rw [hnone] at ht'; cases ht')
      refine ⟨_, _, uthread_spawn_eq M s f k hk, ?_⟩
      refine h.update_other k (Thread.new_entry (some f) k) rfl rfl hkc (by omega)
        ⟨rfl, rfl, rfl, le_refl _, le_refl _, ?_, ?_, ?_⟩ (fun h0 => absurd h0 hk0)
        (by simp [Thread.new_entry]) ?_ ?_ ?_
      · intro hh; exact absurd hh (by simp [Thread.new_entry])
      · intro hh; exact absurd hh (by simp [Thread.new_entry])
      · intro hh; exact absurd hh (by simp [Thread.new_entry])
      · exact List.Nodup.append h.queue_nodup (List.nodup_singleton _) (by simpa using hnot)
      · simp [Thread.new_entry]
      · intro j hj; simp [hj]
    · have hfull : ∀ j, j < M → ¬ slot_free s j := fun j hj hf => hfree ⟨j, hj, hf⟩
      exact ⟨_, _, uthread_spawn_full M s _ hfull, h.mask_only rfl rfl rfl⟩

theorem uthread_get_quantums_inv {M : Nat} {s : State} (h : Inv M s) (tid : Int) :
    ∃ v s', uthread_get_quantums M tid s = .ret v s' ∧ Inv M s' ∧
      s'.threads = s.threads ∧ s'.ready_queue = s.ready_queue ∧
      s'.current_tid = s.current_tid ∧ s'.total_quantums = s.total_quantums := by
  by_cases hv : invalid_tid M s tid
  · exact ⟨_, _, uthread_get_quantums_invalid M s tid hv, h.mask_only rfl rfl rfl, rfl, rfl, rfl, rfl⟩
  · obtain ⟨i, t, rfl, -, ht, -⟩ := exists_of_valid hv
    exact ⟨_, _, uthread_get_quantums_eq h.toBase i t ht, h.mask_only rfl rfl rfl, rfl, rfl, rfl, rfl⟩

/-- A timer tick never finds the ready queue without a schedulable thread. -/
theorem tick_inv {M : Nat} {s : State} (h : Inv M s) :
    ∃ s', tick M s = .resumed s' ∧ Inv M s' := by
  obtain ⟨next, rest, th, -, -, -, heq, hinv⟩ := scheduler_handler_spec SIGVTALRM h.toBase
  exact ⟨_, heq, hinv⟩

/-! ## Every library call, on a state that satisfies the invariant -/

theorem uthread_block_valid {M : Nat} {s : State} (h : Inv M s) (tid : Int)
    (hv : ¬ invalid_tid M s tid) (h0 : tid ≠ 0) :
    ∃ s', uthread_block M tid s = .ret SUCCESS s' ∧ Inv M s' := by
  obtain ⟨i, t, rfl, -, ht, -⟩ := exists_of_valid hv
  have hi0 : i ≠ 0 := by rintro rfl; exact h0 rfl
  by_cases hic : i = s.current_tid
  · subst hic
    obtain ⟨_, _, _, s', _, _, _, _, heq, _, _, _, _, hinv⟩ := uthread_block_self h t ht hi0
    exact ⟨s', heq, hinv⟩
  · obtain ⟨s', heq, _, _, _, _, hinv⟩ := uthread_block_other h i t ht hi0 hic
    exact ⟨s', heq, hinv⟩

theorem uthread_resume_valid {M : Nat} {s : State} (h : Inv M s) (tid : Int)
    (hv : ¬ invalid_tid M s tid) :
    ∃ s', uthread_resume M tid s = .ret SUCCESS s' ∧ Inv M s' := by
  obtain ⟨i, t, rfl, -, ht, -⟩ := exists_of_valid hv
  by_cases hb : t.state = .BLOCKED
  · obtain ⟨s', heq, _, _, _, _, hinv⟩ := uthread_resume_blocked h i t ht hb
    exact ⟨s', heq, hinv⟩
  · have hc : i = 0 ∨ i = s.current_tid ∨ t.state = .READY := by
      cases hst : t.state with
      | READY => exact Or.inr (Or.inr rfl)
      | RUNNING => exact Or.inr (Or.inl (h.running i t ht hst))
      | BLOCKED => exact absurd hst hb
    exact ⟨_, uthread_resume_noop h.toBase i t ht hc, h.mask_only rfl rfl rfl⟩

theorem uthread_sleep_valid {M : Nat} {s : State} (h : Inv M s) (n : Int)
    (hn : 0 < n) (hc0 : s.current_tid ≠ 0) :
    ∃ s', uthread_sleep M n s = .ret SUCCESS s' ∧ Inv M s' := by
  obtain ⟨t, ht, -⟩ := h.cur
  obtain ⟨_, _, _, s', _, _, _, _, heq, _, _, _, _, hinv⟩ := uthread_sleep_spec h n t hn hc0 ht
  exact ⟨s', heq, hinv⟩

/-- A valid `uthread_terminate` ends the process with status 0 (main thread),
passes control on for good (running thread), or returns `SUCCESS`. -/
theorem uthread_terminate_valid {M : Nat} {s : State} (h : Inv M s) (tid : Int)
    (hv : ¬ invalid_tid M s tid) :
    (tid = 0 ∧ ∃ s', uthread_terminate M tid s = .exit 0 s') ∨
    (tid ≠ 0 ∧ tid = s.current_tid ∧ ∃ s', uthread_terminate M tid s = .noreturn s' ∧ Inv M s') ∨
    (tid ≠ 0 ∧ tid ≠ s.current_tid ∧
      ∃ s', uthread_terminate M tid s = .ret SUCCESS s' ∧ Inv M s') := by
  obtain ⟨i, t, rfl, -, ht, -⟩ := exists_of_valid hv
  by_cases hi0 : i = 0
  · subst hi0
    exact Or.inl ⟨rfl, _, uthread_terminate_main h.toBase⟩
  · have h0 : (i : Int) ≠ 0 := by omega
    by_cases hic : i = s.current_tid
    · subst hic
      obtain ⟨s', heq, -, hinv⟩ := uthread_terminate_self h hi0
      exact Or.inr (Or.inl ⟨h0, rfl, s', heq, hinv⟩)
    · obtain ⟨s', heq, _, _, _, _, hinv⟩ := uthread_terminate_other h i t ht hi0 hic
      have hc : (i : Int) ≠ s.current_tid := by omega
      exact Or.inr (Or.inr ⟨h0, hc, s', heq, hinv⟩)

/-! ## Reachable states satisfy the invariant -/

theorem Inv.init {M : Nat} (hM : 0 < M) (q : Int) (hq : 0 < q) : Inv M (init_state q) := by
  have e := init_state_eq q hq
  have ht : (init_state q).threads =
      Function.update (fun _ => none) 0 (some { Thread.new with quantum_count := 1 }) := by
    rw [e]; rfl
  have hqu : (init_state q).ready_queue = [] := by rw [e]
  have hc : (init_state q).current_tid = 0 := by rw [e]
  have hth : ∀ j t, (init_state q).threads j = some t →
      j = 0 ∧ t = { Thread.new with quantum_count := 1 } := by
    intro j t hj
    rw [ht] at hj
    by_cases hj0 : j = 0
    · subst hj0
      simp only [Function.update_same, Option.some.injEq] at hj
      exact ⟨rfl, hj.symm⟩
    · rw [Function.update_noteq hj0] at hj
      cases hj
  have h0 : (init_state q).threads 0 = some { Thread.new with quantum_count := 1 } := by
    rw [ht, Function.update_same]
  refine ⟨⟨?_, ?_, ?_, ?_, ?_, ?_⟩, ?_⟩
  · exact ⟨_, h0, by simp [Thread.new]⟩
  · intro j t hj
    obtain ⟨rfl, -⟩ := hth j t hj
    exact hM
  · intro j t hj
    obtain ⟨rfl, rfl⟩ := hth j t hj
    refine ⟨rfl, rfl, rfl, by simp, by simp [Thread.new], ?_, ?_, ?_⟩ <;>
      simp [Thread.new]
  · intro j t hj _
    rw [hc]
    exact (hth j t hj).1
  · rw [hqu]; exact List.nodup_nil
  · intro j
    rw [hqu]
    simp only [List.not_mem_nil, false_iff, not_exists, not_and]
    intro t hj
    obtain ⟨rfl, rfl⟩ := hth j t hj
    simp [Thread.new]
  · rw [hc]
    exact ⟨_, h0, rfl⟩

theorem Inv.step {M : Nat} {s s' : State} (h : Inv M s) (op : Op)
    (hs : UThreads.step M s op = some s') : Inv M s' := by
  cases op with
  | spawn e =>
    obtain ⟨v, s₁, heq, hinv⟩ := uthread_spawn_inv h e
    simp only [UThreads.step, heq, Outcome.next, Option.some.injEq] at hs
    exact hs ▸ hinv
  | terminate tid =>
    by_cases hv : invalid_tid M s tid
    · simp only [UThreads.step, uthread_terminate_invalid M s tid hv, Outcome.next,
        Option.some.injEq] at hs
      exact hs ▸ h.mask_only rfl rfl rfl
    · rcases uthread_terminate_valid h tid hv with ⟨-, s₁, heq⟩ | ⟨-, -, s₁, heq, hinv⟩ |
        ⟨-, -, s₁, heq, hinv⟩
      · simp [UThreads.step, heq, Outcome.next] at hs
      · simp only [UThreads.step, heq, Outcome.next, Option.some.injEq] at hs
        exact hs ▸ hinv
      · simp only [UThreads.step, heq, Outcome.next, Option.some.injEq] at hs
        exact hs ▸ hinv
  | block tid =>
    by_cases hv : invalid_tid M s tid ∨ tid = 0
    · simp only [UThreads.step, uthread_block_invalid M s tid hv, Outcome.next, Option.some.injEq] at hs
      exact hs ▸ h.mask_only rfl rfl rfl
    · simp only [not_or] at hv
      obtain ⟨s₁, heq, hinv⟩ := uthread_block_valid h tid hv.1 hv.2
      simp only [UThreads.step, heq, Outcome.next, Option.some.injEq] at hs
      exact hs ▸ hinv
  | resume tid =>
    by_cases hv : invalid_tid M s tid
    · simp only [UThreads.step, uthread_resume_invalid M s tid hv, Outcome.next, Option.some.injEq] at hs
      exact hs ▸ h.mask_only rfl rfl rfl
    · obtain ⟨s₁, heq, hinv⟩ := uthread_resume_valid h tid hv
      simp only [UThreads.step, heq, Outcome.next, Option.some.injEq] at hs
      exact hs ▸ hinv
  | sleep n =>
    by_cases hv : n ≤ 0 ∨ s.current_tid = 0
    · simp only [UThreads.step, uthread_sleep_invalid M s n hv, Outcome.next, Option.some.injEq] at hs
      exact hs ▸ h.mask_only rfl rfl rfl
    · simp only [not_or, not_le] at hv
      obtain ⟨s₁, heq, hinv⟩ := uthread_sleep_valid h n hv.1 hv.2
      simp only [UThreads.step, heq, Outcome.next, Option.some.injEq] at hs
      exact hs ▸ hinv
  | get_quantums tid =>
    obtain ⟨v, s₁, heq, hinv, -⟩ := uthread_get_quantums_inv h tid
    simp only [UThreads.step, heq, Outcome.next, Option.some.injEq] at hs
    exact hs ▸ hinv
  | tick =>
    obtain ⟨s₁, heq, hinv⟩ := tick_inv h
    simp only [UThreads.step, heq, Switch.next, Option.some.injEq] at hs
    exact hs ▸ hinv

theorem Inv.exec {M : Nat} (ops : List Op) :
    ∀ {s s' : State}, Inv M s → exec M s ops = some s' → Inv M s' := by
  induction ops with
  | nil =>
    intro s s' h hs
    simp only [UThreads.exec, Option.some.injEq] at hs
    exact hs ▸ h
  | cons op ops ih =>
    intro s s' h hs
    simp only [UThreads.exec] at hs
    cases hst : UThreads.step M s op with
    | none => simp [hst] at hs
    | some s₁ =>
      simp only [hst] at hs
      exact ih (h.step op hst) hs

/-- Every state reachable by atomic steps satisfies the invariant. -/
theorem Reachable.inv {M : Nat} {s : State} (h : Reachable M s) : Inv M s := by
  obtain ⟨hM, q, ops, hq, hs⟩ := h
  exact Inv.exec ops (Inv.init hM q hq) hs

theorem Reachable.of_exec (M : Nat) (q : Int) (ops : List Op) (s : State) (hM : 0 < M)
    (hq : 0 < q) (hs : exec M (init_state q) ops = some s) : Reachable M s :=
  ⟨hM, q, ops, hq, hs⟩

theorem exec_append (M : Nat) (ops₁ ops₂ : List Op) (s : State) :
    exec M s (ops₁ ++ ops₂) = (exec M s ops₁).bind (fun s₁ => exec M s₁ ops₂) := by
  induction ops₁ generalizing s with
  | nil => rfl
  | cons op ops ih =>
    simp only [List.cons_append, exec]
    cases UThreads.step M s op with
    | none => rfl
    | some s₁ => exact ih s₁

/-- A reachable state followed by one more event that does not end the
process is reachable. -/
theorem Reachable.extend {M : Nat} {s s' : State} (h : Reachable M s) (op : Op)
    (hs : UThreads.step M s op = some s') : Reachable M s' := by
  obtain ⟨hM, q, ops, hq, he⟩ := h
  refine ⟨hM, q, ops ++ [op], hq, ?_⟩
  rw [exec_append, he]
  simp [exec, hs]

/-! ## Failure results -/

theorem uthread_spawn_valid {M : Nat} {s : State} (e : thread_entry_point)
    (hv : ¬ (e = none ∨ ∀ i, i < M → ¬ slot_free s i)) :
    ∃ (k : Nat) (s' : State), uthread_spawn M e s = .ret k s' := by
  simp only [not_or, not_forall, not_not] at hv
  obtain ⟨he, i, hi, hf⟩ := hv
  obtain ⟨f, rfl⟩ := Option.ne_none_iff_exists'.1 he
  obtain ⟨k, hk⟩ := find_free_of_exists s M ⟨i, hi, hf⟩
  exact ⟨k, _, uthread_spawn_eq M s f k hk⟩

theorem uthread_spawn_invalid (M : Nat) (s : State) (e : thread_entry_point)
    (hv : e = none ∨ ∀ i, i < M → ¬ slot_free s i) :
    uthread_spawn M e s = .ret FAIL (ignoreClock s) := by
  rcases hv with rfl | hfull
  · exact uthread_spawn_null M s
  · exact uthread_spawn_full M s e hfull

theorem same_scheduling_ignoreClock (s : State) : s.same_scheduling (ignoreClock s) :=
  ⟨rfl, rfl, rfl, rfl, rfl⟩

/-- C5. In every reachable state a library call that returns `FAIL` leaves the
thread table (all fields of all threads), the ready queue, the current id and
total quantums as they were; `uthread_init` that fails leaves the whole state.
In particular `uthread_block(0)` always fails this way, and so does
`uthread_sleep` called by thread 0. -/
theorem failure_leaves_state (MAX_THREAD_NUM : Nat) (s : State)
    (hs : Reachable MAX_THREAD_NUM s) :
    (∀ quantum_usecs s₀ s', uthread_init quantum_usecs s₀ = .ret FAIL s' → s' = s₀) ∧
    (∀ entry_point s', uthread_spawn MAX_THREAD_NUM entry_point s = .ret FAIL s' →
      s.same_scheduling s') ∧
    (∀ tid s', uthread_terminate MAX_THREAD_NUM tid s = .ret FAIL s' → s.same_scheduling s') ∧
    (∀ tid s', uthread_block MAX_THREAD_NUM tid s = .ret FAIL s' → s.same_scheduling s') ∧
    (∀ tid s', uthread_resume MAX_THREAD_NUM tid s = .ret FAIL s' → s.same_scheduling s') ∧
    (∀ num_quantums s', uthread_sleep MAX_THREAD_NUM num_quantums s = .ret FAIL s' →
      s.same_scheduling s') ∧
    (∀ tid s', uthread_get_quantums MAX_THREAD_NUM tid s = .ret FAIL s' →
      s.same_scheduling s') ∧
    (∃ s', uthread_block MAX_THREAD_NUM 0 s = .ret FAIL s' ∧ s.same_scheduling s') ∧
    (s.current_tid = 0 → ∀ num_quantums,
      ∃ s', uthread_sleep MAX_THREAD_NUM num_quantums s = .ret FAIL s' ∧
        s.same_scheduling s') := by
  have h := hs.inv
  have hne : SUCCESS ≠ FAIL := by decide
  refine ⟨?_, ?_, ?_, ?_, ?_, ?_, ?_, ?_, ?_⟩
  · intro q s₀ s' heq
    by_cases hq : q ≤ 0
    · rw [uthread_init_invalid q s₀ hq] at heq
      cases heq; rfl
    · rw [uthread_init_eq q (by omega) s₀] at heq
      cases heq
  · intro e s' heq
    by_cases hv : e = none ∨ ∀ i, i < MAX_THREAD_NUM → ¬ slot_free s i
    · rw [uthread_spawn_invalid MAX_THREAD_NUM s e hv] at heq
      cases heq; exact same_scheduling_ignoreClock s
    · obtain ⟨k, s₁, heq₁⟩ := uthread_spawn_valid e hv
      rw [heq₁] at heq
      simp only [Outcome.ret.injEq, FAIL] at heq
      omega
  · intro tid s' heq
    by_cases hv : invalid_tid MAX_THREAD_NUM s tid
    · rw [uthread_terminate_invalid MAX_THREAD_NUM s tid hv] at heq
      cases heq; exact same_scheduling_ignoreClock s
    · rcases uthread_terminate_valid h tid hv with ⟨-, s₁, heq₁⟩ | ⟨-, -, s₁, heq₁, -⟩ |
        ⟨-, -, s₁, heq₁, -⟩ <;> rw [heq₁] at heq <;> cases heq
  · intro tid s' heq
    by_cases hv : invalid_tid MAX_THREAD_NUM s tid ∨ tid = 0
    · rw [uthread_block_invalid MAX_THREAD_NUM s tid hv] at heq
      cases heq; exact same_scheduling_ignoreClock s
    · simp only [not_or] at hv
      obtain ⟨s₁, heq₁, -⟩ := uthread_block_valid h tid hv.1 hv.2
      rw [heq₁] at heq; cases heq
  · intro tid s' heq
    by_cases hv : invalid_tid MAX_THREAD_NUM s tid
    · rw [uthread_resume_invalid MAX_THREAD_NUM s tid hv] at heq
      cases heq; exact same_scheduling_ignoreClock s
    · obtain ⟨s₁, heq₁, -⟩ := uthread_resume_valid h tid hv
      rw [heq₁] at heq; cases heq
  · intro n s' heq
    by_cases hv : n ≤ 0 ∨ s.current_tid = 0
    · rw [uthread_sleep_invalid MAX_THREAD_NUM s n hv] at heq
      cases heq; exact same_scheduling_ignoreClock s
    · simp only [not_or, not_le] at hv
      obtain ⟨s₁, heq₁, -⟩ := uthread_sleep_valid h n hv.1 hv.2
      rw [heq₁] at heq; cases heq
  · intro tid s' heq
    by_cases hv : invalid_tid MAX_THREAD_NUM s tid
    · rw [uthread_get_quantums_invalid MAX_THREAD_NUM s tid hv] at heq
      cases heq; exact same_scheduling_ignoreClock s
    · obtain ⟨i, t, rfl, -, ht, -⟩ := exists_of_valid hv
      rw [uthread_get_quantums_eq h.toBase i t ht] at heq
      simp only [Outcome.ret.injEq] at heq
      obtain ⟨-, rfl⟩ := heq
      exact ⟨rfl, rfl, rfl, rfl, rfl⟩
  · exact ⟨_, uthread_block_invalid MAX_THREAD_NUM s 0 (Or.inr rfl),
      same_scheduling_ignoreClock s⟩
  · intro hc n
    exact ⟨_, uthread_sleep_invalid MAX_THREAD_NUM s n (Or.inr hc),
      same_scheduling_ignoreClock s⟩

/-! ## Blocking and resuming -/

/-- In every state reachable by atomic steps, for every thread `tid` other than
0 whose slot is occupied, `uthread_block tid` returns `SUCCESS` and leaves that thread
`BLOCKED` with the manual flag set (its other fields as before) and out of the
ready queue; total quantums and every quantum count are unchanged.  If `tid`
is not the running thread, the current id is unchanged, the queue is the old
one without `tid` (order kept) and every other slot is unchanged.  If `tid` is
the running thread, the head of the ready queue, which is what `pick_next`
selects, becomes the current thread and `RUNNING`, the queue is its tail, and
every slot other than these two is unchanged. -/
theorem uthread_block_spec (MAX_THREAD_NUM : Nat) (s : State)
    (hs : Reachable MAX_THREAD_NUM s) (tid : Nat) (t : Thread)
    (ht : s.threads tid = some t) (hmain : tid ≠ 0) :
    ∃ s', uthread_block MAX_THREAD_NUM (tid : Int) s = .ret SUCCESS s' ∧
      s'.threads tid = some { t with manually_blocked := true, state := .BLOCKED } ∧
      tid ∉ s'.ready_queue ∧
      s'.total_quantums = s.total_quantums ∧
      (∀ j tj, s.threads j = some tj →
        ∃ tj', s'.threads j = some tj' ∧ tj'.quantum_count = tj.quantum_count) ∧
      (tid ≠ s.current_tid →
        s'.current_tid = s.current_tid ∧
        s'.ready_queue = s.ready_queue.filter (fun j => j ≠ tid) ∧
        ∀ j, j ≠ tid → s'.threads j = s.threads j) ∧
      (tid = s.current_tid →
        ∃ next rest th, s.ready_queue = next :: rest ∧ s.threads next = some th ∧
          th.state = .READY ∧
          pick_next s.threads s.ready_queue = (some next, rest) ∧
          s'.current_tid = next ∧
          s'.threads next = some { th with state := .RUNNING } ∧
          s'.ready_queue = rest ∧
          ∀ j, j ≠ tid → j ≠ next → s'.threads j = s.threads j) := by
  have h := hs.inv
  by_cases hc : tid = s.current_tid
  · subst hc
    obtain ⟨next, rest, th, s', hq, hth, hrd, hne, heq, e1, e2, e3, e4, hinv⟩ :=
      uthread_block_self h t ht hmain
    have hti : s'.threads s.current_tid =
        some { t with manually_blocked := true, state := .BLOCKED } := by
      rw [e1, Function.update_noteq (Ne.symm hne), Function.update_same]
    refine ⟨s', heq, hti, ?_, e4, ?_, fun hh => absurd rfl hh, fun _ => ?_⟩
    · exact hinv.not_mem_queue _ (fun t' ht' => by rw [hti] at ht'; cases ht'; simp)
    · intro j tj hj
      by_cases hjn : j = next
      · subst hjn
        rw [hth] at hj; cases hj
        exact ⟨{ th with state := .RUNNING }, by rw [e1, Function.update_same], rfl⟩
      · by_cases hjc : j = s.current_tid
        · subst hjc
          rw [ht] at hj; cases hj
          exact ⟨_, hti, rfl⟩
        · exact ⟨tj, by rw [e1, Function.update_noteq hjn, Function.update_noteq hjc]; exact hj,
            rfl⟩
    · have hok := h.ok next th hth
      refine ⟨next, rest, th, hq, hth, hrd, ?_, e3, by rw [e1, Function.update_same], e2, ?_⟩
      · rw [hq]; exact pick_next_head s.threads next rest th hth hok.active hok.env hrd
      · intro j hjc hjn
        rw [e1, Function.update_noteq hjn, Function.update_noteq hjc]
  · obtain ⟨s', heq, e1, e2, e3, e4, hinv⟩ := uthread_block_other h tid t ht hmain hc
    have hti : s'.threads tid = some { t with manually_blocked := true, state := .BLOCKED } := by
      rw [e1, Function.update_same]
    refine ⟨s', heq, hti, ?_, e4, ?_, fun _ => ⟨e3, e2, ?_⟩, fun hh => absurd hh hc⟩
    · exact hinv.not_mem_queue _ (fun t' ht' => by rw [hti] at ht'; cases ht'; simp)
    · intro j tj hj
      by_cases hjt : j = tid
      · subst hjt
        rw [ht] at hj; cases hj
        exact ⟨_, hti, rfl⟩
      · exact ⟨tj, by rw [e1, Function.update_noteq hjt]; exact hj, rfl⟩
    · intro j hj
      rw [e1, Function.update_noteq hj]

theorem save_current_threads_other (s : State) (i : Nat) (hi : i ≠ s.current_tid) :
    (save_current s).threads i = s.threads i := by
  rcases Option.eq_none_or_eq_some (s.threads s.current_tid) with hn | ⟨t, ht⟩
  · simp [save_current, hn]
  · simp only [save_current, ht]
    split_ifs
    · exact Function.update_noteq hi _ _
    · rfl
    · rfl

theorem save_current_queue_mem (s : State) (i : Nat) (hi : i ∈ s.ready_queue) :
    i ∈ (save_current s).ready_queue := by
  rcases Option.eq_none_or_eq_some (s.threads s.current_tid) with hn | ⟨t, ht⟩
  · simpa [save_current, hn] using hi
  · simp only [save_current, ht]
    split_ifs
    · exact List.mem_append_left _ hi
    · exact hi
    · exact hi

/-- What the first half of a timer tick (wake-up loop, saving the current
thread) does to a thread other than the current one. -/
theorem sched_prepare_tick_other {M : Nat} {s : State} (h : Base M s) (i : Nat)
    (hi : i ≠ s.current_tid) :
    (sched_prepare M SIGVTALRM s).threads i = (s.threads i).map wake_thread ∧
      (woken s i → i ∈ (sched_prepare M SIGVTALRM s).ready_queue) := by
  have h1 : Base M { s with set_has_sigvtalrm := true, sigvtalrm_blocked := true } :=
    h.frame rfl rfl rfl
  simp only [sched_prepare, if_true]
  constructor
  · rw [save_current_threads_other _ i (by rw [(wake_loop_fields _ M).1]; exact hi)]
    exact wake_loop_threads_all h1 i
  · intro hw
    exact save_current_queue_mem _ i ((mem_wake_loop_queue h1 i).2 (Or.inr hw))

/-- A timer tick, seen from a blocked thread `i`: the wake-up pass applies
`wake_thread` to it; when the tick is over the thread is either as the wake-up
pass left it, or it was woken and has been picked as the running thread. -/
theorem tick_blocked {M : Nat} {s : State} (h : Inv M s) (i : Nat) (t : Thread)
    (ht : s.threads i = some t) (hb : t.state = .BLOCKED) :
    ∃ s', tick M s = .resumed s' ∧ Inv M s' ∧
      (sched_prepare M SIGVTALRM s).threads i = some (wake_thread t) ∧
      ((wake_thread t).state = .READY → i ∈ (sched_prepare M SIGVTALRM s).ready_queue) ∧
      (s'.threads i = some (wake_thread t) ∨
        ((wake_thread t).state = .READY ∧ s'.current_tid = i ∧
          s'.threads i = some { wake_thread t with
            state := .RUNNING, quantum_count := (wake_thread t).quantum_count + 1 })) := by
  obtain ⟨-, hic, -⟩ := h.blocked_facts i t ht hb
  obtain ⟨hp, hpq⟩ := sched_prepare_tick_other h.toBase i hic
  rw [ht, Option.map_some'] at hp
  obtain ⟨next, rest, th, hq, hth, hrd, heq, hinv⟩ := scheduler_handler_spec SIGVTALRM h.toBase
  have hd := sched_dispatch_eq SIGVTALRM next
    { sched_prepare M SIGVTALRM s with ready_queue := rest } th hth
  simp only [if_true] at hd
  refine ⟨_, heq, hinv, hp, ?_, ?_⟩
  · intro hr
    apply hpq
    rw [wake_thread_state] at hr
    split_ifs at hr with hw
    · exact (woken_iff s i t ht).2 hw
    · rw [hb] at hr; cases hr
  · rw [hd]
    by_cases hin : i = next
    · subst hin
      rw [hp] at hth
      cases hth
      exact Or.inr ⟨hrd, rfl, Function.update_same _ _ _⟩
    · left
      show Function.update (sched_prepare M SIGVTALRM s).threads next _ i = _
      rw [Function.update_noteq hin, hp]

theorem wake_thread_manual (t : Thread) (ha : t.active = true) (hb : t.state = .BLOCKED)
    (hm : t.manually_blocked = true) (hs : 0 ≤ t.sleep_quantums) :
    (wake_thread t).state = .BLOCKED ∧ (wake_thread t).manually_blocked = true ∧
      (wake_thread t).sleep_quantums = max (t.sleep_quantums - 1) 0 := by
  unfold wake_thread
  split_ifs with h1 h2
  · simp [hm] at h2
  · refine ⟨hb, hm, ?_⟩
    show t.sleep_quantums - 1 = max (t.sleep_quantums - 1) 0
    have := h1.2.2
    omega
  · refine ⟨hb, hm, ?_⟩
    have : ¬ 0 < t.sleep_quantums := fun h => h1 ⟨ha, hb, h⟩
    omega

theorem wake_thread_sleeping (t : Thread) (ha : t.active = true) (hb : t.state = .BLOCKED)
    (hs : 1 < t.sleep_quantums) :
    wake_thread t = { t with sleep_quantums := t.sleep_quantums - 1 } := by
  unfold wake_thread
  have h1 : t.active = true ∧ t.state = .BLOCKED ∧ 0 < t.sleep_quantums := ⟨ha, hb, by omega⟩
  have h2 : ¬ (t.sleep_quantums - 1 = 0 ∧ t.manually_blocked = false) := by
    rintro ⟨h, -⟩; omega
  rw [if_pos h1, if_neg h2]

theorem wake_thread_expire (t : Thread) (ha : t.active = true) (hb : t.state = .BLOCKED)
    (hs : t.sleep_quantums = 1) (hm : t.manually_blocked = false) :
    wake_thread t = { t with sleep_quantums := t.sleep_quantums - 1, state := .READY } := by
  unfold wake_thread
  have h1 : t.active = true ∧ t.state = .BLOCKED ∧ 0 < t.sleep_quantums := ⟨ha, hb, by omega⟩
  have h2 : t.sleep_quantums - 1 = 0 ∧ t.manually_blocked = false := ⟨by omega, hm⟩
  rw [if_pos h1, if_pos h2]

/-- Any number of ticks leaves a manually blocked thread blocked; its
countdown goes down to zero and stays there. -/
theorem ticks_blocked_manual {M : Nat} (i : Nat) :
    ∀ (k : Nat) (s : State) (t : Thread), Inv M s → s.threads i = some t →
      t.state = .BLOCKED → t.manually_blocked = true →
      ∃ s' t', ticks M k s = some s' ∧ Inv M s' ∧ s'.threads i = some t' ∧
        t'.state = .BLOCKED ∧ t'.manually_blocked = true ∧
        t'.sleep_quantums = max (t.sleep_quantums - k) 0 := by
  intro k
  induction k with
  | zero =>
    intro s t h ht hb hm
    have := (h.ok i t ht).sleep_nonneg
    exact ⟨s, t, rfl, h, ht, hb, hm, by simp; omega⟩
  | succ k ih =>
    intro s t h ht hb hm
    have hs := (h.ok i t ht).sleep_nonneg
    obtain ⟨w1, w2, w3⟩ := wake_thread_manual t (h.ok i t ht).active hb hm hs
    obtain ⟨s₁, heq, hinv, -, -, hcase⟩ := tick_blocked h i t ht hb
    have ht₁ : s₁.threads i = some (wake_thread t) := by
      rcases hcase with hc | ⟨hr, -, -⟩
      · exact hc
      · rw [w1] at hr; cases hr
    obtain ⟨s', t', e1, e2, e3, e4, e5, e6⟩ := ih s₁ (wake_thread t) hinv ht₁ w1 w2
    refine ⟨s', t', ?_, e2, e3, e4, e5, ?_⟩
    · simp only [ticks, heq]
      exact e1
    · rw [e6, w3]
      push_cast
      omega

/-- Fewer ticks than the countdown leave a sleeping thread blocked, with the
countdown decremented once per tick. -/
theorem ticks_sleeping {M : Nat} (i : Nat) :
    ∀ (k : Nat) (s : State) (t : Thread), Inv M s → s.threads i = some t →
      t.state = .BLOCKED → (k : Int) < t.sleep_quantums →
      ∃ s' t', ticks M k s = some s' ∧ Inv M s' ∧ s'.threads i = some t' ∧
        t'.state = .BLOCKED ∧ t'.manually_blocked = t.manually_blocked ∧
        t'.sleep_quantums = t.sleep_quantums - k := by
  intro k
  induction k with
  | zero =>
    intro s t h ht hb _
    exact ⟨s, t, rfl, h, ht, hb, rfl, by simp⟩
  | succ k ih =>
    intro s t h ht hb hk
    push_cast at hk
    have hw := wake_thread_sleeping t (h.ok i t ht).active hb (by omega)
    obtain ⟨s₁, heq, hinv, -, -, hcase⟩ := tick_blocked h i t ht hb
    have ht₁ : s₁.threads i = some (wake_thread t) := by
      rcases hcase with hc | ⟨hr, -, -⟩
      · exact hc
      · rw [hw] at hr
        rw [hb] at hr; cases hr
    rw [hw] at ht₁
    obtain ⟨s', t', e1, e2, e3, e4, e5, e6⟩ := ih s₁ _ hinv ht₁ hb
      (by show (k : Int) < t.sleep_quantums - 1; omega)
    refine ⟨s', t', ?_, e2, e3, e4, e5, ?_⟩
    · simp only [ticks, heq]
      exact e1
    · rw [e6]
      show t.sleep_quantums - 1 - (k : Int) = t.sleep_quantums - ((k + 1 : Nat) : Int)
      push_cast
      omega

/-- Let `tid` be a sleeping thread (blocked, countdown `n > 0`) of a state
reachable by atomic steps.
* After `uthread_block tid`, for every number `k` of timer ticks the thread is
  still `BLOCKED`, manually blocked and out of the ready queue, with countdown
  `max (n - k) 0`; once the countdown has expired (`n <= k`),
  `uthread_resume tid` makes it `READY` and appends it to the ready queue.
* After `uthread_resume tid` instead, the thread stays `BLOCKED` and out of the
  queue with countdown `n - k` for every `k < n` ticks (the sleep is not
  cancelled), and the `n`-th tick wakes it: its wake-up pass makes the thread
  `READY` with countdown 0 and queues it, and when the tick is over the thread
  is `READY` in the queue or has already been picked as the running thread. -/
theorem sleeping_and_blocked (MAX_THREAD_NUM : Nat) (s : State)
    (hs : Reachable MAX_THREAD_NUM s) (tid : Nat) (t : Thread)
    (ht : s.threads tid = some t) (hblocked : t.state = .BLOCKED)
    (hsleep : 0 < t.sleep_quantums) :
    (∃ s₁, uthread_block MAX_THREAD_NUM (tid : Int) s = .ret SUCCESS s₁ ∧
      ∀ k : Nat, ∃ sk tk, ticks MAX_THREAD_NUM k s₁ = some sk ∧
        sk.threads tid = some tk ∧ tk.state = .BLOCKED ∧ tk.manually_blocked = true ∧
        tk.sleep_quantums = max (t.sleep_quantums - k) 0 ∧ tid ∉ sk.ready_queue ∧
        (t.sleep_quantums ≤ k →
          ∃ s₂, uthread_resume MAX_THREAD_NUM (tid : Int) sk = .ret SUCCESS s₂ ∧
            s₂.threads tid = some { tk with manually_blocked := false, state := .READY } ∧
            s₂.ready_queue = sk.ready_queue ++ [tid])) ∧
    (∃ s₁, uthread_resume MAX_THREAD_NUM (tid : Int) s = .ret SUCCESS s₁ ∧
      ∀ k : Nat, (k : Int) < t.sleep_quantums →
        ∃ sk tk, ticks MAX_THREAD_NUM k s₁ = some sk ∧
          sk.threads tid = some tk ∧ tk.state = .BLOCKED ∧ tk.manually_blocked = false ∧
          tk.sleep_quantums = t.sleep_quantums - k ∧ tid ∉ sk.ready_queue ∧
          ((k : Int) + 1 = t.sleep_quantums →
            ∃ sn tw tn, tick MAX_THREAD_NUM sk = .resumed sn ∧
              (sched_prepare MAX_THREAD_NUM SIGVTALRM sk).threads tid = some tw ∧
              tw.state = .READY ∧ tw.sleep_quantums = 0 ∧
              tid ∈ (sched_prepare MAX_THREAD_NUM SIGVTALRM sk).ready_queue ∧
              sn.threads tid = some tn ∧ tn.sleep_quantums = 0 ∧
              ((tn.state = .READY ∧ tid ∈ sn.ready_queue) ∨
                (tn.state = .RUNNING ∧ sn.current_tid = tid)))) := by
  have h := hs.inv
  obtain ⟨hi0, hic, -⟩ := h.blocked_facts tid t ht hblocked
  constructor
  · obtain ⟨s₁, heq, e1, -, -, -, hinv₁⟩ := uthread_block_other h tid t ht hi0 hic
    have ht₁ : s₁.threads tid = some { t with manually_blocked := true, state := .BLOCKED } := by
      rw [e1, Function.update_same]
    refine ⟨s₁, heq, fun k => ?_⟩
    obtain ⟨sk, tk, k1, k2, k3, k4, k5, k6⟩ :=
      ticks_blocked_manual tid k s₁ _ hinv₁ ht₁ rfl rfl
    have hnot : tid ∉ sk.ready_queue :=
      k2.not_mem_queue tid (fun t' ht' => by rw [k3] at ht'; cases ht'; simp [k4])
    refine ⟨sk, tk, k1, k3, k4, k5, k6, hnot, fun hk => ?_⟩
    have hz : tk.sleep_quantums = 0 := by
      rw [k6]
      show max (t.sleep_quantums - (k : Int)) 0 = 0
      omega
    obtain ⟨s₂, r1, r2, r3, -, -, -⟩ := uthread_resume_blocked k2 tid tk k3 k4
    refine ⟨s₂, r1, ?_, ?_⟩
    · rw [r2, Function.update_same, if_pos hz]
    · rw [r3, if_pos hz]
  · obtain ⟨s₁, heq, e1, -, -, -, hinv₁⟩ := uthread_resume_blocked h tid t ht hblocked
    have hnz : ¬ t.sleep_quantums = 0 := by omega
    have ht₁ : s₁.threads tid = some { t with manually_blocked := false } := by
      rw [e1, Function.update_same, if_neg hnz]
      cases t
      simp_all
    refine ⟨s₁, heq, fun k hk => ?_⟩
    obtain ⟨sk, tk, k1, k2, k3, k4, k5, k6⟩ :=
      ticks_sleeping tid k s₁ _ hinv₁ ht₁ hblocked hk
    have hnot : tid ∉ sk.ready_queue :=
      k2.not_mem_queue tid (fun t' ht' => by rw [k3] at ht'; cases ht'; simp [k4])
    refine ⟨sk, tk, k1, k3, k4, k5, k6, hnot, fun hlast => ?_⟩
    have hone : tk.sleep_quantums = 1 := by
      rw [k6]
      show t.sleep_quantums - (k : Int) = 1
      omega
    have hw := wake_thread_expire tk (k2.ok tid tk k3).active k4 hone k5
    obtain ⟨sn, tq, hinvn, p1, p2, hcase⟩ := tick_blocked k2 tid tk k3 k4
    rw [hw] at p1 p2 hcase
    have hzero : tk.sleep_quantums - 1 = 0 := by omega
    rcases hcase with hc | ⟨-, hcur, hc⟩
    · refine ⟨sn, _, _, tq, p1, rfl, hzero, p2 rfl, hc, hzero, Or.inl ⟨rfl, ?_⟩⟩
      exact (hinvn.queue_iff tid).2 ⟨_, hc, rfl⟩
    · exact ⟨sn, _, _, tq, p1, rfl, hzero, p2 rfl, hc, hzero, Or.inr ⟨rfl, hcur⟩⟩

/-! ## Concrete runs -/

theorem example_run_reachable (ops : List Op)
    (h : exec 3 (init_state 1000) ops = some (example_run ops)) :
    Reachable 3 (example_run ops) :=
  Reachable.of_exec 3 1000 ops _ (by decide) (by decide) h

theorem spawn_after_init_witness :
    (0 : Int) < 1000 ∧ [7, 8].length < 3 ∧
    ∃ s, spawn_many 3 ([7, 8].map some) (init_state 1000) = ([1, 2], s) ∧
      s.ready_queue = [1, 2] ∧ s.current_tid = 0 ∧
      ∃ s₂, uthread_spawn 3 (some 9) s = .ret FAIL s₂ ∧ s₂.threads = s.threads := by
  obtain ⟨s, h1, h2, h3, h4, -⟩ := spawn_after_init 3 1000 (by decide) [7, 8] (by decide)
  obtain ⟨s₂, h5, h6, -⟩ := h4 rfl (some 9)
  exact ⟨by decide, by decide, s, h1, h2, h3, s₂, h5, h6⟩

theorem failure_leaves_state_witness :
    Reachable 3 (example_run [.spawn (some 1), .tick]) ∧
    ∃ s', uthread_sleep 3 0 (example_run [.spawn (some 1), .tick]) = .ret FAIL s' ∧
      (example_run [.spawn (some 1), .tick]).same_scheduling s' := by
  have hr : Reachable 3 (example_run [.spawn (some 1), .tick]) := example_run_reachable _ rfl
  obtain ⟨-, -, -, -, -, h6, -⟩ := failure_leaves_state 3 _ hr
  exact ⟨hr, _, rfl, h6 0 _ rfl⟩

/-- C6, evaluated on the code.  After `uthread_init(1000)` and one timer tick
(which fills in the global `set`) `SIGVTALRM` is unblocked.  From there
`uthread_spawn(nullptr)`, `uthread_terminate(2)`, `uthread_block(0)`,
`uthread_resume(0)`, `uthread_sleep(0)` and `uthread_get_quantums(2)` each
return through an early `return` that skips `acceptClockSignal`, so the signal
is still blocked when the call is over, while a call that takes the normal
exit (`uthread_get_quantums(0)`) unblocks it. -/
theorem early_return_keeps_signal_blocked :
    (example_run [.tick]).sigvtalrm_blocked = false ∧
    (∃ s', uthread_spawn 3 none (example_run [.tick]) = .ret FAIL s' ∧
      s'.sigvtalrm_blocked = true) ∧
    (∃ s', uthread_terminate 3 2 (example_run [.tick]) = .ret FAIL s' ∧
      s'.sigvtalrm_blocked = true) ∧
    (∃ s', uthread_block 3 0 (example_run [.tick]) = .ret FAIL s' ∧
      s'.sigvtalrm_blocked = true) ∧
    (∃ s', uthread_resume 3 0 (example_run [.tick]) = .ret SUCCESS s' ∧
      s'.sigvtalrm_blocked = true) ∧
    (∃ s', uthread_sleep 3 0 (example_run [.tick]) = .ret FAIL s' ∧
      s'.sigvtalrm_blocked = true) ∧
    (∃ s', uthread_get_quantums 3 2 (example_run [.tick]) = .ret FAIL s' ∧
      s'.sigvtalrm_blocked = true) ∧
    (∃ s', uthread_get_quantums 3 0 (example_run [.tick]) = .ret 2 s' ∧
      s'.sigvtalrm_blocked = false) :=
  ⟨rfl, ⟨_, rfl, rfl⟩, ⟨_, rfl, rfl⟩, ⟨_, rfl, rfl⟩, ⟨_, rfl, rfl⟩, ⟨_, rfl, rfl⟩,
    ⟨_, rfl, rfl⟩, ⟨_, rfl, rfl⟩⟩

/-- C7, evaluated on the code.  Thread 1 calls `uthread_sleep(2)`; thread 2 then
terminates itself, which runs `scheduler_handler(SIGVTALRM)` and takes the
countdown of thread 1 from 2 to 1 although no timer tick was handled; the first
timer tick after the sleep call then wakes thread 1 and makes it the running
thread, one tick early. -/
theorem self_terminate_wakes_sleeper_early :
    (example_run [.spawn (some 1), .spawn (some 2), .tick, .sleep 2]).threads 1 =
      some { tid := 1, state := .BLOCKED, entry_point := some 1, quantum_count := 1,
             sleep_quantums := 2, active := true, env_initialized := true,
             manually_blocked := false } ∧
    (example_run [.spawn (some 1), .spawn (some 2), .tick, .sleep 2]).current_tid = 2 ∧
    (example_run [.spawn (some 1), .spawn (some 2), .tick, .sleep 2, .terminate 2]).threads 1 =
      some { tid := 1, state := .BLOCKED, entry_point := some 1, quantum_count := 1,
             sleep_quantums := 1, active := true, env_initialized := true,
             manually_blocked := false } ∧
    (example_run
        [.spawn (some 1), .spawn (some 2), .tick, .sleep 2, .terminate 2, .tick]).threads 1 =
      some { tid := 1, state := .RUNNING, entry_point := some 1, quantum_count := 2,
             sleep_quantums := 0, active := true, env_initialized := true,
             manually_blocked := false } ∧
    (example_run
        [.spawn (some 1), .spawn (some 2), .tick, .sleep 2, .terminate 2, .tick]).current_tid =
      1 :=
  ⟨rfl, rfl, rfl, rfl, rfl⟩

theorem uthread_block_spec_witness :
    Reachable 3 (example_run [.spawn (some 1), .spawn (some 2), .tick]) ∧
    (example_run [.spawn (some 1), .spawn (some 2), .tick]).threads 1 =
      some { tid := 1, state := .RUNNING, entry_point := some 1, quantum_count := 1,
             sleep_quantums := 0, active := true, env_initialized := true,
             manually_blocked := false } ∧
    ∃ s', uthread_block 3 1 (example_run [.spawn (some 1), .spawn (some 2), .tick]) =
        .ret SUCCESS s' ∧
      s'.threads 1 =
        some { tid := 1, state := .BLOCKED, entry_point := some 1, quantum_count := 1,
               sleep_quantums := 0, active := true, env_initialized := true,
               manually_blocked := true } ∧
      1 ∉ s'.ready_queue ∧
      s'.total_quantums =
        (example_run [.spawn (some 1), .spawn (some 2), .tick]).total_quantums := by
  have hr : Reachable 3 (example_run [.spawn (some 1), .spawn (some 2), .tick]) :=
    example_run_reachable _ rfl
  obtain ⟨s', h1, h2, h3, h4, -⟩ := uthread_block_spec 3 _ hr 1 _ rfl (by decide)
  exact ⟨hr, rfl, s', h1, h2, h3, h4⟩

theorem sleeping_and_blocked_witness :
    Reachable 3 (example_run [.spawn (some 1), .spawn (some 2), .tick, .sleep 2]) ∧
    (example_run [.spawn (some 1), .spawn (some 2), .tick, .sleep 2]).threads 1 =
      some { tid := 1, state := .BLOCKED, entry_point := some 1, quantum_count := 1,
             sleep_quantums := 2, active := true, env_initialized := true,
             manually_blocked := false } ∧
    (∃ s₁, uthread_block 3 1
        (example_run [.spawn (some 1), .spawn (some 2), .tick, .sleep 2]) = .ret SUCCESS s₁) ∧
    (∃ s₁, uthread_resume 3 1
        (example_run [.spawn (some 1), .spawn (some 2), .tick, .sleep 2]) = .ret SUCCESS s₁) := by
  have hr : Reachable 3 (example_run [.spawn (some 1), .spawn (some 2), .tick, .sleep 2]) :=
    example_run_reachable _ rfl
  obtain ⟨⟨s₁, h1, -⟩, ⟨s₂, h2, -⟩⟩ :=
    sleeping_and_blocked 3 _ hr 1 _ rfl rfl (by decide)
  exact ⟨hr, rfl, ⟨s₁, h1⟩, ⟨s₂, h2⟩⟩

/-- With nothing but timer ticks after it, `uthread_sleep n` keeps the caller
blocked and out of the ready queue for `n - 1` ticks, the countdown going down
by one per tick, and the `n`-th tick wakes it. -/
theorem sleep_then_ticks (MAX_THREAD_NUM : Nat) (s : State)
    (hs : Reachable MAX_THREAD_NUM s) (n : Int) (hn : 0 < n) (hc0 : s.current_tid ≠ 0) :
    ∃ s₁, uthread_sleep MAX_THREAD_NUM n s = .ret SUCCESS s₁ ∧
      ∀ k : Nat, (k : Int) < n →
        ∃ sk tk, ticks MAX_THREAD_NUM k s₁ = some sk ∧
          sk.threads s.current_tid = some tk ∧ tk.state = .BLOCKED ∧
          tk.sleep_quantums = n - k ∧ s.current_tid ∉ sk.ready_queue ∧
          sk.current_tid ≠ s.current_tid ∧
          ((k : Int) + 1 = n →
            ∃ sn tn, tick MAX_THREAD_NUM sk = .resumed sn ∧
              sn.threads s.current_tid = some tn ∧ tn.sleep_quantums = 0 ∧
              ((tn.state = .READY ∧ s.current_tid ∈ sn.ready_queue) ∨
                (tn.state = .RUNNING ∧ sn.current_tid = s.current_tid))) := by
  have h := hs.inv
  obtain ⟨t, ht, hr⟩ := h.cur
  have hman : t.manually_blocked = false := by
    cases hm : t.manually_blocked with
    | false => rfl
    | true =>
      have := (h.ok _ t ht).manual hm
      rw [hr] at this; cases this
  obtain ⟨next, rest, th, s₁, -, -, -, hne, heq, e1, -, -, -, hinv₁⟩ :=
    uthread_sleep_spec h n t hn hc0 ht
  have ht₁ : s₁.threads s.current_tid =
      some { t with sleep_quantums := n, state := .BLOCKED } := by
    rw [e1, Function.update_noteq (Ne.symm hne), Function.update_same]
  refine ⟨s₁, heq, fun k hk => ?_⟩
  obtain ⟨sk, tk, k1, k2, k3, k4, k5, k6⟩ :=
    ticks_sleeping s.current_tid k s₁ _ hinv₁ ht₁ rfl hk
  obtain ⟨-, hcur, hnot⟩ := k2.blocked_facts _ tk k3 k4
  refine ⟨sk, tk, k1, k3, k4, k6, hnot, Ne.symm hcur, fun hlast => ?_⟩
  have hone : tk.sleep_quantums = 1 := by
    rw [k6]
    show n - (k : Int) = 1
    omega
  have hm : tk.manually_blocked = false := k5.trans hman
  have hw := wake_thread_expire tk (k2.ok _ tk k3).active k4 hone hm
  obtain ⟨sn, tq, hinvn, -, -, hcase⟩ := tick_blocked k2 _ tk k3 k4
  rw [hw] at hcase
  have hzero : tk.sleep_quantums - 1 = 0 := by omega
  rcases hcase with hc | ⟨-, hcur', hc⟩
  · exact ⟨sn, _, tq, hc, hzero, Or.inl ⟨rfl, (hinvn.queue_iff _).2 ⟨_, hc, rfl⟩⟩⟩
  · exact ⟨sn, _, tq, hc, hzero, Or.inr ⟨rfl, hcur'⟩⟩

/-! ## A timer tick in full -/

theorem woken_congr (s s' : State) (h : s'.threads = s.threads) (i : Nat) :
    woken s' i ↔ woken s i := by
  unfold woken
  rw [h]

theorem filter_woken_congr (s s' : State) (h : s'.threads = s.threads) (l : List Nat) :
    l.filter (fun i => woken s' i) = l.filter (fun i => woken s i) := by
  apply List.filter_congr
  intro i _
  exact decide_eq_decide.2 (woken_congr s s' h i)

/-- The state in which a timer tick picks the next thread, when the current
thread is `RUNNING`: every slot has gone through the wake-up pass, the current
thread has been demoted, and the queue is the old queue, then the woken
threads in index order, then the current thread. -/
theorem sched_prepare_tick_eq {M : Nat} {s : State} (h : Inv M s) (tc : Thread)
    (htc : s.threads s.current_tid = some tc) :
    (sched_prepare M SIGVTALRM s).threads =
        Function.update (fun j => (s.threads j).map wake_thread) s.current_tid
          (some { tc with state := .READY }) ∧
      (sched_prepare M SIGVTALRM s).ready_queue =
        s.ready_queue ++ (List.range M).filter (fun i => woken s i) ++ [s.current_tid] ∧
      (sched_prepare M SIGVTALRM s).total_quantums = s.total_quantums ∧
      (sched_prepare M SIGVTALRM s).current_tid = s.current_tid := by
  obtain ⟨tc', htc', hrc⟩ := h.cur
  rw [htc] at htc'; cases htc'
  have h1 : Base M { s with set_has_sigvtalrm := true, sigvtalrm_blocked := true } :=
    h.toBase.frame rfl rfl rfl
  have hwt : (wake_loop { s with set_has_sigvtalrm := true, sigvtalrm_blocked := true } M).threads
      = fun j => (s.threads j).map wake_thread := by
    funext j
    exact wake_loop_threads_all h1 j
  have hwc := (wake_loop_fields { s with set_has_sigvtalrm := true, sigvtalrm_blocked := true } M).1
  have hwtot :=
    (wake_loop_fields { s with set_has_sigvtalrm := true, sigvtalrm_blocked := true } M).2.1
  have hwq := wake_loop_queue { s with set_has_sigvtalrm := true, sigvtalrm_blocked := true } M
  rw [filter_woken_congr s { s with set_has_sigvtalrm := true, sigvtalrm_blocked := true } rfl]
    at hwq
  have hcur : (wake_loop { s with set_has_sigvtalrm := true, sigvtalrm_blocked := true }
      M).threads (wake_loop { s with set_has_sigvtalrm := true, sigvtalrm_blocked := true }
      M).current_tid = some tc := by
    rw [hwc, hwt]
    show (s.threads s.current_tid).map wake_thread = some tc
    rw [htc, Option.map_some', wake_thread_of_not_blocked tc (by simp [hrc])]
  have he := save_current_running _ tc hcur (h.ok _ tc htc).active hrc
  simp only [sched_prepare, if_true]
  rw [he]
  refine ⟨?_, ?_, hwtot, hwc⟩
  · show Function.update _ _ _ = _
    rw [hwt, hwc]
  · show _ ++ [_] = _
    rw [hwq, hwc]

/-- A timer tick in a state that satisfies the invariant: the head of the
prepared queue becomes the running thread and gets one more quantum. -/
theorem tick_spec {M : Nat} {s : State} (h : Inv M s) (tc : Thread)
    (htc : s.threads s.current_tid = some tc) :
    ∃ next rest th s',
      s.ready_queue ++ (List.range M).filter (fun i => woken s i) ++ [s.current_tid] =
        next :: rest ∧
      Function.update (fun j => (s.threads j).map wake_thread) s.current_tid
        (some { tc with state := .READY }) next = some th ∧
      th.state = .READY ∧
      pick_next (sched_prepare M SIGVTALRM s).threads (sched_prepare M SIGVTALRM s).ready_queue =
        (some next, rest) ∧
      tick M s = .resumed s' ∧
      s'.current_tid = next ∧ s'.ready_queue = rest ∧
      s'.total_quantums = s.total_quantums + 1 ∧
      s'.threads = Function.update
        (Function.update (fun j => (s.threads j).map wake_thread) s.current_tid
          (some { tc with state := .READY }))
        next (some { th with state := .RUNNING, quantum_count := th.quantum_count + 1 }) ∧
      Inv M s' := by
  obtain ⟨p1, p2, p3, -⟩ := sched_prepare_tick_eq h tc htc
  obtain ⟨hb, hnr⟩ := h.toBase.sched_prepare SIGVTALRM
  obtain ⟨next, rest, th, hq, hth, hrd, hpick⟩ := hb.queue_head hnr
  have hinv := hb.dispatch SIGVTALRM hnr next rest th hq hth hrd
  have hd := sched_dispatch_eq SIGVTALRM next
    { sched_prepare M SIGVTALRM s with ready_queue := rest } th hth
  simp only [if_true] at hd
  rw [hd] at hinv
  have heq : tick M s = .resumed (sched_dispatch SIGVTALRM next
      { sched_prepare M SIGVTALRM s with ready_queue := rest }) := by
    simp only [tick, scheduler_handler, hpick]
  rw [hd] at heq
  refine ⟨next, rest, th, _, by rw [← p2]; exact hq, by rw [← p1]; exact hth, hrd, hpick, heq,
    rfl, rfl, ?_, ?_, hinv⟩
  · show (sched_prepare M SIGVTALRM s).total_quantums + 1 = _
    rw [p3]
  · show Function.update (sched_prepare M SIGVTALRM s).threads _ _ = _
    rw [p1]

/-! ## Resume on a ready thread, termination -/

theorem save_current_total (s : State) :
    (save_current s).total_quantums = s.total_quantums := by
  rcases Option.eq_none_or_eq_some (s.threads s.current_tid) with hn | ⟨t, ht⟩
  · simp [save_current, hn]
  · simp only [save_current, ht]
    split_ifs <;> rfl

theorem sched_prepare_total (M : Nat) (sig : Int) (s : State) :
    (sched_prepare M sig s).total_quantums = s.total_quantums := by
  simp only [sched_prepare, save_current_total]
  split_ifs
  · exact (wake_loop_fields _ M).2.1
  · rfl

theorem sched_prepare_tick_none {M : Nat} {s : State} (i : Nat)
    (hi : s.threads i = none) : (sched_prepare M SIGVTALRM s).threads i = none := by
  simp only [sched_prepare, if_true]
  have hw : (wake_loop { s with set_has_sigvtalrm := true, sigvtalrm_blocked := true }
      M).threads i = none := by
    rw [wake_loop_threads]
    split_ifs
    · show (s.threads i).map wake_thread = none
      rw [hi]; rfl
    · exact hi
  by_cases hic : i = (wake_loop { s with set_has_sigvtalrm := true, sigvtalrm_blocked := true }
      M).current_tid
  · rw [save_current_idle]
    · exact hw
    · intro t ht
      rw [← hic, hw] at ht
      cases ht
  · rw [save_current_threads_other _ i hic]
    exact hw

/-- `uthread_terminate` on the running thread, in detail: the slot stays
empty, another thread runs, and the pass counts as a quantum. -/
theorem uthread_terminate_self_spec {M : Nat} {s : State} (h : Inv M s)
    (hc0 : s.current_tid ≠ 0) :
    ∃ s', uthread_terminate M (s.current_tid : Int) s = .noreturn s' ∧ Inv M s' ∧
      s'.threads s.current_tid = none ∧ s'.current_tid ≠ s.current_tid ∧
      s'.total_quantums = s.total_quantums + 1 := by
  obtain ⟨t, ht, hr⟩ := h.cur
  have hnot : s.current_tid ∉ s.ready_queue :=
    h.not_mem_queue _ (fun t' ht' => by rw [ht] at ht'; cases ht'; simp [hr])
  have hbase : Base M
      { ignoreClock s with threads := Function.update s.threads s.current_tid none } :=
    h.toBase.erase s.current_tid rfl hc0 rfl h.queue_nodup hnot (fun j _ => Iff.rfl)
  have hnone : (sched_prepare M SIGVTALRM
      { ignoreClock s with threads := Function.update s.threads s.current_tid none }).threads
      s.current_tid = none :=
    sched_prepare_tick_none s.current_tid (Function.update_same _ _ _)
  have htot := sched_prepare_total M SIGVTALRM
    { ignoreClock s with threads := Function.update s.threads s.current_tid none }
  obtain ⟨next, rest, th, hq, hth, hrd, heq, hinv⟩ := scheduler_handler_spec SIGVTALRM hbase
  have hd := sched_dispatch_eq SIGVTALRM next
    { sched_prepare M SIGVTALRM
        { ignoreClock s with threads := Function.update s.threads s.current_tid none } with
      ready_queue := rest } th hth
  simp only [if_true] at hd
  have hne : next ≠ s.current_tid := by
    rintro rfl
    rw [hnone] at hth
    cases hth
  refine ⟨_, uthread_terminate_self_eq h hc0 _ heq, hinv, ?_, ?_, ?_⟩
  · rw [hd]
    simp only [Function.update_noteq (Ne.symm hne), hnone]
  · rw [hd]
    exact hne
  · rw [hd]
    show _ + 1 = _
    rw [htot]
    rfl

/-- In every state reachable by atomic steps whose running thread is not
thread 0,
`uthread_terminate` of the running thread does not return to its caller and
hands control to a different thread: afterwards the current id differs from the
terminated one, the current thread is active and RUNNING, the slot of the
terminated thread is empty (free for `uthread_spawn`) and its id does not occur
in the ready queue. -/
theorem terminate_running (MAX_THREAD_NUM : Nat) (s : State)
    (hs : Reachable MAX_THREAD_NUM s) (hmain : s.current_tid ≠ 0) :
    ∃ s', uthread_terminate MAX_THREAD_NUM (s.current_tid : Int) s = .noreturn s' ∧
      s'.current_tid ≠ s.current_tid ∧
      (∃ t', s'.threads s'.current_tid = some t' ∧ t'.active = true ∧ t'.state = .RUNNING) ∧
      s'.threads s.current_tid = none ∧ slot_free s' s.current_tid ∧
      s.current_tid ∉ s'.ready_queue := by
  obtain ⟨s', heq, hinv, hnone, hne, -⟩ := uthread_terminate_self_spec hs.inv hmain
  obtain ⟨t', ht', hr'⟩ := hinv.cur
  refine ⟨s', heq, hne, ⟨t', ht', (hinv.ok _ t' ht').active, hr'⟩, hnone, ?_, ?_⟩
  · simp [slot_free, hnone]
  · exact hinv.not_mem_queue _ (fun t ht => by rw [hnone] at ht; cases ht)

/-- In every state reachable by atomic steps, `uthread_terminate` of a thread
that is
neither thread 0 nor the running thread returns `SUCCESS`, empties the slot,
removes the id from the ready queue while keeping the other entries in their
order, and leaves the current id, the quantum counter and every other thread
(all its fields) unchanged. -/
theorem terminate_other (MAX_THREAD_NUM : Nat) (s : State)
    (hs : Reachable MAX_THREAD_NUM s) (tid : Nat) (t : Thread)
    (ht : s.threads tid = some t) (hmain : tid ≠ 0) (hcur : tid ≠ s.current_tid) :
    ∃ s', uthread_terminate MAX_THREAD_NUM (tid : Int) s = .ret SUCCESS s' ∧
      s'.threads tid = none ∧ tid ∉ s'.ready_queue ∧
      s'.ready_queue = s.ready_queue.filter (fun j => j ≠ tid) ∧
      s'.current_tid = s.current_tid ∧ s'.total_quantums = s.total_quantums ∧
      ∀ j, j ≠ tid → s'.threads j = s.threads j := by
  obtain ⟨s', heq, e1, e2, e3, e4, hinv⟩ := uthread_terminate_other hs.inv tid t ht hmain hcur
  have hnone : s'.threads tid = none := by rw [e1, Function.update_same]
  refine ⟨s', heq, hnone, ?_, e2, e3, e4, ?_⟩
  · exact hinv.not_mem_queue _ (fun t' ht' => by rw [hnone] at ht'; cases ht')
  · intro j hj
    rw [e1, Function.update_noteq hj]

theorem wake_thread_count (t : Thread) : (wake_thread t).quantum_count = t.quantum_count := by
  unfold wake_thread
  split_ifs <;> rfl

/-- The thread found in slot `j` when a tick is about to pick: same quantum
count as before the tick. -/
theorem prepared_thread (s : State) (tc : Thread) (htc : s.threads s.current_tid = some tc)
    (j : Nat) (tj : Thread) (hj : s.threads j = some tj) :
    ∃ tj', Function.update (fun j => (s.threads j).map wake_thread) s.current_tid
        (some { tc with state := .READY }) j = some tj' ∧
      tj'.quantum_count = tj.quantum_count := by
  by_cases hjc : j = s.current_tid
  · subst hjc
    rw [htc] at hj; cases hj
    exact ⟨_, Function.update_same _ _ _, rfl⟩
  · refine ⟨wake_thread tj, ?_, wake_thread_count tj⟩
    rw [Function.update_noteq hjc]
    show (s.threads j).map wake_thread = _
    rw [hj]; rfl

/-- A timer tick adds one to the quantum counter and one to the quantum count
of the thread it makes running, and leaves every other quantum count alone. -/
theorem tick_counts {M : Nat} {s : State} (h : Inv M s) :
    ∃ s', tick M s = .resumed s' ∧ Inv M s' ∧ s'.total_quantums = s.total_quantums + 1 ∧
      ∀ j tj, s.threads j = some tj →
        ∃ tj', s'.threads j = some tj' ∧
          tj'.quantum_count = tj.quantum_count + (if j = s'.current_tid then 1 else 0) := by
  obtain ⟨tc, htc, -⟩ := h.cur
  obtain ⟨next, rest, th, s', -, hth, -, -, heq, e1, -, e3, e4, hinv⟩ := tick_spec h tc htc
  refine ⟨s', heq, hinv, e3, ?_⟩
  intro j tj hj
  obtain ⟨tj', hj', hc⟩ := prepared_thread s tc htc j tj hj
  rw [e1, e4]
  by_cases hjn : j = next
  · subst hjn
    rw [hth] at hj'; cases hj'
    refine ⟨_, Function.update_same _ _ _, ?_⟩
    simp only [if_true]
    rw [← hc]
  · refine ⟨tj', by rw [Function.update_noteq hjn]; exact hj', ?_⟩
    rw [if_neg hjn, hc]
    omega

theorem not_woken_of (s : State)
    (hnowake : ∀ i t, s.threads i = some t → t.state = .BLOCKED → t.sleep_quantums = 1 →
      t.manually_blocked = true) (i : Nat) : ¬ woken s i := by
  rintro ⟨t, ht, -, hb, -, h1, hm⟩
  have := hnowake i t ht hb (by omega)
  rw [hm] at this
  cases this

theorem filter_woken_nil (M : Nat) (s : State) (h : ∀ i, ¬ woken s i) :
    (List.range M).filter (fun i => woken s i) = [] := by
  rw [List.filter_eq_nil_iff]
  intro i _
  simpa using h i

/-- A timer tick that wakes nobody. -/
theorem tick_no_wake {M : Nat} {s : State} (h : Inv M s) (tc : Thread)
    (htc : s.threads s.current_tid = some tc)
    (hnowake : ∀ i t, s.threads i = some t → t.state = .BLOCKED → t.sleep_quantums = 1 →
      t.manually_blocked = true) :
    ∃ next rest s', s.ready_queue ++ [s.current_tid] = next :: rest ∧
      tick M s = .resumed s' ∧ Inv M s' ∧
      s'.current_tid = next ∧ s'.state_of next = some .RUNNING ∧ s'.ready_queue = rest ∧
      (s.ready_queue ≠ [] → next ≠ s.current_tid ∧
        s'.threads s.current_tid = some { tc with state := .READY } ∧
        s'.ready_queue = s.ready_queue.tail ++ [s.current_tid]) ∧
      (s.ready_queue = [] → next = s.current_tid ∧ s'.ready_queue = []) ∧
      s'.total_quantums = s.total_quantums + 1 ∧
      ∀ j tj, s.threads j = some tj →
        ∃ tj', s'.threads j = some tj' ∧
          tj'.quantum_count = tj.quantum_count + (if j = next then 1 else 0) := by
  obtain ⟨next, rest, th, s', hq, hth, hrd, -, heq, e1, e2, e3, e4, hinv⟩ := tick_spec h tc htc
  rw [filter_woken_nil M s (not_woken_of s hnowake), List.append_nil] at hq
  obtain ⟨s'', heq', -, -, hcount⟩ := tick_counts h
  rw [heq] at heq'
  cases heq'
  obtain ⟨tr, htr, hrr⟩ := hinv.cur
  obtain ⟨-, -, hrc⟩ := h.cur
  have hcq : s.current_tid ∉ s.ready_queue :=
    h.not_mem_queue _ (fun t ht => by
      obtain ⟨t', ht', hr'⟩ := h.cur
      rw [ht] at ht'; cases ht'; simp [hr'])
  refine ⟨next, rest, s', hq, heq, hinv, e1, ?_, e2, ?_, ?_, e3, ?_⟩
  · rw [← e1]
    simp [State.state_of, htr, hrr]
  · intro hne
    obtain ⟨a, l, hal⟩ := List.exists_cons_of_ne_nil hne
    rw [hal, List.cons_append] at hq
    obtain ⟨rfl, rfl⟩ := List.cons.inj hq
    have hac : a ≠ s.current_tid := by
      rintro rfl
      exact hcq (by rw [hal]; exact List.mem_cons_self _ _)
    refine ⟨hac, ?_, ?_⟩
    · rw [e4, Function.update_noteq (Ne.symm hac), Function.update_same]
    · rw [e2, hal]; rfl
  · intro hnil
    rw [hnil, List.nil_append] at hq
    obtain ⟨rfl, rfl⟩ := List.cons.inj hq
    exact ⟨rfl, e2⟩
  · intro j tj hj
    obtain ⟨tj', h1, h2⟩ := hcount j tj hj
    rw [e1] at h2
    exact ⟨tj', h1, h2⟩

/-- The state after `uthread_init` and two spawns, for a table of at least
three slots. -/
theorem init_spawn_spawn (M : Nat) (hM : 3 ≤ M) (q : Int) (hq : 0 < q) (f₁ f₂ : Nat) :
    ∃ s, exec M (init_state q) [.spawn (some f₁), .spawn (some f₂)] = some s ∧
      s.threads = Function.update (Function.update (Function.update (fun _ => none) 0
        (some { Thread.new with quantum_count := 1 })) 1 (some (Thread.new_entry (some f₁) 1)))
        2 (some (Thread.new_entry (some f₂) 2)) ∧
      s.ready_queue = [1, 2] ∧ s.current_tid = 0 ∧ s.total_quantums = 1 := by
  have e := init_state_eq q hq
  have ht0 : (init_state q).threads =
      Function.update (fun _ => none) 0 (some { Thread.new with quantum_count := 1 }) := by
    rw [e]; rfl
  have hq0 : (init_state q).ready_queue = [] := by rw [e]
  have hc0 : (init_state q).current_tid = 0 := by rw [e]
  have htot0 : (init_state q).total_quantums = 1 := by rw [e]
  have hk1 : find_free (init_state q) 0 M = some 1 := by
    apply find_free_eq _ M 1 (by omega)
    · simp [slot_free, ht0]
    · intro j hj
      have : j = 0 := by omega
      subst this
      simp [slot_free, ht0, Thread.new]
  obtain ⟨s₁, h1, t1, q1, c1, tot1⟩ : ∃ s₁, uthread_spawn M (some f₁) (init_state q) = .ret 1 s₁ ∧
      s₁.threads = Function.update (init_state q).threads 1
        (some (Thread.new_entry (some f₁) 1)) ∧
      s₁.ready_queue = (init_state q).ready_queue ++ [1] ∧
      s₁.current_tid = (init_state q).current_tid ∧
      s₁.total_quantums = (init_state q).total_quantums :=
    ⟨_, uthread_spawn_eq M _ f₁ 1 hk1, rfl, rfl, rfl, rfl⟩
  have hk2 : find_free s₁ 0 M = some 2 := by
    apply find_free_eq _ M 2 (by omega)
    · simp [slot_free, t1, ht0]
    · intro j hj
      have : j = 0 ∨ j = 1 := by omega
      rcases this with rfl | rfl
      · simp [slot_free, t1, ht0, Thread.new]
      · simp [slot_free, t1, Thread.new_entry]
  obtain ⟨s₂, h2, t2, q2, c2, tot2⟩ : ∃ s₂, uthread_spawn M (some f₂) s₁ = .ret 2 s₂ ∧
      s₂.threads = Function.update s₁.threads 2 (some (Thread.new_entry (some f₂) 2)) ∧
      s₂.ready_queue = s₁.ready_queue ++ [2] ∧
      s₂.current_tid = s₁.current_tid ∧ s₂.total_quantums = s₁.total_quantums :=
    ⟨_, uthread_spawn_eq M _ f₂ 2 hk2, rfl, rfl, rfl, rfl⟩
  refine ⟨s₂, ?_, ?_, ?_, ?_, ?_⟩
  · simp only [exec, step, h1, h2, Outcome.next]
  · rw [t2, t1, ht0]
  · rw [q2, q1, hq0]; rfl
  · rw [c2, c1, hc0]
  · rw [tot2, tot1, htot0]

/-- The scenario of the specification: `uthread_init`, two spawns, one tick. -/
theorem init_spawn_spawn_tick (M : Nat) (hM : 3 ≤ M) (q : Int) (hq : 0 < q) (f₁ f₂ : Nat) :
    ∃ s' s'', exec M (init_state q) [.spawn (some f₁), .spawn (some f₂), .tick] = some s' ∧
      uthread_get_tid s' = 1 ∧ uthread_get_quantums M 1 s' = .ret 1 s'' ∧
      uthread_get_total_quantums s' = 2 ∧ s'.ready_queue = [2, 0] := by
  obtain ⟨s, hs, ht, hqu, hc, htot⟩ := init_spawn_spawn M hM q hq f₁ f₂
  have hinv : Inv M s := Inv.exec _ (Inv.init (by omega) q hq) hs
  have hthr : ∀ j t, s.threads j = some t → t.state ≠ .BLOCKED := by
    intro j t hj
    rw [ht] at hj
    by_cases h2 : j = 2
    · subst h2
      simp only [Function.update_same, Option.some.injEq] at hj
      subst hj; simp [Thread.new_entry]
    · rw [Function.update_noteq h2] at hj
      by_cases h1 : j = 1
      · subst h1
        simp only [Function.update_same, Option.some.injEq] at hj
        subst hj; simp [Thread.new_entry]
      · rw [Function.update_noteq h1] at hj
        by_cases h0 : j = 0
        · subst h0
          simp only [Function.update_same, Option.some.injEq] at hj
          subst hj; simp [Thread.new]
        · rw [Function.update_noteq h0] at hj
          cases hj
  obtain ⟨tc, htc, -⟩ := hinv.cur
  obtain ⟨next, rest, s', hhead, heq, hinv', e1, -, e2, -, -, e3, hcount⟩ :=
    tick_no_wake hinv tc htc (fun i t hi hb _ => absurd hb (hthr i t hi))
  rw [hqu, hc] at hhead
  obtain ⟨rfl, rfl⟩ := List.cons.inj hhead
  have h1 : s.threads 1 = some (Thread.new_entry (some f₁) 1) := by
    rw [ht, Function.update_noteq (by decide), Function.update_same]
  obtain ⟨t1', ht1', hc1⟩ := hcount 1 _ h1
  simp only [if_true] at hc1
  have hcast : uthread_get_quantums M ((1 : Nat) : Int) s' = _ :=
    uthread_get_quantums_eq hinv'.toBase 1 t1' ht1'
  refine ⟨s', acceptClockSignal (ignoreClock s'), ?_, ?_, ?_, ?_, e2⟩
  · have : exec M (init_state q) ([.spawn (some f₁), .spawn (some f₂)] ++ [.tick]) = some s' := by
      rw [exec_append, hs]
      simp only [Option.bind, exec, step, heq, Switch.next]
    simpa using this
  · simp [uthread_get_tid, e1]
  · rw [hc1] at hcast
    simpa [Thread.new_entry] using hcast
  · simp [uthread_get_total_quantums, e3, htot]

/-- A timer tick on which no sleeper wakes (every blocked thread whose
countdown stands at one is also manually blocked) in a state reachable by
atomic steps with
running thread `c` and ready queue `q`: the head `next` of `q ++ [c]` becomes the
current thread in state RUNNING, the ready queue becomes the tail of `q ++ [c]`
(so, when `q` is not empty, `c` is demoted to READY and sits at the end of the
queue, and when `q` is empty `c` itself keeps running and the queue stays empty),
`total_quantums` grows by one, the quantum count of `next` grows by one and no
other quantum count changes. Moreover, with room for three threads, after
`uthread_init`, two spawns and one tick the current thread is 1, its quantum
count is 1 and the total is 2. -/
theorem tick_without_wake (MAX_THREAD_NUM : Nat) :
    (∀ (s : State) (tc : Thread), Reachable MAX_THREAD_NUM s →
      s.threads s.current_tid = some tc →
      (∀ i t, s.threads i = some t → t.state = .BLOCKED → t.sleep_quantums = 1 →
        t.manually_blocked = true) →
      ∃ next rest s', s.ready_queue ++ [s.current_tid] = next :: rest ∧
        tick MAX_THREAD_NUM s = .resumed s' ∧
        s'.current_tid = next ∧ s'.state_of next = some .RUNNING ∧ s'.ready_queue = rest ∧
        (s.ready_queue ≠ [] → next ≠ s.current_tid ∧
          s'.threads s.current_tid = some { tc with state := .READY } ∧
          s'.ready_queue = s.ready_queue.tail ++ [s.current_tid]) ∧
        (s.ready_queue = [] → next = s.current_tid ∧ s'.ready_queue = []) ∧
        s'.total_quantums = s.total_quantums + 1 ∧
        ∀ j tj, s.threads j = some tj →
          ∃ tj', s'.threads j = some tj' ∧
            tj'.quantum_count = tj.quantum_count + (if j = next then 1 else 0)) ∧
    (3 ≤ MAX_THREAD_NUM → ∀ (quantum_usecs : Int) (f₁ f₂ : Nat), 0 < quantum_usecs →
      ∃ s' s'', exec MAX_THREAD_NUM (init_state quantum_usecs)
          [.spawn (some f₁), .spawn (some f₂), .tick] = some s' ∧
        uthread_get_tid s' = 1 ∧ uthread_get_quantums MAX_THREAD_NUM 1 s' = .ret 1 s'' ∧
        uthread_get_total_quantums s' = 2) := by
  constructor
  · intro s tc hs htc hnowake
    obtain ⟨next, rest, s', h1, h2, -, h3, h4, h5, h6, h7, h8, h9⟩ :=
      tick_no_wake hs.inv tc htc hnowake
    exact ⟨next, rest, s', h1, h2, h3, h4, h5, h6, h7, h8, h9⟩
  · intro hM q f₁ f₂ hq
    obtain ⟨s', s'', h1, h2, h3, h4, -⟩ := init_spawn_spawn_tick MAX_THREAD_NUM hM q hq f₁ f₂
    exact ⟨s', s'', h1, h2, h3, h4⟩

theorem sublist_pair_of_tail (q W : List Nat) (c i next : Nat) (rest : List Nat) (hi : i ∈ W)
    (h : q ++ W ++ [c] = next :: rest) : next = i ∨ List.Sublist [i, c] rest := by
  obtain ⟨W₁, W₂, rfl⟩ := List.append_of_mem hi
  have h' : (q ++ W₁) ++ i :: (W₂ ++ [c]) = next :: rest := by
    rw [← h]; simp
  cases hqw : q ++ W₁ with
  | nil =>
    rw [hqw, List.nil_append] at h'
    exact Or.inl (List.cons.inj h').1.symm
  | cons a l =>
    rw [hqw, List.cons_append] at h'
    right
    rw [← (List.cons.inj h').2]
    have h₁ : List.Sublist [i, c] (i :: (W₂ ++ [c])) :=
      List.Sublist.cons₂ i (List.singleton_sublist.2 (by simp))
    exact h₁.trans (List.sublist_append_right _ _)

theorem woken_iff_sleep_one {M : Nat} {s : State} (h : Base M s) (i : Nat) :
    woken s i ↔ ∃ t, s.threads i = some t ∧ t.state = .BLOCKED ∧ t.sleep_quantums = 1 ∧
      t.manually_blocked = false := by
  constructor
  · rintro ⟨t, ht, -, hb, -, h1, hm⟩
    exact ⟨t, ht, hb, by omega, hm⟩
  · rintro ⟨t, ht, hb, h1, hm⟩
    exact ⟨t, ht, (h.ok i t ht).active, hb, by omega, by omega, hm⟩

/-- C19. One timer tick in a reachable state. The threads woken by the tick are
exactly the BLOCKED threads whose sleep countdown is one and that are not
manually blocked; the queue from which the scheduler picks is the old ready
queue, then the woken threads (in slot order), then the preempted thread. The
tick makes the head of that queue current and leaves its tail as the ready
queue, so every woken thread is either the new running thread or stands before
the preempted thread in the new ready queue; and when the ready queue was empty
and some thread wakes, the new running thread is a woken thread, differs from
the preempted one and is RUNNING. -/
theorem woken_before_preempted (MAX_THREAD_NUM : Nat) (s : State)
    (hs : Reachable MAX_THREAD_NUM s) :
    ∃ next rest s',
      (∀ i, woken s i ↔ ∃ t, s.threads i = some t ∧ t.state = .BLOCKED ∧
        t.sleep_quantums = 1 ∧ t.manually_blocked = false) ∧
      (sched_prepare MAX_THREAD_NUM SIGVTALRM s).ready_queue =
        s.ready_queue ++ (List.range MAX_THREAD_NUM).filter (fun i => woken s i) ++
          [s.current_tid] ∧
      (sched_prepare MAX_THREAD_NUM SIGVTALRM s).ready_queue = next :: rest ∧
      tick MAX_THREAD_NUM s = .resumed s' ∧ s'.current_tid = next ∧ s'.ready_queue = rest ∧
      (∀ i, woken s i → s'.current_tid = i ∨ List.Sublist [i, s.current_tid] s'.ready_queue) ∧
      (s.ready_queue = [] → (∃ i, woken s i) →
        woken s s'.current_tid ∧ s'.current_tid ≠ s.current_tid ∧
        s'.state_of s'.current_tid = some .RUNNING) := by
  have h := hs.inv
  obtain ⟨tc, htc, hrc⟩ := h.cur
  obtain ⟨p1, p2, -, -⟩ := sched_prepare_tick_eq h tc htc
  obtain ⟨next, rest, th, s', hq, -, -, -, heq, e1, e2, -, -, hinv⟩ := tick_spec h tc htc
  have hmemW : ∀ i, woken s i → i ∈ (List.range MAX_THREAD_NUM).filter (fun i => woken s i) := by
    intro i hw
    obtain ⟨t, ht, hrest⟩ := hw
    simp only [List.mem_filter, List.mem_range, decide_eq_true_eq]
    exact ⟨h.bound i t ht, ⟨t, ht, hrest⟩⟩
  refine ⟨next, rest, s', woken_iff_sleep_one h.toBase, p2, p2.trans hq, heq, e1, e2, ?_, ?_⟩
  · intro i hw
    rw [e1, e2]
    exact sublist_pair_of_tail _ _ _ i next rest (hmemW i hw) hq
  · intro hnil hex
    obtain ⟨i, hw⟩ := hex
    rw [hnil, List.nil_append] at hq
    obtain ⟨W₁, W₂, hW⟩ := List.append_of_mem (hmemW i hw)
    have hnextW : next ∈ (List.range MAX_THREAD_NUM).filter (fun i => woken s i) := by
      cases hfw : (List.range MAX_THREAD_NUM).filter (fun i => woken s i) with
      | nil =>
        rw [hfw] at hW
        cases W₁ <;> cases hW
      | cons a l =>
        rw [hfw, List.cons_append] at hq
        rw [← (List.cons.inj hq).1]
        exact List.mem_cons_self _ _
    have hwn : woken s next := by
      simpa using (List.mem_filter.1 hnextW).2
    obtain ⟨tr, htr, hrr⟩ := hinv.cur
    refine ⟨by rw [e1]; exact hwn, ?_, by simp [State.state_of, htr, hrr]⟩
    rw [e1]
    rintro rfl
    obtain ⟨t, ht, -, hb, -⟩ := hwn
    rw [htc] at ht; cases ht
    rw [hrc] at hb; cases hb

/-- Whenever `scheduler_handler` is entered in a state that satisfies the base
invariant, the pick loop takes the head of the prepared queue and leaves its
tail: no entry is skipped. -/
theorem pick_never_skips {M : Nat} {s : State} (sig : Int) (h : Base M s) :
    ∃ next rest, (sched_prepare M sig s).ready_queue = next :: rest ∧
      pick_next (sched_prepare M sig s).threads (sched_prepare M sig s).ready_queue =
        (some next, rest) := by
  obtain ⟨hb, hnr⟩ := h.sched_prepare sig
  obtain ⟨next, rest, th, hq, -, -, hpick⟩ := hb.queue_head hnr
  exact ⟨next, rest, hq, hpick⟩

/-- In every state reachable by atomic steps the ready queue holds exactly the
ids of the
active READY threads: an id is queued iff its slot holds an active thread in
state READY, the queue has no duplicates (every id occurs at most once) and no
queued id refers to an empty slot. Consequently the pick loop of
`scheduler_handler` never discards an entry: on a timer tick, and on the
scheduler passes entered from `uthread_block` of the running thread, from
`uthread_sleep` and from `uthread_terminate` of the running thread, it returns
the head of the prepared queue and leaves its tail. -/
theorem ready_queue_invariant (MAX_THREAD_NUM : Nat) (s : State)
    (hs : Reachable MAX_THREAD_NUM s) :
    (∀ i, i ∈ s.ready_queue ↔
      ∃ t, s.threads i = some t ∧ t.active = true ∧ t.state = .READY) ∧
    s.ready_queue.Nodup ∧ (∀ i, s.ready_queue.count i ≤ 1) ∧
    (∀ i, i ∈ s.ready_queue → s.threads i ≠ none) ∧
    (∃ next rest, (sched_prepare MAX_THREAD_NUM SIGVTALRM s).ready_queue = next :: rest ∧
      pick_next (sched_prepare MAX_THREAD_NUM SIGVTALRM s).threads
        (sched_prepare MAX_THREAD_NUM SIGVTALRM s).ready_queue = (some next, rest)) ∧
    (s.current_tid ≠ 0 → ∀ t, s.threads s.current_tid = some t →
      (∃ next rest,
        (sched_prepare MAX_THREAD_NUM 0
          { ignoreClock s with
            threads := Function.update s.threads s.current_tid
              (some { t with manually_blocked := true, state := .BLOCKED }) }).ready_queue =
          next :: rest ∧
        pick_next
          (sched_prepare MAX_THREAD_NUM 0
            { ignoreClock s with
              threads := Function.update s.threads s.current_tid
                (some { t with manually_blocked := true, state := .BLOCKED }) }).threads
          (sched_prepare MAX_THREAD_NUM 0
            { ignoreClock s with
              threads := Function.update s.threads s.current_tid
                (some { t with manually_blocked := true, state := .BLOCKED }) }).ready_queue =
          (some next, rest)) ∧
      (∀ num_quantums : Int, 0 < num_quantums → ∃ next rest,
        (sched_prepare MAX_THREAD_NUM 0
          { ignoreClock s with
            threads := Function.update s.threads s.current_tid
              (some { t with sleep_quantums := num_quantums, state := .BLOCKED })
          }).ready_queue = next :: rest ∧
        pick_next
          (sched_prepare MAX_THREAD_NUM 0
            { ignoreClock s with
              threads := Function.update s.threads s.current_tid
                (some { t with sleep_quantums := num_quantums, state := .BLOCKED })
            }).threads
          (sched_prepare MAX_THREAD_NUM 0
            { ignoreClock s with
              threads := Function.update s.threads s.current_tid
                (some { t with sleep_quantums := num_quantums, state := .BLOCKED })
            }).ready_queue = (some next, rest)) ∧
      (∃ next rest,
        (sched_prepare MAX_THREAD_NUM SIGVTALRM
          { ignoreClock s with
            threads := Function.update s.threads s.current_tid none }).ready_queue =
          next :: rest ∧
        pick_next
          (sched_prepare MAX_THREAD_NUM SIGVTALRM
            { ignoreClock s with
              threads := Function.update s.threads s.current_tid none }).threads
          (sched_prepare MAX_THREAD_NUM SIGVTALRM
            { ignoreClock s with
              threads := Function.update s.threads s.current_tid none }).ready_queue =
          (some next, rest))) := by
  have h := hs.inv
  refine ⟨?_, h.queue_nodup, ?_, ?_, pick_never_skips SIGVTALRM h.toBase, ?_⟩
  · intro i
    rw [h.queue_iff i]
    constructor
    · rintro ⟨t, ht, hr⟩
      exact ⟨t, ht, (h.ok i t ht).active, hr⟩
    · rintro ⟨t, ht, -, hr⟩
      exact ⟨t, ht, hr⟩
  · intro i
    exact List.nodup_iff_count_le_one.1 h.queue_nodup i
  · intro i hi
    obtain ⟨t, ht, -⟩ := (h.queue_iff i).1 hi
    rw [ht]; simp
  · intro hc0 t ht
    obtain ⟨h1, h2, h3, h4, h5, h6, h7, h8⟩ := h.ok _ t ht
    refine ⟨?_, ?_, ?_⟩
    · have hok : Thread.ok s.current_tid
          { t with manually_blocked := true, state := .BLOCKED } :=
        ⟨h1, h2, h3, h4, h5, fun _ => rfl, fun _ => rfl, fun _ => Or.inr rfl⟩
      exact pick_never_skips 0
        (h.block_current
          { ignoreClock s with
            threads := Function.update s.threads s.current_tid
              (some { t with manually_blocked := true, state := .BLOCKED }) }
          t { t with manually_blocked := true, state := .BLOCKED }
          ht hc0 hok rfl rfl rfl rfl).1
    · intro n hn
      have hok : Thread.ok s.current_tid { t with sleep_quantums := n, state := .BLOCKED } :=
        ⟨h1, h2, h3, h4, le_of_lt hn, fun _ => rfl, fun _ => rfl, fun _ => Or.inl hn⟩
      exact pick_never_skips 0
        (h.block_current
          { ignoreClock s with
            threads := Function.update s.threads s.current_tid
              (some { t with sleep_quantums := n, state := .BLOCKED }) }
          t { t with sleep_quantums := n, state := .BLOCKED }
          ht hc0 hok rfl rfl rfl rfl).1
    · obtain ⟨tc, htc, hr⟩ := h.cur
      have hnot : s.current_tid ∉ s.ready_queue :=
        h.not_mem_queue _ (fun t' ht' => by rw [htc] at ht'; cases ht'; simp [hr])
      exact pick_never_skips SIGVTALRM
        (h.toBase.erase s.current_tid rfl hc0 rfl h.queue_nodup hnot (fun j _ => Iff.rfl))

theorem wake_thread_not_blocked (t : Thread) (h : t.state ≠ .BLOCKED) : wake_thread t = t := by
  unfold wake_thread
  rw [if_neg]
  rintro ⟨-, hb, -⟩
  exact h hb

/-- A timer tick in a state without blocked threads rotates the list "ready
queue, then running thread" by one position and keeps the set of threads. -/
theorem tick_no_blocked {M : Nat} {s : State} (h : Inv M s)
    (hnb : ∀ i t, s.threads i = some t → t.state ≠ .BLOCKED) :
    ∃ next rest s', s.ready_queue ++ [s.current_tid] = next :: rest ∧
      tick M s = .resumed s' ∧ Inv M s' ∧ s'.current_tid = next ∧ s'.ready_queue = rest ∧
      (∀ i, (s'.threads i).isSome = (s.threads i).isSome) ∧
      (∀ i t, s'.threads i = some t → t.state ≠ .BLOCKED) := by
  obtain ⟨tc, htc, hrc⟩ := h.cur
  have hnw : ∀ i, ¬ woken s i := by
    rintro i ⟨t, ht, -, hb, -⟩
    exact hnb i t ht hb
  obtain ⟨next, rest, th, s', hq, hth, hrd, -, heq, e1, e2, -, e4, hinv⟩ := tick_spec h tc htc
  rw [filter_woken_nil M s hnw, List.append_nil] at hq
  refine ⟨next, rest, s', hq, heq, hinv, e1, e2, ?_, ?_⟩
  · intro i
    rw [e4]
    by_cases hin : i = next
    · subst hin
      rw [Function.update_same]
      by_cases hic : i = s.current_tid
      · rw [hic, htc]; rfl
      · rw [Function.update_noteq hic] at hth
        rcases Option.eq_none_or_eq_some (s.threads i) with hn | ⟨t, ht⟩
        · rw [hn] at hth; cases hth
        · rw [ht]; rfl
    · rw [Function.update_noteq hin]
      by_cases hic : i = s.current_tid
      · rw [hic, Function.update_same, htc]; rfl
      · rw [Function.update_noteq hic]
        rcases Option.eq_none_or_eq_some (s.threads i) with hn | ⟨t, ht⟩
        · rw [hn]; rfl
        · rw [ht]; rfl
  · intro i t ht
    rw [e4] at ht
    by_cases hin : i = next
    · subst hin
      rw [Function.update_same] at ht
      cases ht
      simp
    · rw [Function.update_noteq hin] at ht
      by_cases hic : i = s.current_tid
      · rw [hic, Function.update_same] at ht
        cases ht
        simp
      · rw [Function.update_noteq hic] at ht
        rcases Option.eq_none_or_eq_some (s.threads i) with hn | ⟨t₀, ht₀⟩
        · rw [hn] at ht; cases ht
        · rw [ht₀] at ht
          simp only [Option.map_some'] at ht
          cases ht
          rw [wake_thread_not_blocked t₀ (hnb i t₀ ht₀)]
          exact hnb i t₀ ht₀

theorem tick_trace_take (M : Nat) (k : Nat) (s : State) (h : Inv M s)
    (hnb : ∀ i t, s.threads i = some t → t.state ≠ .BLOCKED)
    (hk : k ≤ (s.ready_queue ++ [s.current_tid]).length) :
    tick_trace M k s = (s.ready_queue ++ [s.current_tid]).take k := by
  induction k generalizing s with
  | zero => simp [tick_trace]
  | succ k ih =>
    obtain ⟨next, rest, s', hq, heq, hinv, e1, e2, -, hnb'⟩ := tick_no_blocked h hnb
    rw [hq] at hk ⊢
    simp only [List.length_cons] at hk
    have ih' := ih s' hinv hnb' (by rw [e1, e2]; simp; omega)
    rw [e1, e2, List.take_append_of_le_length (by omega)] at ih'
    simp only [tick_trace, heq, List.take_succ_cons, e1, ih']

theorem ticks_no_blocked (M : Nat) (j : Nat) (s : State) (h : Inv M s)
    (hnb : ∀ i t, s.threads i = some t → t.state ≠ .BLOCKED) :
    ∃ sj, ticks M j s = some sj ∧ Inv M sj ∧
      (∀ i t, sj.threads i = some t → t.state ≠ .BLOCKED) ∧
      (∀ i, (sj.threads i).isSome = (s.threads i).isSome) ∧
      sj.ready_queue ++ [sj.current_tid] = (s.ready_queue ++ [s.current_tid]).rotate j := by
  induction j generalizing s with
  | zero => exact ⟨s, rfl, h, hnb, fun _ => rfl, by simp⟩
  | succ j ih =>
    obtain ⟨next, rest, s', hq, heq, hinv, e1, e2, hsome, hnb'⟩ := tick_no_blocked h hnb
    obtain ⟨sj, h1, h2, h3, h4, h5⟩ := ih s' hinv hnb'
    refine ⟨sj, by simp only [ticks, heq, h1], h2, h3, fun i => (h4 i).trans (hsome i), ?_⟩
    rw [h5, e1, e2, hq, Nat.add_comm j 1, ← List.rotate_rotate, List.rotate_cons_succ,
      List.rotate_zero]

theorem no_blocked_mem_iff {M : Nat} {s : State} (h : Inv M s)
    (hnb : ∀ i t, s.threads i = some t → t.state ≠ .BLOCKED) (i : Nat) :
    i ∈ s.ready_queue ++ [s.current_tid] ↔ (s.threads i).isSome = true := by
  obtain ⟨tc, htc, hrc⟩ := h.cur
  rw [List.mem_append, List.mem_singleton, h.queue_iff i]
  constructor
  · rintro (⟨t, ht, -⟩ | rfl)
    · rw [ht]; rfl
    · rw [htc]; rfl
  · intro hi
    obtain ⟨t, ht⟩ := Option.isSome_iff_exists.1 hi
    cases hst : t.state with
    | READY => exact Or.inl ⟨t, ht, hst⟩
    | RUNNING => exact Or.inr (h.running i t ht hst)
    | BLOCKED => exact absurd hst (hnb i t ht)

theorem no_blocked_nodup {M : Nat} {s : State} (h : Inv M s) :
    (s.ready_queue ++ [s.current_tid]).Nodup := by
  obtain ⟨tc, htc, hrc⟩ := h.cur
  have hcq : s.current_tid ∉ s.ready_queue :=
    h.not_mem_queue _ (fun t ht => by rw [htc] at ht; cases ht; simp [hrc])
  rw [List.nodup_append]
  refine ⟨h.queue_nodup, List.nodup_singleton _, ?_⟩
  intro a ha hc
  rw [List.mem_singleton] at hc
  subst hc
  exact hcq ha

theorem mem_live_ids {M : Nat} {s : State} (h : Base M s) (i : Nat) :
    i ∈ live_ids M s ↔ (s.threads i).isSome = true := by
  simp only [live_ids, List.mem_filter, List.mem_range]
  constructor
  · exact fun hi => hi.2
  · intro hi
    obtain ⟨t, ht⟩ := Option.isSome_iff_exists.1 hi
    exact ⟨h.bound i t ht, hi⟩

theorem live_ids_nodup (M : Nat) (s : State) : (live_ids M s).Nodup :=
  (List.nodup_range M).filter _

theorem live_ids_perm {M : Nat} {s : State} (h : Inv M s)
    (hnb : ∀ i t, s.threads i = some t → t.state ≠ .BLOCKED) :
    (s.ready_queue ++ [s.current_tid]).Perm (live_ids M s) := by
  rw [List.perm_ext_iff_of_nodup (no_blocked_nodup h) (live_ids_nodup M s)]
  intro i
  rw [no_blocked_mem_iff h hnb, mem_live_ids h.toBase]

/-- Round-robin fairness. In a state reachable by atomic steps without BLOCKED
threads the
number `k` of threads in the table (all of them active) is the length of the
ready queue plus one. If from there only timer ticks occur, then after any
number `j` of ticks the table holds the same threads, still none BLOCKED, and the
next `k` ticks make running, in this order, the threads of the ready queue at
that moment followed by the thread running at that moment: this list has no
repetition and contains exactly the `k` threads, so each thread is made running
exactly once in every window of `k` consecutive ticks. -/
theorem round_robin_fairness (MAX_THREAD_NUM : Nat) (s : State)
    (hs : Reachable MAX_THREAD_NUM s)
    (hnb : ∀ i t, s.threads i = some t → t.state ≠ .BLOCKED) :
    (live_ids MAX_THREAD_NUM s).length = s.ready_queue.length + 1 ∧
    (∀ i, i ∈ live_ids MAX_THREAD_NUM s ↔ ∃ t, s.threads i = some t ∧ t.active = true) ∧
    ∀ j, ∃ sj, ticks MAX_THREAD_NUM j s = some sj ∧
      (∀ i, (sj.threads i).isSome = (s.threads i).isSome) ∧
      (∀ i t, sj.threads i = some t → t.state ≠ .BLOCKED) ∧
      tick_trace MAX_THREAD_NUM (live_ids MAX_THREAD_NUM s).length sj =
        sj.ready_queue ++ [sj.current_tid] ∧
      (tick_trace MAX_THREAD_NUM (live_ids MAX_THREAD_NUM s).length sj).Nodup ∧
      (∀ i, i ∈ tick_trace MAX_THREAD_NUM (live_ids MAX_THREAD_NUM s).length sj ↔
        i ∈ live_ids MAX_THREAD_NUM s) ∧
      (∀ i, i ∈ live_ids MAX_THREAD_NUM s →
        (tick_trace MAX_THREAD_NUM (live_ids MAX_THREAD_NUM s).length sj).count i = 1) := by
  have h := hs.inv
  have hlen : (live_ids MAX_THREAD_NUM s).length = s.ready_queue.length + 1 := by
    rw [← (live_ids_perm h hnb).length_eq]; simp
  refine ⟨hlen, ?_, ?_⟩
  · intro i
    rw [mem_live_ids h.toBase]
    constructor
    · intro hi
      obtain ⟨t, ht⟩ := Option.isSome_iff_exists.1 hi
      exact ⟨t, ht, (h.ok i t ht).active⟩
    · rintro ⟨t, ht, -⟩
      rw [ht]; rfl
  · intro j
    obtain ⟨sj, h1, hinv, hnbj, hsome, hrot⟩ := ticks_no_blocked MAX_THREAD_NUM j s h hnb
    have hlenj : (sj.ready_queue ++ [sj.current_tid]).length =
        (live_ids MAX_THREAD_NUM s).length := by
      rw [hrot, List.length_rotate, hlen]; simp
    have htr : tick_trace MAX_THREAD_NUM (live_ids MAX_THREAD_NUM s).length sj =
        sj.ready_queue ++ [sj.current_tid] := by
      rw [tick_trace_take MAX_THREAD_NUM _ sj hinv hnbj (le_of_eq hlenj.symm), ← hlenj,
        List.take_length]
    have hmem : ∀ i, i ∈ sj.ready_queue ++ [sj.current_tid] ↔ i ∈ live_ids MAX_THREAD_NUM s := by
      intro i
      rw [no_blocked_mem_iff hinv hnbj, hsome i, mem_live_ids h.toBase]
    refine ⟨sj, h1, hsome, hnbj, htr, ?_, ?_, ?_⟩
    · rw [htr]; exact no_blocked_nodup hinv
    · rw [htr]; exact hmem
    · intro i hi
      rw [htr]
      exact List.count_eq_one_of_mem (no_blocked_nodup hinv) ((hmem i).2 hi)

theorem no_blocked_of_state_of {M : Nat} {s : State} (h : Base M s)
    (hd : ∀ i, i < M → s.state_of i ≠ some .BLOCKED) :
    ∀ i t, s.threads i = some t → t.state ≠ .BLOCKED := by
  intro i t ht hb
  exact hd i (h.bound i t ht) (by simp [State.state_of, ht, hb])

/-- C16, evaluated on the code. After `uthread_init(1000)`, one spawn and one
timer tick, thread 1 is running and `uthread_get_total_quantums()` is 2 (one
plus the one tick handled). Thread 1 then calls `uthread_terminate(1)`: the call
runs `scheduler_handler(SIGVTALRM)`, and the counter reads 3 although still only
one timer tick has been handled. -/
theorem self_terminate_counts_a_quantum :
    uthread_get_total_quantums (example_run [.spawn (some 1), .tick]) = 2 ∧
    uthread_get_tid (example_run [.spawn (some 1), .tick]) = 1 ∧
    (∃ s', uthread_terminate 3 1 (example_run [.spawn (some 1), .tick]) = .noreturn s' ∧
      uthread_get_tid s' = 0 ∧ uthread_get_total_quantums s' = 3) ∧
    uthread_get_total_quantums (example_run [.spawn (some 1), .tick, .terminate 1]) = 3 :=
  ⟨rfl, rfl, ⟨_, rfl, rfl, rfl⟩, rfl⟩

theorem terminate_running_witness :
    Reachable 3 (example_run [.spawn (some 1), .tick]) ∧
    (example_run [.spawn (some 1), .tick]).current_tid = 1 ∧
    ∃ s', uthread_terminate 3 1 (example_run [.spawn (some 1), .tick]) = .noreturn s' ∧
      s'.current_tid ≠ 1 ∧ s'.threads 1 = none ∧ 1 ∉ s'.ready_queue := by
  have hr : Reachable 3 (example_run [.spawn (some 1), .tick]) := example_run_reachable _ rfl
  obtain ⟨s', h1, h2, -, h4, -, h6⟩ := terminate_running 3 _ hr (by decide)
  exact ⟨hr, rfl, s', h1, h2, h4, h6⟩

theorem terminate_other_witness :
    Reachable 3 (example_run [.spawn (some 1), .spawn (some 2)]) ∧
    (example_run [.spawn (some 1), .spawn (some 2)]).state_of 2 = some .READY ∧
    (example_run [.spawn (some 1), .spawn (some 2)]).current_tid = 0 ∧
    ∃ s', uthread_terminate 3 2 (example_run [.spawn (some 1), .spawn (some 2)]) =
        .ret SUCCESS s' ∧
      s'.threads 2 = none ∧ s'.ready_queue = [1] := by
  have hr : Reachable 3 (example_run [.spawn (some 1), .spawn (some 2)]) :=
    example_run_reachable _ rfl
  obtain ⟨s', h1, h2, -, h4, -⟩ := terminate_other 3 _ hr 2 _ rfl (by decide) (by decide)
  exact ⟨hr, rfl, rfl, s', h1, h2, h4.trans rfl⟩

theorem round_robin_fairness_witness :
    Reachable 3 (example_run [.spawn (some 1), .spawn (some 2)]) ∧
    (∀ i, i < 3 → (example_run [.spawn (some 1), .spawn (some 2)]).state_of i ≠ some .BLOCKED) ∧
    (live_ids 3 (example_run [.spawn (some 1), .spawn (some 2)])).length = 3 ∧
    tick_trace 3 3 (example_run [.spawn (some 1), .spawn (some 2)]) = [1, 2, 0] ∧
    ∃ s₁, ticks 3 1 (example_run [.spawn (some 1), .spawn (some 2)]) = some s₁ ∧
      (tick_trace 3 3 s₁).Nodup ∧ ∀ i, i ∈ tick_trace 3 3 s₁ ↔ i ∈ [0, 1, 2] := by
  have hr : Reachable 3 (example_run [.spawn (some 1), .spawn (some 2)]) :=
    example_run_reachable _ rfl
  have hd : ∀ i, i < 3 →
      (example_run [.spawn (some 1), .spawn (some 2)]).state_of i ≠ some .BLOCKED := by
    decide
  obtain ⟨h1, -, h3⟩ := round_robin_fairness 3 _ hr (no_blocked_of_state_of hr.inv.toBase hd)
  obtain ⟨s₁, h4, -, -, -, h5, h6, -⟩ := h3 1
  exact ⟨hr, hd, rfl, rfl, s₁, h4, h5, h6⟩

theorem tick_without_wake_witness :
    Reachable 3 (example_run [.spawn (some 1), .spawn (some 2)]) ∧
    (∃ s', tick 3 (example_run [.spawn (some 1), .spawn (some 2)]) = .resumed s' ∧
      s'.current_tid = 1 ∧ s'.ready_queue = [2, 0] ∧ s'.total_quantums = 2) ∧
    ∃ s' s'', exec 3 (init_state 1000) [.spawn (some 4), .spawn (some 5), .tick] = some s' ∧
      uthread_get_tid s' = 1 ∧ uthread_get_quantums 3 1 s' = .ret 1 s'' ∧
      uthread_get_total_quantums s' = 2 := by
  have hr : Reachable 3 (example_run [.spawn (some 1), .spawn (some 2)]) :=
    example_run_reachable _ rfl
  have hd : ∀ i, i < 3 →
      (example_run [.spawn (some 1), .spawn (some 2)]).state_of i ≠ some .BLOCKED := by
    decide
  obtain ⟨h1, h2⟩ := tick_without_wake 3
  obtain ⟨next, rest, s', hq, heq, e1, -, e2, -, -, e3, -⟩ := h1 _ _ hr rfl
    (fun i t ht hb _ => absurd hb (no_blocked_of_state_of hr.inv.toBase hd i t ht))
  have hq' : [1, 2, 0] = next :: rest := hq
  obtain ⟨rfl, rfl⟩ := List.cons.inj hq'
  exact ⟨hr, ⟨s', heq, e1, e2, e3.trans rfl⟩, h2 (by decide) 1000 4 5 (by decide)⟩

theorem woken_before_preempted_witness :
    Reachable 3 (example_run [.spawn (some 1), .spawn (some 2), .tick, .sleep 1]) ∧
    woken (example_run [.spawn (some 1), .spawn (some 2), .tick, .sleep 1]) 1 ∧
    (example_run [.spawn (some 1), .spawn (some 2), .tick, .sleep 1]).current_tid = 2 ∧
    ∃ s', tick 3 (example_run [.spawn (some 1), .spawn (some 2), .tick, .sleep 1]) =
        .resumed s' ∧
      (s'.current_tid = 1 ∨ List.Sublist [1, 2] s'.ready_queue) := by
  have hr : Reachable 3 (example_run [.spawn (some 1), .spawn (some 2), .tick, .sleep 1]) :=
    example_run_reachable _ rfl
  obtain ⟨next, rest, s', hw, -, -, heq, -, -, h7, -⟩ := woken_before_preempted 3 _ hr
  have hw1 : woken (example_run [.spawn (some 1), .spawn (some 2), .tick, .sleep 1]) 1 :=
    (hw 1).2 ⟨_, rfl, rfl, rfl, rfl⟩
  exact ⟨hr, hw1, rfl, s', heq, h7 1 hw1⟩

theorem ready_queue_invariant_witness :
    Reachable 3 (example_run [.spawn (some 1), .spawn (some 2), .tick, .block 2]) ∧
    (example_run [.spawn (some 1), .spawn (some 2), .tick, .block 2]).ready_queue = [0] ∧
    (example_run [.spawn (some 1), .spawn (some 2), .tick, .block 2]).ready_queue.Nodup ∧
    (2 ∈ (example_run [.spawn (some 1), .spawn (some 2), .tick, .block 2]).ready_queue ↔
      ∃ t, (example_run [.spawn (some 1), .spawn (some 2), .tick, .block 2]).threads 2 = some t ∧
        t.active = true ∧ t.state = .READY) := by
  have hr : Reachable 3 (example_run [.spawn (some 1), .spawn (some 2), .tick, .block 2]) :=
    example_run_reachable _ rfl
  obtain ⟨h1, h2, -⟩ := ready_queue_invariant 3 _ hr
  exact ⟨hr, rfl, h2, h1 2⟩

/-- C21. In every reachable state exactly one thread is RUNNING, and it is the
thread whose id `uthread_get_tid` returns: the slot at the current id holds an
active thread in state RUNNING, every thread in state RUNNING sits in that slot,
and so there is exactly one slot with an active RUNNING thread. -/
theorem exactly_one_running (MAX_THREAD_NUM : Nat) (s : State)
    (hs : Reachable MAX_THREAD_NUM s) :
    uthread_get_tid s = (s.current_tid : Int) ∧
    (∃ t, s.threads (uthread_get_tid s).toNat = some t ∧ t.active = true ∧
      t.state = .RUNNING) ∧
    (∀ i t, s.threads i = some t → t.state = .RUNNING → (i : Int) = uthread_get_tid s) ∧
    (∃! i, ∃ t, s.threads i = some t ∧ t.active = true ∧ t.state = .RUNNING) := by
  have h := hs.inv
  obtain ⟨tc, htc, hrc⟩ := h.cur
  have hact := (h.ok _ tc htc).active
  refine ⟨rfl, ⟨tc, ?_, hact, hrc⟩, ?_, ?_⟩
  · simpa [uthread_get_tid] using htc
  · intro i t ht hr
    simp [uthread_get_tid, h.running i t ht hr]
  · refine ⟨s.current_tid, ⟨tc, htc, hact, hrc⟩, ?_⟩
    rintro i ⟨t, ht, -, hr⟩
    exact h.running i t ht hr

theorem exactly_one_running_witness :
    Reachable 3 (example_run [.spawn (some 1), .spawn (some 2), .tick, .block 1]) ∧
    uthread_get_tid (example_run [.spawn (some 1), .spawn (some 2), .tick, .block 1]) = 2 ∧
    (example_run [.spawn (some 1), .spawn (some 2), .tick, .block 1]).state_of 2 =
      some .RUNNING ∧
    ∃! i, ∃ t, (example_run [.spawn (some 1), .spawn (some 2), .tick, .block 1]).threads i =
      some t ∧ t.active = true ∧ t.state = .RUNNING := by
  have hr : Reachable 3 (example_run [.spawn (some 1), .spawn (some 2), .tick, .block 1]) :=
    example_run_reachable _ rfl
  exact ⟨hr, rfl, rfl, (exactly_one_running 3 _ hr).2.2.2⟩

/-- C22. In every reachable state (a run ends when thread 0 is terminated, so no
reachable state has seen that) thread 0 is in the table, active, READY or
RUNNING, not sleeping and not manually blocked. Hence no scheduler pass takes the
fatal exit: a timer tick resumes a thread; `uthread_block` and `uthread_sleep`
always return; `uthread_terminate` returns, or passes control on, or ends the
process with status 0 (the call on thread 0), never with status 1; and
`scheduler_handler` resumes a thread when it is entered from `uthread_block` of
the running thread, from `uthread_sleep` and from `uthread_terminate` of the
running thread. -/
theorem fatal_exit_unreachable (MAX_THREAD_NUM : Nat) (s : State)
    (hs : Reachable MAX_THREAD_NUM s) :
    (∃ t₀, s.threads 0 = some t₀ ∧ t₀.active = true ∧
      (t₀.state = .READY ∨ t₀.state = .RUNNING) ∧ t₀.sleep_quantums = 0 ∧
      t₀.manually_blocked = false) ∧
    (∃ s', tick MAX_THREAD_NUM s = .resumed s') ∧
    (∀ tid, ∃ v s', uthread_block MAX_THREAD_NUM tid s = .ret v s') ∧
    (∀ n, ∃ v s', uthread_sleep MAX_THREAD_NUM n s = .ret v s') ∧
    (∀ tid, (∃ v s', uthread_terminate MAX_THREAD_NUM tid s = .ret v s') ∨
      (∃ s', uthread_terminate MAX_THREAD_NUM tid s = .noreturn s') ∨
      (tid = 0 ∧ ∃ s', uthread_terminate MAX_THREAD_NUM tid s = .exit 0 s')) ∧
    (s.current_tid ≠ 0 → ∀ t, s.threads s.current_tid = some t →
      (∃ s', scheduler_handler MAX_THREAD_NUM 0
        { ignoreClock s with
          threads := Function.update s.threads s.current_tid
            (some { t with manually_blocked := true, state := .BLOCKED }) } = .resumed s') ∧
      (∀ num_quantums : Int, 0 < num_quantums →
        ∃ s', scheduler_handler MAX_THREAD_NUM 0
          { ignoreClock s with
            threads := Function.update s.threads s.current_tid
              (some { t with sleep_quantums := num_quantums, state := .BLOCKED }) } =
          .resumed s') ∧
      (∃ s', scheduler_handler MAX_THREAD_NUM SIGVTALRM
        { ignoreClock s with threads := Function.update s.threads s.current_tid none } =
          .resumed s')) := by
  have h := hs.inv
  refine ⟨?_, ?_, ?_, ?_, ?_, ?_⟩
  · obtain ⟨t₀, ht₀, hnb⟩ := h.main
    obtain ⟨-, h2, -, -, h5, h6, h7, -⟩ := h.ok 0 t₀ ht₀
    refine ⟨t₀, ht₀, h2, ?_, ?_, ?_⟩
    · cases hst : t₀.state with
      | READY => exact Or.inl rfl
      | RUNNING => exact Or.inr rfl
      | BLOCKED => exact absurd hst hnb
    · by_contra hne
      exact hnb (h6 (lt_of_le_of_ne h5 (Ne.symm hne)))
    · cases hm : t₀.manually_blocked with
      | false => rfl
      | true => exact absurd (h7 hm) hnb
  · obtain ⟨s', heq, -⟩ := tick_inv h
    exact ⟨s', heq⟩
  · intro tid
    by_cases hv : invalid_tid MAX_THREAD_NUM s tid ∨ tid = 0
    · exact ⟨_, _, uthread_block_invalid MAX_THREAD_NUM s tid hv⟩
    · simp only [not_or] at hv
      obtain ⟨s', heq, -⟩ := uthread_block_valid h tid hv.1 hv.2
      exact ⟨_, s', heq⟩
  · intro n
    by_cases hv : n ≤ 0 ∨ s.current_tid = 0
    · exact ⟨_, _, uthread_sleep_invalid MAX_THREAD_NUM s n hv⟩
    · simp only [not_or, not_le] at hv
      obtain ⟨s', heq, -⟩ := uthread_sleep_valid h n hv.1 hv.2
      exact ⟨_, s', heq⟩
  · intro tid
    by_cases hv : invalid_tid MAX_THREAD_NUM s tid
    · exact Or.inl ⟨_, _, uthread_terminate_invalid MAX_THREAD_NUM s tid hv⟩
    · rcases uthread_terminate_valid h tid hv with ⟨h0, s', heq⟩ | ⟨-, -, s', heq, -⟩ |
        ⟨-, -, s', heq, -⟩
      · exact Or.inr (Or.inr ⟨h0, s', heq⟩)
      · exact Or.inr (Or.inl ⟨s', heq⟩)
      · exact Or.inl ⟨_, s', heq⟩
  · intro hc0 t ht
    obtain ⟨h1, h2, h3, h4, h5, h6, h7, h8⟩ := h.ok _ t ht
    refine ⟨?_, ?_, ?_⟩
    · have hok : Thread.ok s.current_tid
          { t with manually_blocked := true, state := .BLOCKED } :=
        ⟨h1, h2, h3, h4, h5, fun _ => rfl, fun _ => rfl, fun _ => Or.inr rfl⟩
      obtain ⟨_, _, _, -, -, -, heq, -⟩ := scheduler_handler_spec 0
        (h.block_current
          { ignoreClock s with
            threads := Function.update s.threads s.current_tid
              (some { t with manually_blocked := true, state := .BLOCKED }) }
          t { t with manually_blocked := true, state := .BLOCKED }
          ht hc0 hok rfl rfl rfl rfl).1
      exact ⟨_, heq⟩
    · intro n hn
      have hok : Thread.ok s.current_tid { t with sleep_quantums := n, state := .BLOCKED } :=
        ⟨h1, h2, h3, h4, le_of_lt hn, fun _ => rfl, fun _ => rfl, fun _ => Or.inl hn⟩
      obtain ⟨_, _, _, -, -, -, heq, -⟩ := scheduler_handler_spec 0
        (h.block_current
          { ignoreClock s with
            threads := Function.update s.threads s.current_tid
              (some { t with sleep_quantums := n, state := .BLOCKED }) }
          t { t with sleep_quantums := n, state := .BLOCKED }
          ht hc0 hok rfl rfl rfl rfl).1
      exact ⟨_, heq⟩
    · obtain ⟨tc, htc, hr⟩ := h.cur
      have hnot : s.current_tid ∉ s.ready_queue :=
        h.not_mem_queue _ (fun t' ht' => by rw [htc] at ht'; cases ht'; simp [hr])
      have hbase : Base MAX_THREAD_NUM
          { ignoreClock s with threads := Function.update s.threads s.current_tid none } :=
        h.toBase.erase s.current_tid rfl hc0 rfl h.queue_nodup hnot (fun j _ => Iff.rfl)
      obtain ⟨_, _, _, -, -, -, heq, -⟩ := scheduler_handler_spec SIGVTALRM hbase
      exact ⟨_, heq⟩

theorem fatal_exit_unreachable_witness :
    Reachable 3 (example_run [.spawn (some 1), .tick, .sleep 2]) ∧
    (example_run [.spawn (some 1), .tick, .sleep 2]).state_of 0 = some .RUNNING ∧
    (example_run [.spawn (some 1), .tick, .sleep 2]).state_of 1 = some .BLOCKED ∧
    (example_run [.spawn (some 1), .tick, .sleep 2]).ready_queue = [] ∧
    ∃ s', tick 3 (example_run [.spawn (some 1), .tick, .sleep 2]) = .resumed s' := by
  have hr : Reachable 3 (example_run [.spawn (some 1), .tick, .sleep 2]) :=
    example_run_reachable _ rfl
  exact ⟨hr, rfl, rfl, rfl, (fatal_exit_unreachable 3 _ hr).2.1⟩

/-- The two parts of `uthread_spawn` make up the whole call. -/
theorem uthread_spawn_parts (M : Nat) (e : thread_entry_point) (s : State) :
    uthread_spawn M e s =
      match uthread_spawn_create M e s with
      | none => .ret FAIL (ignoreClock s)
      | some (tid, s') => uthread_spawn_push tid s' := by
  unfold uthread_spawn uthread_spawn_create
  by_cases he : e = none
  · simp [he]
  · simp only [if_neg he]
    cases find_free (ignoreClock s) 0 M with
    | none => rfl
    | some tid => rfl

/-- C20, evaluated on the code. When the main thread has reached line 246 of its
second `uthread_spawn` (thread 2 created and READY, not yet queued), `SIGVTALRM`
is not blocked, because `set` is still empty. In the run `interrupted_spawn` the
signal arrives there, thread 1 blocks thread 2, and the main thread then
finishes the call: when `uthread_spawn` returns, the ready queue is `[1, 2]`
although thread 2 is BLOCKED. One tick later the queue is `[2, 0]`, and the tick
after that finds `[2, 0, 1]` to pick from and discards the entry 2: it returns
thread 0 and leaves `[1]`. -/
theorem interrupted_spawn_queues_blocked_thread :
    (uthread_spawn_create 3 (some 2) (example_run [.spawn (some 1)])).map
        (fun r => (r.1, r.2.sigvtalrm_blocked, r.2.set_has_sigvtalrm, r.2.ready_queue,
          r.2.state_of 2)) =
      some (2, false, false, [1], some .READY) ∧
    interrupted_spawn.isSome = true ∧
    (interrupted_run []).current_tid = 0 ∧
    (interrupted_run []).ready_queue = [1, 2] ∧
    (interrupted_run []).state_of 1 = some .READY ∧
    (interrupted_run []).state_of 2 = some .BLOCKED ∧
    (interrupted_run [.tick]).ready_queue = [2, 0] ∧
    (sched_prepare 3 SIGVTALRM (interrupted_run [.tick])).ready_queue = [2, 0, 1] ∧
    pick_next (sched_prepare 3 SIGVTALRM (interrupted_run [.tick])).threads
        (sched_prepare 3 SIGVTALRM (interrupted_run [.tick])).ready_queue = (some 0, [1]) :=
  ⟨rfl, rfl, rfl, rfl, rfl, rfl, rfl, rfl, rfl⟩

/-- C18, evaluated on the code. After the run `interrupted_spawn` and one timer
tick, thread 1 is running, the ready queue is `[2, 0]`, thread 2 is BLOCKED
(manually, countdown 0) and no thread is sleeping. The next timer tick does not
make the head 2 of `[2, 0, 1]` the running thread: it discards the entry, runs
thread 0 and leaves the queue `[1]`, not `[0, 1]`. -/
theorem tick_discards_blocked_head :
    (interrupted_run [.tick]).current_tid = 1 ∧
    (interrupted_run [.tick]).ready_queue = [2, 0] ∧
    (interrupted_run [.tick]).threads 0 =
      some { tid := 0, state := .READY, entry_point := none, quantum_count := 2,
             sleep_quantums := 0, active := true, env_initialized := true,
             manually_blocked := false } ∧
    (interrupted_run [.tick]).threads 1 =
      some { tid := 1, state := .RUNNING, entry_point := some 1, quantum_count := 2,
             sleep_quantums := 0, active := true, env_initialized := true,
             manually_blocked := false } ∧
    (interrupted_run [.tick]).threads 2 =
      some { tid := 2, state := .BLOCKED, entry_point := some 2, quantum_count := 0,
             sleep_quantums := 0, active := true, env_initialized := true,
             manually_blocked := true } ∧
    (interrupted_run [.tick, .tick]).current_tid = 0 ∧
    (interrupted_run [.tick, .tick]).state_of 2 = some .BLOCKED ∧
    (interrupted_run [.tick, .tick]).ready_queue = [1] :=
  ⟨rfl, rfl, rfl, rfl, rfl, rfl, rfl, rfl⟩

/-- C8, evaluated on the code. After the run `interrupted_spawn` and one timer
tick, thread 1 is running and the ready queue is `[2, 0]`, thread 2 being
BLOCKED. Thread 1 calls `uthread_block(1)`: the call returns `SUCCESS`, but the
head 2 of the ready queue does not become the running thread; the entry is
dropped, thread 0 runs and the queue is empty. -/
theorem block_discards_blocked_head :
    (interrupted_run [.tick]).current_tid = 1 ∧
    (interrupted_run [.tick]).ready_queue = [2, 0] ∧
    (interrupted_run [.tick]).state_of 2 = some .BLOCKED ∧
    (∃ s', uthread_block 3 1 (interrupted_run [.tick]) = .ret SUCCESS s' ∧
      s'.current_tid = 0 ∧ s'.state_of 0 = some .RUNNING ∧ s'.state_of 1 = some .BLOCKED ∧
      s'.state_of 2 = some .BLOCKED ∧ s'.ready_queue = []) :=
  ⟨rfl, rfl, rfl, _, rfl, rfl, rfl, rfl, rfl, rfl⟩

/-- C13, evaluated on the code. When the run `interrupted_spawn` is over, thread 0
is running, the ready queue is `[1, 2]` and thread 2 is BLOCKED. The main thread
calls `uthread_terminate(2)`: the call returns `SUCCESS` and empties slot 2, but
the queue is not filtered (the thread was not READY) and still holds the id 2. -/
theorem terminate_leaves_queue_entry :
    (interrupted_run []).current_tid = 0 ∧
    (interrupted_run []).ready_queue = [1, 2] ∧
    (interrupted_run []).state_of 2 = some .BLOCKED ∧
    (∃ s', uthread_terminate 3 2 (interrupted_run []) = .ret SUCCESS s' ∧
      s'.threads 2 = none ∧ s'.ready_queue = [1, 2] ∧ 2 ∈ s'.ready_queue) :=
  ⟨rfl, rfl, rfl, _, rfl, rfl, rfl, by decide⟩

/-- C12, evaluated on the code. After the run `interrupted_spawn`, a timer tick,
`uthread_resume(2)` by thread 1 and another tick, thread 2 is running and the
ready queue is `[0, 2, 1]`. Thread 2 calls `uthread_terminate(2)`: thread 0
becomes the running thread and slot 2 is empty, but the id 2 is still in the
ready queue, which is `[2, 1]`. -/
theorem self_terminate_leaves_queue_entry :
    (interrupted_run [.tick, .resume 2, .tick]).current_tid = 2 ∧
    (interrupted_run [.tick, .resume 2, .tick]).state_of 2 = some .RUNNING ∧
    (interrupted_run [.tick, .resume 2, .tick]).ready_queue = [0, 2, 1] ∧
    (interrupted_run [.tick, .resume 2, .tick, .terminate 2]).current_tid = 0 ∧
    (interrupted_run [.tick, .resume 2, .tick, .terminate 2]).state_of 0 = some .RUNNING ∧
    (interrupted_run [.tick, .resume 2, .tick, .terminate 2]).threads 2 = none ∧
    (interrupted_run [.tick, .resume 2, .tick, .terminate 2]).ready_queue = [2, 1] :=
  ⟨by decide!, by decide!, by decide!, by decide!, by decide!, by decide!, by decide!⟩

/-- C15, evaluated on the code. After the run `interrupted_spawn` and
`uthread_resume(2)` by the main thread, the three threads 0, 1, 2 are RUNNING,
READY, READY, none is BLOCKED, and the ready queue is `[1, 2, 2]`. The next three
timer ticks run the threads 1, 2, 2: thread 0 is not run in this window of three
ticks. -/
theorem duplicate_entry_starves_main :
    (interrupted_run [.resume 2]).current_tid = 0 ∧
    (interrupted_run [.resume 2]).ready_queue = [1, 2, 2] ∧
    live_ids 3 (interrupted_run [.resume 2]) = [0, 1, 2] ∧
    (interrupted_run [.resume 2]).state_of 0 = some .RUNNING ∧
    (interrupted_run [.resume 2]).state_of 1 = some .READY ∧
    (interrupted_run [.resume 2]).state_of 2 = some .READY ∧
    tick_trace 3 3 (interrupted_run [.resume 2]) = [1, 2, 2] ∧
    0 ∉ tick_trace 3 3 (interrupted_run [.resume 2]) :=
  ⟨by decide!, by decide!, by decide!, by decide!, by decide!, by decide!, by decide!,
    by decide!⟩

/-- C10, evaluated on the code. After the run `interrupted_spawn`,
`uthread_resume(2)` and three timer ticks, thread 2 is running and the ready
queue is `[0, 1, 2]`. Thread 2 calls `uthread_sleep(1)` and the main thread then
calls `uthread_block(2)`: thread 2 is sleeping (countdown 1) and manually
blocked, and its id is in the ready queue `[1, 2]`. The next timer tick takes the
countdown to zero; thread 2 stays BLOCKED, and its id is still in the ready
queue, `[2, 0]`. `uthread_resume(2)` then queues it a second time. -/
theorem blocked_sleeper_stays_queued :
    (interrupted_run [.resume 2, .tick, .tick, .tick]).current_tid = 2 ∧
    (interrupted_run [.resume 2, .tick, .tick, .tick]).ready_queue = [0, 1, 2] ∧
    (interrupted_run [.resume 2, .tick, .tick, .tick, .sleep 1, .block 2]).threads 2 =
      some { tid := 2, state := .BLOCKED, entry_point := some 2, quantum_count := 2,
             sleep_quantums := 1, active := true, env_initialized := true,
             manually_blocked := true } ∧
    (interrupted_run [.resume 2, .tick, .tick, .tick, .sleep 1, .block 2]).ready_queue =
      [1, 2] ∧
    (interrupted_run [.resume 2, .tick, .tick, .tick, .sleep 1, .block 2, .tick]).threads 2 =
      some { tid := 2, state := .BLOCKED, entry_point := some 2, quantum_count := 2,
             sleep_quantums := 0, active := true, env_initialized := true,
             manually_blocked := true } ∧
    (interrupted_run [.resume 2, .tick, .tick, .tick, .sleep 1, .block 2, .tick]).ready_queue =
      [2, 0] ∧
    (interrupted_run
      [.resume 2, .tick, .tick, .tick, .sleep 1, .block 2, .tick, .resume 2]).ready_queue =
      [2, 0, 2] :=
  ⟨by decide!, by decide!, by decide!, by decide!, by decide!, by decide!, by decide!⟩

end UThreads

namespace MapReduce

variable {K V : Type}

theorem equivalent_iff (lt : K → K → Bool) (a b : K) :
    equivalent lt a b = true ↔ lt a b = false ∧ lt b a = false := by
  simp [equivalent]

theorem equivalent_refl {lt : K → K → Bool} (h : StrictWeakOrder lt) (a : K) :
    equivalent lt a a = true := by
  simp [equivalent, h.irrefl]

theorem equivalent_symm (lt : K → K → Bool) (a b : K) :
    equivalent lt a b = equivalent lt b a := by
  simp [equivalent, Bool.and_comm]

/-- In a strict weak order "not smaller" is transitive. -/
theorem StrictWeakOrder.not_lt_trans {lt : K → K → Bool} (h : StrictWeakOrder lt) (a b c : K)
    (hab : lt a b = false) (hbc : lt b c = false) : lt a c = false := by
  by_contra hac
  simp only [Bool.not_eq_false] at hac
  have hba : lt b a = false := by
    by_contra hba
    simp only [Bool.not_eq_false] at hba
    rw [h.trans b a c hba hac] at hbc
    cases hbc
  have hcb : lt c b = false := by
    by_contra hcb
    simp only [Bool.not_eq_false] at hcb
    rw [h.trans a c b hac hcb] at hab
    cases hab
  have hequiv := h.equivalent_trans a b c ((equivalent_iff lt a b).2 ⟨hab, hba⟩)
    ((equivalent_iff lt b c).2 ⟨hbc, hcb⟩)
  rw [((equivalent_iff lt a c).1 hequiv).1] at hac
  cases hac

theorem StrictWeakOrder.lt_of_lt_of_not_lt {lt : K → K → Bool} (h : StrictWeakOrder lt)
    (a b c : K) (hbc : lt b c = true) (hba : lt b a = false) : lt a c = true := by
  by_contra hac
  simp only [Bool.not_eq_true] at hac
  rw [h.not_lt_trans b a c hba hac] at hbc
  cases hbc

theorem StrictWeakOrder.lt_of_not_lt_of_lt {lt : K → K → Bool} (h : StrictWeakOrder lt)
    (a b c : K) (hab : lt a b = true) (hcb : lt c b = false) : lt a c = true := by
  by_contra hac
  simp only [Bool.not_eq_true] at hac
  rw [h.not_lt_trans a c b hac hcb] at hab
  cases hab

/-! ### Step 1 -/

/-- The key of the back element of each vector that is not empty. -/
theorem find_max_key_spec {lt : K → K → Bool} (h : StrictWeakOrder lt)
    (vectors : List (IntermediateVec K V)) :
    ∀ (m : Option K),
      (find_max_key lt vectors m = none ↔ m = none ∧ ∀ vec, vec ∈ vectors → vec = []) ∧
      ∀ k, find_max_key lt vectors m = some k →
        (m = some k ∨ ∃ vec back rest, vec ∈ vectors ∧ vec = back :: rest ∧ back.1 = k) ∧
        (∀ k₀, m = some k₀ → lt k k₀ = false) ∧
        (∀ vec back rest, vec ∈ vectors → vec = back :: rest → lt k back.1 = false) := by
  induction vectors with
  | nil =>
    intro m
    refine ⟨by simp [find_max_key], ?_⟩
    intro k hk
    simp only [find_max_key] at hk
    refine ⟨Or.inl hk, ?_, by simp⟩
    intro k₀ hk₀
    rw [hk₀] at hk
    cases hk
    exact h.irrefl k
  | cons vec vectors ih =>
    intro m
    cases vec with
    | nil =>
      obtain ⟨ih1, ih2⟩ := ih m
      simp only [find_max_key]
      constructor
      · rw [ih1]
        simp
      · intro k hk
        obtain ⟨a, b, c⟩ := ih2 k hk
        refine ⟨?_, b, ?_⟩
        · rcases a with a | ⟨v, bk, r, hv, e1, e2⟩
          · exact Or.inl a
          · exact Or.inr ⟨v, bk, r, List.mem_cons_of_mem _ hv, e1, e2⟩
        · intro v bk r hv e
          rcases List.mem_cons.1 hv with rfl | hv'
          · cases e
          · exact c v bk r hv' e
    | cons back rest =>
      cases m with
      | none =>
        obtain ⟨ih1, ih2⟩ := ih (some back.1)
        simp only [find_max_key]
        constructor
        · constructor
          · intro hn
            have := (ih1.1 hn).1
            cases this
          · rintro ⟨-, hall⟩
            have := hall (back :: rest) (List.mem_cons_self _ _)
            cases this
        · intro k hk
          obtain ⟨a, b, c⟩ := ih2 k hk
          refine ⟨Or.inr ?_, by simp, ?_⟩
          · rcases a with a | ⟨v, bk, r, hv, e1, e2⟩
            · exact ⟨_, back, rest, List.mem_cons_self _ _, rfl, Option.some.inj a⟩
            · exact ⟨v, bk, r, List.mem_cons_of_mem _ hv, e1, e2⟩
          · intro v bk r hv e
            rcases List.mem_cons.1 hv with rfl | hv'
            · cases e
              exact b _ rfl
            · exact c v bk r hv' e
      | some k₀ =>
        simp only [find_max_key]
        by_cases hlt : lt k₀ back.1 = true
        · rw [if_pos hlt]
          obtain ⟨ih1, ih2⟩ := ih (some back.1)
          constructor
          · constructor
            · intro hn
              have := (ih1.1 hn).1
              cases this
            · rintro ⟨hm, -⟩
              cases hm
          · intro k hk
            obtain ⟨a, b, c⟩ := ih2 k hk
            have hkb : lt k back.1 = false := b _ rfl
            refine ⟨Or.inr ?_, ?_, ?_⟩
            · rcases a with a | ⟨v, bk, r, hv, e1, e2⟩
              · exact ⟨_, back, rest, List.mem_cons_self _ _, rfl, Option.some.inj a⟩
              · exact ⟨v, bk, r, List.mem_cons_of_mem _ hv, e1, e2⟩
            · intro k₁ hk₁
              cases hk₁
              by_contra hc
              simp only [Bool.not_eq_false] at hc
              rw [h.trans k k₀ back.1 hc hlt] at hkb
              cases hkb
            · intro v bk r hv e
              rcases List.mem_cons.1 hv with rfl | hv'
              · cases e
                exact hkb
              · exact c v bk r hv' e
        · rw [if_neg hlt]
          simp only [Bool.not_eq_true] at hlt
          obtain ⟨ih1, ih2⟩ := ih (some k₀)
          constructor
          · constructor
            · intro hn
              have := (ih1.1 hn).1
              cases this
            · rintro ⟨hm, -⟩
              cases hm
          · intro k hk
            obtain ⟨a, b, c⟩ := ih2 k hk
            have hkk : lt k k₀ = false := b _ rfl
            refine ⟨?_, b, ?_⟩
            · rcases a with a | ⟨v, bk, r, hv, e1, e2⟩
              · exact Or.inl a
              · exact Or.inr ⟨v, bk, r, List.mem_cons_of_mem _ hv, e1, e2⟩
            · intro v bk r hv e
              rcases List.mem_cons.1 hv with rfl | hv'
              · cases e
                exact h.not_lt_trans k k₀ _ hkk hlt
              · exact c v bk r hv' e

/-! ### Step 2 -/

theorem pop_equivalent_spec (lt : K → K → Bool) (maxKey : K) (vec : IntermediateVec K V) :
    ∀ group : IntermediateVec K V,
      ∃ popped : IntermediateVec K V,
        vec = popped ++ (pop_equivalent lt maxKey vec group).1 ∧
        (pop_equivalent lt maxKey vec group).2 = popped.reverse ++ group ∧
        (∀ p, p ∈ popped → equivalent lt p.1 maxKey = true) ∧
        (∀ p rest, (pop_equivalent lt maxKey vec group).1 = p :: rest →
          equivalent lt p.1 maxKey = false) := by
  induction vec with
  | nil =>
    intro group
    exact ⟨[], by simp [pop_equivalent], by simp [pop_equivalent], by simp,
      by simp [pop_equivalent]⟩
  | cons back vec ih =>
    intro group
    by_cases hc : (!lt back.1 maxKey && !lt maxKey back.1) = true
    · obtain ⟨popped, h1, h2, h3, h4⟩ := ih (back :: group)
      refine ⟨back :: popped, ?_, ?_, ?_, ?_⟩
      · simp only [pop_equivalent, if_pos hc, List.cons_append]
        rw [← h1]
      · simp only [pop_equivalent, if_pos hc]
        rw [h2]
        simp
      · intro p hp
        rcases List.mem_cons.1 hp with rfl | hp'
        · exact hc
        · exact h3 p hp'
      · intro p rest hp
        simp only [pop_equivalent, if_pos hc] at hp
        exact h4 p rest hp
    · refine ⟨[], ?_, ?_, by simp, ?_⟩
      · simp only [pop_equivalent, if_neg hc, List.nil_append]
      · simp only [pop_equivalent, if_neg hc, List.reverse_nil, List.nil_append]
      · intro p rest hp
        simp only [pop_equivalent, if_neg hc, List.cons.injEq] at hp
        obtain ⟨rfl, -⟩ := hp
        simpa [equivalent] using hc

theorem collect_group_spec (lt : K → K → Bool) (maxKey : K)
    (vectors : List (IntermediateVec K V)) :
    ∀ group : IntermediateVec K V,
      List.Forall₂ (popped_from lt maxKey) vectors (collect_group lt maxKey vectors group).1 ∧
      ((collect_group lt maxKey vectors group).2 ++
          all_pairs (collect_group lt maxKey vectors group).1).Perm
        (group ++ all_pairs vectors) ∧
      (∀ p, p ∈ (collect_group lt maxKey vectors group).2 →
        p ∈ group ∨ equivalent lt p.1 maxKey = true) ∧
      (∀ p, p ∈ group → p ∈ (collect_group lt maxKey vectors group).2) ∧
      (∀ vec back rest, vec ∈ vectors → vec = back :: rest →
        equivalent lt back.1 maxKey = true →
        back ∈ (collect_group lt maxKey vectors group).2) := by
  induction vectors with
  | nil =>
    intro group
    refine ⟨List.Forall₂.nil, ?_, fun p hp => Or.inl hp, fun p hp => hp, ?_⟩
    · simp [collect_group, all_pairs]
    · intro vec back rest hv
      cases hv
  | cons vec vectors ih =>
    intro group
    obtain ⟨popped, h1, h2, h3, h4⟩ := pop_equivalent_spec lt maxKey vec group
    obtain ⟨i1, i2, i3, i4, i5⟩ := ih (pop_equivalent lt maxKey vec group).2
    simp only [collect_group]
    refine ⟨List.Forall₂.cons ⟨popped, h1, h3, h4⟩ i1, ?_, ?_, ?_, ?_⟩
    · simp only [all_pairs, List.flatten_cons] at i2 ⊢
      rw [← Multiset.coe_eq_coe] at i2 ⊢
      simp only [← Multiset.coe_add] at i2 ⊢
      have e3 : ((pop_equivalent lt maxKey vec group).2 : Multiset (IntermediatePair K V)) =
          (popped : Multiset (IntermediatePair K V)) + (group : Multiset (IntermediatePair K V)) := by
        rw [h2, ← Multiset.coe_add, Multiset.coe_reverse]
      have e1 : ((collect_group lt maxKey vectors (pop_equivalent lt maxKey vec group).2).2 :
            Multiset (IntermediatePair K V)) +
            (((pop_equivalent lt maxKey vec group).1 : Multiset (IntermediatePair K V)) +
              ((collect_group lt maxKey vectors (pop_equivalent lt maxKey vec group).2).1.flatten :
                Multiset (IntermediatePair K V))) =
          ((pop_equivalent lt maxKey vec group).1 : Multiset (IntermediatePair K V)) +
            (((collect_group lt maxKey vectors (pop_equivalent lt maxKey vec group).2).2 :
                Multiset (IntermediatePair K V)) +
              ((collect_group lt maxKey vectors (pop_equivalent lt maxKey vec group).2).1.flatten :
                Multiset (IntermediatePair K V))) := by
        abel
      have e2 : (vec : Multiset (IntermediatePair K V)) =
          (popped : Multiset (IntermediatePair K V)) +
            ((pop_equivalent lt maxKey vec group).1 : Multiset (IntermediatePair K V)) := by
        rw [Multiset.coe_add, ← h1]
      rw [e1, i2, e3, e2]
      abel
    · intro p hp
      rcases i3 p hp with hp' | hp'
      · rw [h2, List.mem_append, List.mem_reverse] at hp'
        rcases hp' with hp' | hp'
        · exact Or.inr (h3 p hp')
        · exact Or.inl hp'
      · exact Or.inr hp'
    · intro p hp
      apply i4
      rw [h2]
      exact List.mem_append_right _ hp
    · intro v back rest hv e he
      rcases List.mem_cons.1 hv with rfl | hv'
      · apply i4
        rw [h2, List.mem_append, List.mem_reverse]
        left
        cases popped with
        | nil =>
          simp only [List.nil_append] at h1
          have := h4 back rest (h1.symm.trans e)
          rw [he] at this
          cases this
        | cons p ps =>
          have h1' := e.symm.trans h1
          rw [List.cons_append] at h1'
          rw [(List.cons.inj h1').1]
          exact List.mem_cons_self _ _
      · exact i5 v back rest hv' e he

theorem forall₂_exists_left {α β : Type} {R : α → β → Prop} {l₁ : List α} {l₂ : List β}
    (h : List.Forall₂ R l₁ l₂) : ∀ b, b ∈ l₂ → ∃ a, a ∈ l₁ ∧ R a b := by
  induction h with
  | nil => intro b hb; cases hb
  | cons hab _ ih =>
    intro b hb
    rcases List.mem_cons.1 hb with rfl | hb'
    · exact ⟨_, List.mem_cons_self _ _, hab⟩
    · obtain ⟨a, ha, hr⟩ := ih b hb'
      exact ⟨a, List.mem_cons_of_mem _ ha, hr⟩

theorem equivalent_false_lt {lt : K → K → Bool} (a b : K) (he : equivalent lt a b = false)
    (hba : lt b a = false) : lt a b = true := by
  simp only [equivalent, hba, Bool.not_false, Bool.and_true, Bool.not_eq_false'] at he
  exact he

/-- One iteration of the loop of `shuffle` on sorted vectors: the group holds
exactly the elements equivalent to the largest key, and every element left is
smaller. -/
theorem shuffle_iteration {lt : K → K → Bool} (h : StrictWeakOrder lt)
    (vectors : List (IntermediateVec K V))
    (hsorted : ∀ vec, vec ∈ vectors → vec.Pairwise (fun a b => lt a.1 b.1 = false))
    (k : K) (hk : find_max_key lt vectors none = some k) :
    (collect_group lt k vectors []).1.length = vectors.length ∧
    (∀ vec, vec ∈ (collect_group lt k vectors []).1 →
      vec.Pairwise (fun a b => lt a.1 b.1 = false)) ∧
    ((collect_group lt k vectors []).2 ++ all_pairs (collect_group lt k vectors []).1).Perm
      (all_pairs vectors) ∧
    (collect_group lt k vectors []).2 ≠ [] ∧
    (∀ p, p ∈ (collect_group lt k vectors []).2 → equivalent lt p.1 k = true) ∧
    (∀ vec, vec ∈ (collect_group lt k vectors []).1 → ∀ e, e ∈ vec → lt e.1 k = true) := by
  obtain ⟨hf, hperm, hgrp, -, hhead⟩ := collect_group_spec lt k vectors []
  obtain ⟨hsrc, -, hmax⟩ := (find_max_key_spec h vectors none).2 k hk
  refine ⟨hf.length_eq.symm, ?_, by simpa using hperm, ?_, ?_, ?_⟩
  · intro vec' hv'
    obtain ⟨vec, hv, popped, e, -, -⟩ := forall₂_exists_left hf vec' hv'
    have := hsorted vec hv
    rw [e] at this
    exact (List.pairwise_append.1 this).2.1
  · rcases hsrc with hsrc | ⟨vec, back, rest, hv, e, hb⟩
    · cases hsrc
    · have hmem := hhead vec back rest hv e (by rw [hb]; exact equivalent_refl h k)
      intro hnil
      rw [hnil] at hmem
      cases hmem
  · intro p hp
    rcases hgrp p hp with hp' | hp'
    · cases hp'
    · exact hp'
  · intro vec' hv' e he
    obtain ⟨vec, hv, popped, hvec, hpop, hrest⟩ := forall₂_exists_left hf vec' hv'
    have hs := hsorted vec hv
    cases hvec' : vec' with
    | nil => rw [hvec'] at he; cases he
    | cons h' rest' =>
      have hne := hrest h' rest' hvec'
      have hkh : lt k h'.1 = false := by
        cases popped with
        | nil =>
          rw [List.nil_append, hvec'] at hvec
          exact hmax vec h' rest' hv hvec
        | cons p ps =>
          have hpk := hpop p (List.mem_cons_self _ _)
          have hkp : lt k p.1 = false := ((equivalent_iff lt p.1 k).1 hpk).2
          rw [hvec, hvec'] at hs
          have hph : lt p.1 h'.1 = false :=
            (List.pairwise_append.1 hs).2.2 p (List.mem_cons_self _ _) h'
              (List.mem_cons_self _ _)
          exact h.not_lt_trans k p.1 h'.1 hkp hph
      have hhk : lt h'.1 k = true := equivalent_false_lt h'.1 k hne hkh
      rw [hvec'] at he
      rcases List.mem_cons.1 he with rfl | he'
      · exact hhk
      · have hs' : (h' :: rest').Pairwise (fun a b => lt a.1 b.1 = false) := by
          rw [hvec, hvec'] at hs
          exact (List.pairwise_append.1 hs).2.1
        have hhe : lt h'.1 e.1 = false := (List.pairwise_cons.1 hs').1 e he'
        exact h.lt_of_lt_of_not_lt e.1 h'.1 k hhk hhe

theorem all_pairs_nil (vectors : List (IntermediateVec K V))
    (h : ∀ vec, vec ∈ vectors → vec = []) : all_pairs vectors = [] := by
  rw [all_pairs, List.flatten_eq_nil_iff]
  exact h

/-- The loop of `shuffle` on sorted vectors, given enough fuel. -/
theorem shuffle_loop_spec {lt : K → K → Bool} (h : StrictWeakOrder lt) :
    ∀ (fuel : Nat) (job : JobContext K V),
      (∀ vec, vec ∈ job.intermediate_vectors → vec.Pairwise (fun a b => lt a.1 b.1 = false)) →
      (all_pairs job.intermediate_vectors).length < fuel →
      ∃ (job' : JobContext K V) (groups : List (IntermediateVec K V)),
        shuffle_loop lt fuel job = some job' ∧
        job'.stage = job.stage ∧
        job'.shuffled_queue = groups ++ job.shuffled_queue ∧
        job'.total_reduce_groups = job.total_reduce_groups + groups.length ∧
        job'.intermediate_vectors.length = job.intermediate_vectors.length ∧
        (∀ vec, vec ∈ job'.intermediate_vectors → vec = []) ∧
        (all_pairs groups).Perm (all_pairs job.intermediate_vectors) ∧
        (∀ g, g ∈ groups → g ≠ [] ∧ ∀ a, a ∈ g → ∀ b, b ∈ g → equivalent lt a.1 b.1 = true) ∧
        groups.Pairwise (fun g₁ g₂ => ∀ a, a ∈ g₁ → ∀ b, b ∈ g₂ → lt a.1 b.1 = true) := by
  intro fuel
  induction fuel with
  | zero => intro job _ hlen; exact absurd hlen (Nat.not_lt_zero _)
  | succ fuel ih =>
    intro job hsorted hlen
    cases hk : find_max_key lt job.intermediate_vectors none with
    | none =>
      have hall := ((find_max_key_spec h job.intermediate_vectors none).1.1 hk).2
      refine ⟨job, [], by simp only [shuffle_loop, hk], rfl, rfl, by simp, rfl, hall, ?_,
        by simp, List.Pairwise.nil⟩
      rw [all_pairs_nil _ hall]
      exact List.Perm.refl _
    | some k =>
      obtain ⟨i1, i2, i3, i4, i5, i6⟩ := shuffle_iteration h job.intermediate_vectors hsorted k hk
      have hlen' : (all_pairs (collect_group lt k job.intermediate_vectors []).1).length <
          fuel := by
        have := i3.length_eq
        rw [List.length_append] at this
        have hpos : 0 < (collect_group lt k job.intermediate_vectors []).2.length :=
          List.length_pos.2 i4
        omega
      obtain ⟨job', groups, j1, j2, j3, j4, j5, j6, j7, j8, j9⟩ :=
        ih { job with intermediate_vectors := (collect_group lt k job.intermediate_vectors []).1,
                      shuffled_queue := (collect_group lt k job.intermediate_vectors []).2 ::
                        job.shuffled_queue,
                      total_reduce_groups := job.total_reduce_groups + 1 } i2 hlen'
      refine ⟨job', groups ++ [(collect_group lt k job.intermediate_vectors []).2], ?_, j2, ?_,
        ?_, j5.trans i1, j6, ?_, ?_, ?_⟩
      · simp only [shuffle_loop, hk]
        exact j1
      · rw [j3]; simp
      · rw [j4]
        simp only [List.length_append, List.length_singleton]
        push_cast
        ring
      · have e : all_pairs (groups ++ [(collect_group lt k job.intermediate_vectors []).2]) =
            all_pairs groups ++ (collect_group lt k job.intermediate_vectors []).2 := by
          simp [all_pairs]
        rw [e]
        exact ((j7.append_right _).trans List.perm_append_comm).trans i3
      · intro g hg
        rcases List.mem_append.1 hg with hg' | hg'
        · exact j8 g hg'
        · rw [List.mem_singleton] at hg'
          subst hg'
          refine ⟨i4, fun a ha b hb => ?_⟩
          have hbk := i5 b hb
          rw [equivalent_symm] at hbk
          exact h.equivalent_trans a.1 k b.1 (i5 a ha) hbk
      · rw [List.pairwise_append]
        refine ⟨j9, List.pairwise_singleton _ _, ?_⟩
        intro g₁ hg₁ g₂ hg₂ a ha b hb
        rw [List.mem_singleton] at hg₂
        subst hg₂
        have ha' : a ∈ all_pairs groups := by
          simp only [all_pairs, List.mem_flatten]
          exact ⟨g₁, hg₁, ha⟩
        have ha'' := j7.subset ha'
        simp only [all_pairs, List.mem_flatten] at ha''
        obtain ⟨vec, hvec, hav⟩ := ha''
        have hak : lt a.1 k = true := i6 vec hvec a hav
        have hbk : lt b.1 k = false := ((equivalent_iff lt b.1 k).1 (i5 b hb)).1
        exact h.lt_of_not_lt_of_lt a.1 k b.1 hak hbk

/-! ### The number of distinct keys -/

theorem distinct_keys_subset (lt : K → K → Bool) (keys : List K) :
    ∀ d, d ∈ distinct_keys lt keys → d ∈ keys := by
  induction keys with
  | nil => intro d hd; cases hd
  | cons k ks ih =>
    intro d hd
    simp only [distinct_keys] at hd
    split_ifs at hd
    · exact List.mem_cons_of_mem _ (ih d hd)
    · rcases List.mem_cons.1 hd with rfl | hd'
      · exact List.mem_cons_self _ _
      · exact List.mem_cons_of_mem _ (ih d hd')

theorem distinct_keys_cover {lt : K → K → Bool} (h : StrictWeakOrder lt) (keys : List K) :
    ∀ k, k ∈ keys → ∃ d, d ∈ distinct_keys lt keys ∧ equivalent lt k d = true := by
  induction keys with
  | nil => intro k hk; cases hk
  | cons k₀ ks ih =>
    intro k hk
    simp only [distinct_keys]
    by_cases hany : (distinct_keys lt ks).any (fun k' => equivalent lt k₀ k') = true
    · rw [if_pos hany]
      rcases List.mem_cons.1 hk with rfl | hk'
      · obtain ⟨d, hd, he⟩ := List.any_eq_true.1 hany
        exact ⟨d, hd, he⟩
      · exact ih k hk'
    · rw [if_neg hany]
      rcases List.mem_cons.1 hk with rfl | hk'
      · exact ⟨k, List.mem_cons_self _ _, equivalent_refl h k⟩
      · obtain ⟨d, hd, he⟩ := ih k hk'
        exact ⟨d, List.mem_cons_of_mem _ hd, he⟩

theorem distinct_keys_pairwise (lt : K → K → Bool) (keys : List K) :
    (distinct_keys lt keys).Pairwise (fun d d' => equivalent lt d d' = false) := by
  induction keys with
  | nil => exact List.Pairwise.nil
  | cons k ks ih =>
    simp only [distinct_keys]
    by_cases hany : (distinct_keys lt ks).any (fun k' => equivalent lt k k') = true
    · rw [if_pos hany]; exact ih
    · rw [if_neg hany]
      refine List.Pairwise.cons ?_ ih
      intro d hd
      by_contra hc
      simp only [Bool.not_eq_false] at hc
      exact hany (List.any_eq_true.2 ⟨d, hd, hc⟩)

/-- A list whose elements are related to elements of a second list, no element
of the second list being shared by two positions, is at most as long. -/
theorem length_le_of_related {α β : Type} (rel : α → β → Prop) (R : List α) :
    ∀ (D : List β), (∀ r, r ∈ R → ∃ d, d ∈ D ∧ rel r d) →
      R.Pairwise (fun r r' => ∀ d, rel r d → ¬ rel r' d) → R.length ≤ D.length := by
  classical
  induction R with
  | nil => intro D _ _; exact Nat.zero_le _
  | cons r R ih =>
    intro D hcov hpw
    obtain ⟨d, hd, hrd⟩ := hcov r (List.mem_cons_self _ _)
    obtain ⟨hr, hpw'⟩ := List.pairwise_cons.1 hpw
    have hlt : (D.filter (fun x => decide (¬ rel r x))).length < D.length := by
      rw [List.length_filter_lt_length_iff_exists]
      exact ⟨d, hd, by simpa using hrd⟩
    have hle := ih (D.filter (fun x => decide (¬ rel r x))) (by
      intro r' hr'
      obtain ⟨d', hd', hrd'⟩ := hcov r' (List.mem_cons_of_mem _ hr')
      refine ⟨d', ?_, hrd'⟩
      rw [List.mem_filter]
      refine ⟨hd', ?_⟩
      simp only [decide_eq_true_eq]
      exact fun hc => hr r' hr' d' hc hrd') hpw'
    simp only [List.length_cons]
    omega

theorem nat_lt_strict_weak_order : StrictWeakOrder nat_lt := by
  refine ⟨?_, ?_, ?_⟩
  · intro a; simp [nat_lt]
  · intro a b c hab hbc
    simp only [nat_lt, decide_eq_true_eq] at *
    omega
  · intro a b c hab hbc
    simp only [equivalent, nat_lt, Bool.and_eq_true, Bool.not_eq_true', decide_eq_false_iff_not]
      at *
    omega

/-- More fuel does not change the result of the loop of `shuffle`. -/
theorem shuffle_loop_mono (lt : K → K → Bool) :
    ∀ (fuel : Nat) (job job' : JobContext K V), shuffle_loop lt fuel job = some job' →
      ∀ fuel', fuel ≤ fuel' → shuffle_loop lt fuel' job = some job' := by
  intro fuel
  induction fuel with
  | zero => intro job job' h; simp [shuffle_loop] at h
  | succ fuel ih =>
    intro job job' h fuel' hle
    obtain ⟨n, rfl⟩ : ∃ n, fuel' = n + 1 := ⟨fuel' - 1, by omega⟩
    cases hk : find_max_key lt job.intermediate_vectors none with
    | none =>
      simp only [shuffle_loop, hk] at h ⊢
      exact h
    | some k =>
      simp only [shuffle_loop, hk] at h ⊢
      exact ih _ _ h n (by omega)

/-- C24. Let the comparison of keys be a strict weak order and let every
intermediate vector be sorted ascending by key. Then `shuffle`, given more
iterations than there are pairs, terminates, with the same result however many
more iterations it is given: it sets the stage to
`SHUFFLE_STAGE`, leaves every intermediate vector empty (and as many of them as
before), pushes a list `groups` of groups on `shuffled_queue` and adds their
number to `total_reduce_groups`. The groups together hold exactly the pairs of
the input (as a multiset, so every pair is in exactly one group); no group is
empty and the keys within a group are equivalent; in the order in which they were
pushed the groups are strictly descending by key, so keys of different groups
are never equivalent; and the number of groups is the number of distinct keys of
the input. -/
theorem shuffle_spec (lt : K → K → Bool) (hlt : StrictWeakOrder lt) (job : JobContext K V)
    (hsorted : ∀ vec, vec ∈ job.intermediate_vectors → sorted_ascending lt vec)
    (fuel : Nat) (hfuel : (all_pairs job.intermediate_vectors).length < fuel) :
    ∃ (job' : JobContext K V) (groups : List (IntermediateVec K V)),
      shuffle lt fuel job = some job' ∧
      job'.stage = .SHUFFLE_STAGE ∧
      job'.intermediate_vectors.length = job.intermediate_vectors.length ∧
      (∀ vec, vec ∈ job'.intermediate_vectors → vec = []) ∧
      job'.shuffled_queue = groups ++ job.shuffled_queue ∧
      job'.total_reduce_groups = job.total_reduce_groups + groups.length ∧
      (all_pairs groups).Perm (all_pairs job.intermediate_vectors) ∧
      (∀ g, g ∈ groups → g ≠ [] ∧ ∀ a, a ∈ g → ∀ b, b ∈ g → equivalent lt a.1 b.1 = true) ∧
      groups.reverse.Pairwise (fun g₁ g₂ => ∀ a, a ∈ g₁ → ∀ b, b ∈ g₂ → lt b.1 a.1 = true) ∧
      groups.Pairwise
        (fun g₁ g₂ => ∀ a, a ∈ g₁ → ∀ b, b ∈ g₂ → equivalent lt a.1 b.1 = false) ∧
      groups.length =
        (distinct_keys lt ((all_pairs job.intermediate_vectors).map Prod.fst)).length ∧
      (∀ fuel', fuel ≤ fuel' → shuffle lt fuel' job = some job') := by
  have hs : ∀ vec, vec ∈ job.intermediate_vectors →
      vec.Pairwise (fun a b => lt a.1 b.1 = false) := by
    intro vec hv
    have := hsorted vec hv
    rw [sorted_ascending, List.pairwise_reverse] at this
    exact this
  obtain ⟨job', groups, h1, h2, h3, h4, h5, h6, h7, h8, h9⟩ :=
    shuffle_loop_spec hlt fuel { job with stage := .SHUFFLE_STAGE } hs hfuel
  have hne : groups.Pairwise
      (fun g₁ g₂ => ∀ a, a ∈ g₁ → ∀ b, b ∈ g₂ → equivalent lt a.1 b.1 = false) := by
    refine h9.imp ?_
    intro g₁ g₂ hlt' a ha b hb
    simp [equivalent, hlt' a ha b hb]
  have hmem_groups : ∀ a, a ∈ all_pairs job.intermediate_vectors →
      ∃ g, g ∈ groups ∧ a ∈ g := by
    intro a ha
    have := h7.symm.subset ha
    simpa [all_pairs, List.mem_flatten] using this
  have hmem_input : ∀ g, g ∈ groups → ∀ a, a ∈ g →
      a ∈ all_pairs job.intermediate_vectors := by
    intro g hg a ha
    apply h7.subset
    simp only [all_pairs, List.mem_flatten]
    exact ⟨g, hg, ha⟩
  refine ⟨job', groups, h1, h2, h5, h6, h3, h4, h7, h8, ?_, hne, ?_,
    fun fuel' hle => shuffle_loop_mono lt fuel _ job' h1 fuel' hle⟩
  · rw [List.pairwise_reverse]
    exact h9.imp (fun hh a ha b hb => hh b hb a ha)
  · apply le_antisymm
    · refine length_le_of_related (fun g d => ∃ a, a ∈ g ∧ equivalent lt a.1 d = true) groups _
        ?_ ?_
      · intro g hg
        obtain ⟨hgne, -⟩ := h8 g hg
        obtain ⟨a, rest, rfl⟩ := List.exists_cons_of_ne_nil hgne
        have ha := hmem_input _ hg a (List.mem_cons_self _ _)
        obtain ⟨d, hd, he⟩ := distinct_keys_cover hlt _ a.1 (List.mem_map_of_mem _ ha)
        exact ⟨d, hd, a, List.mem_cons_self _ _, he⟩
      · refine hne.imp ?_
        rintro g₁ g₂ hg d ⟨a, ha, had⟩ ⟨b, hb, hbd⟩
        have := hg a ha b hb
        rw [equivalent_symm lt b.1 d] at hbd
        rw [hlt.equivalent_trans a.1 d b.1 had hbd] at this
        cases this
    · refine length_le_of_related
        (fun d g => g ∈ groups ∧ ∃ a, a ∈ g ∧ equivalent lt d a.1 = true) _ groups ?_ ?_
      · intro d hd
        have hd' := distinct_keys_subset lt _ d hd
        obtain ⟨a, ha, rfl⟩ := List.mem_map.1 hd'
        obtain ⟨g, hg, hag⟩ := hmem_groups a ha
        exact ⟨g, hg, hg, a, hag, equivalent_refl hlt a.1⟩
      · refine (distinct_keys_pairwise lt _).imp ?_
        rintro d d' hdd g ⟨hg, a, ha, hda⟩ ⟨-, b, hb, hdb⟩
        have hab := (h8 g hg).2 a ha b hb
        rw [equivalent_symm lt d' b.1] at hdb
        rw [hlt.equivalent_trans d a.1 d' hda (hlt.equivalent_trans a.1 b.1 d' hab hdb)] at hdd
        cases hdd

theorem shuffle_spec_witness :
    StrictWeakOrder nat_lt ∧
    (∀ vec, vec ∈ example_job.intermediate_vectors → sorted_ascending nat_lt vec) ∧
    (all_pairs example_job.intermediate_vectors).length < 5 ∧
    ∃ job', shuffle nat_lt 5 example_job = some job' ∧
      job'.intermediate_vectors = [[], [], []] ∧
      job'.shuffled_queue = [[(1, 11)], [(2, 13)], [(3, 12), (3, 10)]] ∧
      job'.total_reduce_groups = 3 ∧
      (distinct_keys nat_lt
        ((all_pairs example_job.intermediate_vectors).map Prod.fst)).length = 3 := by
  have hs : ∀ vec, vec ∈ example_job.intermediate_vectors → sorted_ascending nat_lt vec := by
    intro vec hv
    simp only [example_job, List.mem_cons, List.mem_singleton, List.not_mem_nil, or_false] at hv
    rcases hv with rfl | rfl | rfl <;> simp [sorted_ascending, nat_lt]
  obtain ⟨job', groups, h1, -⟩ :=
    shuffle_spec nat_lt nat_lt_strict_weak_order example_job hs 5 (by decide)
  have e : job' = { stage := .SHUFFLE_STAGE, intermediate_vectors := [[], [], []],
                    shuffled_queue := [[(1, 11)], [(2, 13)], [(3, 12), (3, 10)]],
                    total_reduce_groups := 3 } :=
    Option.some.inj (h1.symm.trans rfl)
  subst e
  exact ⟨nat_lt_strict_weak_order, hs, by decide, _, h1, rfl, rfl, rfl, by decide⟩

end MapReduce

namespace VirtualMemory

variable {σ : Type}

/-! ### Digits in base `b` -/

theorem digits_fold (b n : Nat) (P : Nat) :
    ∀ k, k ≤ n →
      ((List.range k).map (fun d => P / b ^ (n - 1 - d) % b)).foldl (fun p i => p * b + i) 0 =
        P / b ^ (n - k) % b ^ k := by
  intro k
  induction k with
  | zero => intro _; simp [Nat.mod_one]
  | succ k ih =>
    intro hk
    rw [List.range_succ, List.map_append, List.foldl_append, ih (by omega)]
    simp only [List.map_cons, List.map_nil, List.foldl_cons, List.foldl_nil]
    have e1 : n - k = (n - (k + 1)) + 1 := by omega
    have e2 : n - 1 - k = n - (k + 1) := by omega
    rw [e1, e2, pow_succ, ← Nat.div_div_eq_div_mul, pow_succ, Nat.mul_comm (b ^ k) b,
      Nat.mod_mul]
    ring

theorem fold_digits (b : Nat) (l : List Nat) :
    (∀ i, i ∈ l → i < b) →
      l.foldl (fun p i => p * b + i) 0 < b ^ l.length ∧
      (List.range l.length).map
        (fun d => l.foldl (fun p i => p * b + i) 0 / b ^ (l.length - 1 - d) % b) = l := by
  induction l using List.reverseRecOn with
  | nil => intro _; simp
  | append_singleton l i ih =>
    intro hl
    have hi : i < b := hl i (by simp)
    obtain ⟨h1, h2⟩ := ih (fun j hj => hl j (by simp [hj]))
    have hb : 0 < b := by omega
    rw [List.foldl_append]
    simp only [List.foldl_cons, List.foldl_nil, List.length_append, List.length_singleton]
    constructor
    · rw [pow_succ]
      have : List.foldl (fun p i => p * b + i) 0 l + 1 ≤ b ^ l.length := h1
      calc List.foldl (fun p i => p * b + i) 0 l * b + i
          < List.foldl (fun p i => p * b + i) 0 l * b + b := by omega
        _ = (List.foldl (fun p i => p * b + i) 0 l + 1) * b := by ring
        _ ≤ b ^ l.length * b := Nat.mul_le_mul_right _ this
    · rw [List.range_succ, List.map_append]
      congr 1
      · conv_rhs => rw [← h2]
        apply List.map_congr_left
        intro d hd
        rw [List.mem_range] at hd
        have e : l.length + 1 - 1 - d = (l.length - 1 - d) + 1 := by omega
        rw [e, pow_succ, Nat.mul_comm (b ^ (l.length - 1 - d)) b, ← Nat.div_div_eq_div_mul]
        congr 2
        rw [Nat.mul_comm, Nat.mul_add_div hb, Nat.div_eq_of_lt hi, Nat.add_zero]
      · simp only [List.map_cons, List.map_nil, Nat.add_sub_cancel, Nat.sub_self, pow_zero,
          Nat.div_one]
        rw [Nat.mul_comm, Nat.mul_add_mod, Nat.mod_eq_of_lt hi]

/-! ### The constants -/

theorem sub64_eq (a b : Nat) (hb : b ≤ a) (ha : a < 2 ^ 64) : sub64 a b = a - b := by
  have hb' : b < 2 ^ 64 := lt_of_le_of_lt hb ha
  rw [sub64, Nat.mod_eq_of_lt ha, Nat.mod_eq_of_lt hb']
  have : a + 2 ^ 64 - b = (a - b) + 2 ^ 64 := by omega
  rw [this, Nat.add_mod_right, Nat.mod_eq_of_lt]
  omega

theorem wrap64_eq (a : Nat) (ha : a < 2 ^ 64) : wrap64 a = a := Nat.mod_eq_of_lt ha

/-- With valid constants: the tables have at least one level, together they
index at least the bits of the page number and fewer than the bits of an
address, and the page-number bits below the top level are those of
`TABLES_DEPTH - 1` full levels. -/
theorem MemoryConstants.valid.depth_facts {c : MemoryConstants} (h : c.valid) :
    1 ≤ c.TABLES_DEPTH ∧
    c.VIRTUAL_ADDRESS_WIDTH - c.OFFSET_WIDTH ≤ c.TABLES_DEPTH * c.OFFSET_WIDTH ∧
    c.TABLES_DEPTH * c.OFFSET_WIDTH < c.VIRTUAL_ADDRESS_WIDTH ∧
    top_level_bits c ≤ c.VIRTUAL_ADDRESS_WIDTH - c.OFFSET_WIDTH ∧
    c.VIRTUAL_ADDRESS_WIDTH - c.OFFSET_WIDTH - top_level_bits c =
      (c.TABLES_DEPTH - 1) * c.OFFSET_WIDTH := by
  obtain ⟨hw, hlt, h64, -, -, htd⟩ := h
  have hT : sub64 c.VIRTUAL_ADDRESS_WIDTH c.OFFSET_WIDTH =
      c.VIRTUAL_ADDRESS_WIDTH - c.OFFSET_WIDTH :=
    sub64_eq _ _ (le_of_lt hlt) (by omega)
  generalize hTdef : c.VIRTUAL_ADDRESS_WIDTH - c.OFFSET_WIDTH = T at *
  generalize hwdef : c.OFFSET_WIDTH = w at *
  have hT1 : 1 ≤ T := by omega
  have hdm := Nat.div_add_mod T w
  have hr := Nat.mod_lt T hw
  generalize hq : T / w = q at *
  generalize hrr : T % w = r at *
  have htd' : c.TABLES_DEPTH = (r + w - 1) / w + q := by
    rw [htd, ← hdm]
    have : w * q + r + w - 1 = (r + w - 1) + w * q := by omega
    rw [this, Nat.add_mul_div_left _ _ hw]
  by_cases hr0 : r = 0
  · have hdiv : (r + w - 1) / w = 0 := Nat.div_eq_of_lt (by omega)
    rw [hdiv, Nat.zero_add] at htd'
    have hq1 : 1 ≤ q := by
      by_contra hc
      have : q = 0 := by omega
      rw [this] at hdm
      omega
    have htop : top_level_bits c = w := by
      simp only [top_level_bits, hT, hwdef, hrr, hr0, htd', true_and]
      rw [if_pos (by omega)]
    rw [htop, htd']
    have e : (q - 1) * w = w * q - w := by
      rw [Nat.sub_mul, Nat.one_mul, Nat.mul_comm]
    have hwq : w ≤ w * q := Nat.le_mul_of_pos_right w hq1
    refine ⟨hq1, ?_, ?_, ?_, ?_⟩
    · rw [Nat.mul_comm]; omega
    · rw [Nat.mul_comm]; omega
    · omega
    · rw [e]; omega
  · have hdiv : (r + w - 1) / w = 1 :=
      Nat.div_eq_of_lt_le (by omega) (by omega)
    rw [hdiv] at htd'
    have htop : top_level_bits c = r := by
      simp only [top_level_bits, hT, hwdef, hrr, hr0, htd', false_and, if_false]
      rw [if_neg (by omega)]
    rw [htop, htd']
    have e : (1 + q) * w = w * q + w := by ring
    have e' : (1 + q - 1) * w = w * q := by
      rw [Nat.add_sub_cancel_left, Nat.mul_comm]
    refine ⟨by omega, ?_, ?_, ?_, ?_⟩
    · rw [e]; omega
    · rw [e]; omega
    · omega
    · rw [e']; omega

theorem MemoryConstants.valid.level_shift_eq {c : MemoryConstants} (h : c.valid) (d : Nat)
    (hd : d < c.TABLES_DEPTH) :
    level_shift c d = (c.TABLES_DEPTH - 1 - d) * c.OFFSET_WIDTH := by
  obtain ⟨h1, h2, h3, h4, h5⟩ := h.depth_facts
  obtain ⟨hw, hlt, h64, -, -, -⟩ := h
  have hT : sub64 c.VIRTUAL_ADDRESS_WIDTH c.OFFSET_WIDTH =
      c.VIRTUAL_ADDRESS_WIDTH - c.OFFSET_WIDTH :=
    sub64_eq _ _ (le_of_lt hlt) (by omega)
  have hS : sub64 (c.VIRTUAL_ADDRESS_WIDTH - c.OFFSET_WIDTH) (top_level_bits c) =
      (c.TABLES_DEPTH - 1) * c.OFFSET_WIDTH := by
    rw [sub64_eq _ _ h4 (by omega), h5]
  simp only [level_shift, hT, hS]
  by_cases hd0 : d = 0
  · rw [if_pos hd0, hd0, Nat.sub_zero]
  · rw [if_neg hd0]
    have hle : d * c.OFFSET_WIDTH ≤ (c.TABLES_DEPTH - 1) * c.OFFSET_WIDTH :=
      Nat.mul_le_mul_right _ (by omega)
    have hlt' : (c.TABLES_DEPTH - 1) * c.OFFSET_WIDTH < 2 ^ 64 := by
      have : (c.TABLES_DEPTH - 1) * c.OFFSET_WIDTH ≤ c.TABLES_DEPTH * c.OFFSET_WIDTH :=
        Nat.mul_le_mul_right _ (by omega)
      omega
    rw [wrap64_eq _ (by omega), sub64_eq _ _ hle hlt', ← Nat.sub_mul]

theorem MemoryConstants.valid.level_index_eq {c : MemoryConstants} (h : c.valid)
    (page_num d : Nat) (hd : d < c.TABLES_DEPTH) :
    level_index c page_num d =
      page_num / (2 ^ c.OFFSET_WIDTH) ^ (c.TABLES_DEPTH - 1 - d) % 2 ^ c.OFFSET_WIDTH := by
  have hw64 : c.OFFSET_WIDTH < 64 := by
    have := h.offset_lt
    have := h.width_le
    omega
  have hp : 2 ^ c.OFFSET_WIDTH < 2 ^ 64 := Nat.pow_lt_pow_right (by decide) hw64
  have hp1 : 1 ≤ 2 ^ c.OFFSET_WIDTH := Nat.one_le_two_pow
  rw [level_index, h.level_shift_eq d hd, Nat.one_shiftLeft, wrap64_eq _ hp,
    sub64_eq _ _ hp1 hp, Nat.and_pow_two_sub_one_eq_mod, Nat.shiftRight_eq_div_pow,
    ← Nat.pow_mul, Nat.mul_comm]

theorem MemoryConstants.valid.level_index_lt {c : MemoryConstants} (h : c.valid)
    (page_num d : Nat) : level_index c page_num d < c.PAGE_SIZE := by
  have hw64 : c.OFFSET_WIDTH < 64 := by
    have := h.offset_lt
    have := h.width_le
    omega
  have hp : 2 ^ c.OFFSET_WIDTH < 2 ^ 64 := Nat.pow_lt_pow_right (by decide) hw64
  have hp1 : 1 ≤ 2 ^ c.OFFSET_WIDTH := Nat.one_le_two_pow
  rw [level_index, Nat.one_shiftLeft, wrap64_eq _ hp, sub64_eq _ _ hp1 hp,
    Nat.and_pow_two_sub_one_eq_mod, h.page_size]
  exact Nat.mod_lt _ (by omega)

theorem MemoryConstants.valid.pow_depth_lt {c : MemoryConstants} (h : c.valid) :
    (2 ^ c.OFFSET_WIDTH) ^ c.TABLES_DEPTH < 2 ^ 64 := by
  obtain ⟨-, -, h3, -, -⟩ := h.depth_facts
  rw [← Nat.pow_mul, Nat.mul_comm]
  exact Nat.pow_lt_pow_right (by decide) (by have := h.width_le; omega)

theorem MemoryConstants.valid.childPrefix_eq {c : MemoryConstants} (h : c.valid) (p i k : Nat)
    (hp : p < (2 ^ c.OFFSET_WIDTH) ^ k) (hk : k < c.TABLES_DEPTH) (hi : i < 2 ^ c.OFFSET_WIDTH) :
    childPrefix c p i = p * 2 ^ c.OFFSET_WIDTH + i ∧
      p * 2 ^ c.OFFSET_WIDTH + i < (2 ^ c.OFFSET_WIDTH) ^ (k + 1) := by
  have hlt : p * 2 ^ c.OFFSET_WIDTH + i < (2 ^ c.OFFSET_WIDTH) ^ (k + 1) := by
    rw [pow_succ]
    calc p * 2 ^ c.OFFSET_WIDTH + i < p * 2 ^ c.OFFSET_WIDTH + 2 ^ c.OFFSET_WIDTH := by omega
      _ = (p + 1) * 2 ^ c.OFFSET_WIDTH := by ring
      _ ≤ (2 ^ c.OFFSET_WIDTH) ^ k * 2 ^ c.OFFSET_WIDTH := Nat.mul_le_mul_right _ hp
  have hle : (2 ^ c.OFFSET_WIDTH) ^ (k + 1) ≤ (2 ^ c.OFFSET_WIDTH) ^ c.TABLES_DEPTH :=
    Nat.pow_le_pow_right Nat.one_le_two_pow hk
  have h64 := h.pow_depth_lt
  refine ⟨?_, hlt⟩
  rw [childPrefix, Nat.shiftLeft_eq, wrap64_eq _ (by omega), Nat.mul_comm,
    ← Nat.mul_add_lt_is_or hi]

theorem MemoryConstants.valid.fold_childPrefix {c : MemoryConstants} (h : c.valid)
    (l : List Nat) :
    ∀ (p k : Nat), p < (2 ^ c.OFFSET_WIDTH) ^ k → k + l.length ≤ c.TABLES_DEPTH →
      (∀ i, i ∈ l → i < 2 ^ c.OFFSET_WIDTH) →
      l.foldl (childPrefix c) p = l.foldl (fun p i => p * 2 ^ c.OFFSET_WIDTH + i) p := by
  induction l with
  | nil => intro p k _ _ _; rfl
  | cons i l ih =>
    intro p k hp hk hl
    simp only [List.length_cons] at hk
    obtain ⟨e, hlt⟩ := h.childPrefix_eq p i k hp (by omega) (hl i (List.mem_cons_self _ _))
    simp only [List.foldl_cons]
    rw [e]
    exact ih _ (k + 1) hlt (by omega) (fun j hj => hl j (List.mem_cons_of_mem _ hj))

theorem MemoryConstants.valid.page_indices_eq {c : MemoryConstants} (h : c.valid)
    (page_num : Nat) :
    page_indices c page_num =
      (List.range c.TABLES_DEPTH).map
        (fun d => page_num / (2 ^ c.OFFSET_WIDTH) ^ (c.TABLES_DEPTH - 1 - d) %
          2 ^ c.OFFSET_WIDTH) := by
  apply List.map_congr_left
  intro d hd
  exact h.level_index_eq page_num d (List.mem_range.1 hd)

/-- The indices of a page number, folded from the root as `dfs` does, give the
page number back (reduced to the bits that the tables index). -/
theorem MemoryConstants.valid.fold_page_indices {c : MemoryConstants} (h : c.valid)
    (page_num : Nat) :
    (page_indices c page_num).foldl (childPrefix c) 0 =
      page_num % (2 ^ c.OFFSET_WIDTH) ^ c.TABLES_DEPTH := by
  have hlen : (page_indices c page_num).length = c.TABLES_DEPTH := by simp [page_indices]
  rw [h.fold_childPrefix _ 0 0 (by simp) (by omega), h.page_indices_eq,
    digits_fold _ _ _ c.TABLES_DEPTH (le_refl _)]
  · simp
  · intro i hi
    obtain ⟨d, -, rfl⟩ := List.mem_map.1 hi
    have := h.level_index_lt page_num d
    rwa [h.page_size] at this

/-- A path of `TABLES_DEPTH` indices is the list of indices of the prefix that
`dfs` builds along it. -/
theorem MemoryConstants.valid.page_indices_fold {c : MemoryConstants} (h : c.valid)
    (path : List Nat) (hlen : path.length = c.TABLES_DEPTH)
    (hpath : ∀ i, i ∈ path → i < c.PAGE_SIZE) :
    page_indices c (path.foldl (childPrefix c) 0) = path ∧
      path.foldl (childPrefix c) 0 < (2 ^ c.OFFSET_WIDTH) ^ c.TABLES_DEPTH := by
  have hpath' : ∀ i, i ∈ path → i < 2 ^ c.OFFSET_WIDTH := by
    intro i hi
    have := hpath i hi
    rwa [h.page_size] at this
  rw [h.fold_childPrefix _ 0 0 (by simp) (by omega) hpath', h.page_indices_eq]
  obtain ⟨h1, h2⟩ := fold_digits (2 ^ c.OFFSET_WIDTH) path hpath'
  rw [hlen] at h1 h2
  exact ⟨h2, h1⟩

theorem same_leaf_trans {r₁ r₂ r₃ : Search} (h₁ : r₁.same_leaf r₂)
    (h₂ : r₂.same_leaf r₃) : r₁.same_leaf r₃ :=
  ⟨h₂.1.trans h₁.1, h₂.2.1.trans h₁.2.1, h₂.2.2.1.trans h₁.2.2.1, h₂.2.2.2.trans h₁.2.2.2⟩

theorem leaf_below_of_same (c : MemoryConstants) (pm : PhysicalMemory σ) (m : σ)
    (levels frame virtPrefix : Nat) {r r' : Search} (h : r.same_leaf r')
    (hl : leaf_below c pm m levels frame virtPrefix r) :
    leaf_below c pm m levels frame virtPrefix r' := by
  obtain ⟨path, h1, h2, h3, h4⟩ := hl
  exact ⟨path, h1, h2, by rw [h.1]; exact h3, by rw [h.2.1]; exact h4⟩

/-- The best leaf that `dfs` reports is the one it was given, or a leaf it
reached through non-zero entries, reported with the prefix built on the way. -/
theorem dfs_leaf (c : MemoryConstants) (pm : PhysicalMemory σ) (m : σ) (forbid : List Nat)
    (targetPage : Nat) :
    ∀ (levels frame virtPrefix parentAddr : Nat) (r : Search),
      r.same_leaf (dfs c pm m forbid targetPage levels frame virtPrefix parentAddr r) ∨
      leaf_below c pm m levels frame virtPrefix
        (dfs c pm m forbid targetPage levels frame virtPrefix parentAddr r) := by
  intro levels
  induction levels with
  | zero =>
    intro frame virtPrefix parentAddr r
    simp only [dfs]
    split_ifs
    · exact Or.inr ⟨[], rfl, by simp, rfl, rfl⟩
    · exact Or.inl ⟨rfl, rfl, rfl, rfl⟩
    · exact Or.inl ⟨rfl, rfl, rfl, rfl⟩
  | succ levels ih =>
    intro frame virtPrefix parentAddr r
    have hloop : ∀ (is : List Nat), (∀ i, i ∈ is → i < c.PAGE_SIZE) →
        ∀ acc : Bool × Search,
          acc.2.same_leaf (is.foldl
            (fun (acc : Bool × Search) i =>
              if pm.PMread m (wrap64 (frame * c.PAGE_SIZE + i)) = 0 then acc
              else
                (false, dfs c pm m forbid targetPage levels
                  (to_uint64 (pm.PMread m (wrap64 (frame * c.PAGE_SIZE + i))))
                  (childPrefix c virtPrefix i) (wrap64 (frame * c.PAGE_SIZE + i)) acc.2))
            acc).2 ∨
          leaf_below c pm m (levels + 1) frame virtPrefix (is.foldl
            (fun (acc : Bool × Search) i =>
              if pm.PMread m (wrap64 (frame * c.PAGE_SIZE + i)) = 0 then acc
              else
                (false, dfs c pm m forbid targetPage levels
                  (to_uint64 (pm.PMread m (wrap64 (frame * c.PAGE_SIZE + i))))
                  (childPrefix c virtPrefix i) (wrap64 (frame * c.PAGE_SIZE + i)) acc.2))
            acc).2 := by
      intro is
      induction is with
      | nil => intro _ acc; exact Or.inl ⟨rfl, rfl, rfl, rfl⟩
      | cons i is ihl =>
        intro his acc
        simp only [List.foldl_cons]
        have hi := his i (List.mem_cons_self _ _)
        have his' : ∀ j, j ∈ is → j < c.PAGE_SIZE := fun j hj => his j (List.mem_cons_of_mem _ hj)
        by_cases hz : pm.PMread m (wrap64 (frame * c.PAGE_SIZE + i)) = 0
        · rw [if_pos hz]
          exact ihl his' acc
        · rw [if_neg hz]
          rcases ihl his' (false, dfs c pm m forbid targetPage levels
              (to_uint64 (pm.PMread m (wrap64 (frame * c.PAGE_SIZE + i))))
              (childPrefix c virtPrefix i) (wrap64 (frame * c.PAGE_SIZE + i)) acc.2) with
            hs | hb
          · rcases ih (to_uint64 (pm.PMread m (wrap64 (frame * c.PAGE_SIZE + i))))
                (childPrefix c virtPrefix i) (wrap64 (frame * c.PAGE_SIZE + i)) acc.2 with
              hs' | hb'
            · exact Or.inl (same_leaf_trans hs' hs)
            · right
              refine leaf_below_of_same c pm m _ _ _ hs ?_
              obtain ⟨path, h1, h2, h3, h4⟩ := hb'
              refine ⟨i :: path, by simp [h1], ?_, ?_, ?_⟩
              · intro j hj
                rcases List.mem_cons.1 hj with rfl | hj'
                · exact hi
                · exact h2 j hj'
              · simp only [descend, if_neg hz]
                exact h3
              · simp only [List.foldl_cons]
                exact h4
          · exact Or.inr hb
    have hl := hloop (List.range c.PAGE_SIZE) (fun i hi => List.mem_range.1 hi)
      (true, { r with highestUsed := max r.highestUsed frame })
    simp only [dfs]
    split_ifs
    · rcases hl with hs | hb
      · exact Or.inl ⟨hs.1, hs.2.1, hs.2.2.1, hs.2.2.2⟩
      · right
        obtain ⟨path, h1, h2, h3, h4⟩ := hb
        exact ⟨path, h1, h2, h3, h4⟩
    · rcases hl with hs | hb
      · exact Or.inl ⟨hs.1, hs.2.1, hs.2.2.1, hs.2.2.2⟩
      · exact Or.inr hb

/-- When no entry on the way is zero, the loop of `toPhysical` follows the
entries and leaves the memory alone. -/
theorem toPhysical_loop_descend (c : MemoryConstants) (pm : PhysicalMemory σ) (page_num : Nat)
    (m : σ) (ds : List Nat) :
    ∀ (frame : Nat) (forbid : List Nat) (f : Nat),
      descend c pm m (ds.map (level_index c page_num)) frame = some f →
      ∃ forbid', ds.foldl (toPhysical_step c pm page_num) (frame, forbid, m) =
        (f, forbid', m) := by
  induction ds with
  | nil =>
    intro frame forbid f hd
    simp only [List.map_nil, descend, Option.some.injEq] at hd
    subst hd
    exact ⟨forbid, rfl⟩
  | cons d ds ih =>
    intro frame forbid f hd
    simp only [List.map_cons, descend] at hd
    by_cases hz : pm.PMread m (wrap64 (frame * c.PAGE_SIZE + level_index c page_num d)) = 0
    · rw [if_pos hz] at hd; cases hd
    · rw [if_neg hz] at hd
      simp only [List.foldl_cons]
      have hstep : toPhysical_step c pm page_num (frame, forbid, m) d =
          (to_uint64 (pm.PMread m (wrap64 (frame * c.PAGE_SIZE + level_index c page_num d))),
            (if d + 1 < c.TABLES_DEPTH then
              forbid.set (d + 1)
                (to_uint64 (pm.PMread m (wrap64 (frame * c.PAGE_SIZE + level_index c page_num d))))
             else forbid), m) := by
        simp only [toPhysical_step, if_neg hz]
      rw [hstep]
      exact ih _ _ f hd

theorem toPhysical_of_descend (c : MemoryConstants) (pm : PhysicalMemory σ) (vaddr : Nat)
    (m : σ) (f : Nat) (hd : c.TABLES_DEPTH ≠ 0)
    (h : descend c pm m (page_indices c (vaddr >>> c.OFFSET_WIDTH)) 0 = some f) :
    toPhysical c pm vaddr m =
      (wrap64 (f * c.PAGE_SIZE + (vaddr &&& (c.PAGE_SIZE - 1))), m) := by
  obtain ⟨forbid', e⟩ := toPhysical_loop_descend c pm (vaddr >>> c.OFFSET_WIDTH) m
    (List.range c.TABLES_DEPTH) 0 ((List.replicate c.TABLES_DEPTH UINT64_MAX).set 0 0) f h
  simp only [toPhysical, if_neg hd, e]

theorem MemoryConstants.valid.toPhysical_offset {c : MemoryConstants} (h : c.valid)
    (pm : PhysicalMemory σ) (vaddr : Nat) (m : σ) :
    (toPhysical c pm vaddr m).1 % c.PAGE_SIZE = vaddr % c.PAGE_SIZE := by
  obtain ⟨h1, -⟩ := h.depth_facts
  have hd : c.TABLES_DEPTH ≠ 0 := by omega
  have hdvd : 2 ^ c.OFFSET_WIDTH ∣ 2 ^ 64 :=
    pow_dvd_pow 2 (by have := h.offset_lt; have := h.width_le; omega)
  simp only [toPhysical, if_neg hd, wrap64]
  rw [h.page_size, Nat.mod_mod_of_dvd _ hdvd, Nat.and_pow_two_sub_one_eq_mod,
    Nat.mul_comm, Nat.mul_add_mod, Nat.mod_mod]

/-- C25. Page-table index decomposition, for valid constants (in particular
`TABLES_DEPTH = ceil((VIRTUAL_ADDRESS_WIDTH - OFFSET_WIDTH) / OFFSET_WIDTH)` and
`PAGE_SIZE = 2 ^ OFFSET_WIDTH`). `TABLES_DEPTH` is at least 1. For every virtual
address `v < VIRTUAL_MEMORY_SIZE`, `toPhysical` extracts `TABLES_DEPTH` indices
from the page number `v >> OFFSET_WIDTH`, each below `PAGE_SIZE`, and folding
them from the root with `(prefix << OFFSET_WIDTH) | index`, as `dfs` does, gives
the page number back; the physical address returned has offset
`v mod PAGE_SIZE`. Conversely the indices extracted from the prefix built along
a path of `TABLES_DEPTH` indices below `PAGE_SIZE` are the path. So, for every
physical memory, a leaf that `dfs` reports from the root (frame `bestLeafFrame`,
page `bestLeafPage`) is the frame in which the walk along the indices of
`bestLeafPage` ends, and `toPhysical` translates every address of that page into
that frame without changing the memory. -/
theorem page_index_decomposition (c : MemoryConstants) (hc : c.valid) :
    1 ≤ c.TABLES_DEPTH ∧
    (∀ v, v < c.VIRTUAL_MEMORY_SIZE →
      (page_indices c (v >>> c.OFFSET_WIDTH)).length = c.TABLES_DEPTH ∧
      (∀ d, d < c.TABLES_DEPTH → level_index c (v >>> c.OFFSET_WIDTH) d < c.PAGE_SIZE) ∧
      (page_indices c (v >>> c.OFFSET_WIDTH)).foldl (childPrefix c) 0 =
        v >>> c.OFFSET_WIDTH) ∧
    (∀ (σ : Type) (pm : PhysicalMemory σ) (m : σ) (v : Nat), v < c.VIRTUAL_MEMORY_SIZE →
      (toPhysical c pm v m).1 % c.PAGE_SIZE = v % c.PAGE_SIZE) ∧
    (∀ path : List Nat, path.length = c.TABLES_DEPTH → (∀ i, i ∈ path → i < c.PAGE_SIZE) →
      page_indices c (path.foldl (childPrefix c) 0) = path) ∧
    (∀ (σ : Type) (pm : PhysicalMemory σ) (m : σ) (forbid : List Nat) (targetPage : Nat),
      (dfs c pm m forbid targetPage c.TABLES_DEPTH 0 0 UINT64_MAX
        Search.initial).bestLeafFrame ≠ 0 →
      descend c pm m
          (page_indices c
            (dfs c pm m forbid targetPage c.TABLES_DEPTH 0 0 UINT64_MAX
              Search.initial).bestLeafPage) 0 =
        some (dfs c pm m forbid targetPage c.TABLES_DEPTH 0 0 UINT64_MAX
          Search.initial).bestLeafFrame ∧
      ∀ v, v >>> c.OFFSET_WIDTH =
          (dfs c pm m forbid targetPage c.TABLES_DEPTH 0 0 UINT64_MAX
            Search.initial).bestLeafPage →
        toPhysical c pm v m =
          (wrap64 ((dfs c pm m forbid targetPage c.TABLES_DEPTH 0 0 UINT64_MAX
              Search.initial).bestLeafFrame * c.PAGE_SIZE + v % c.PAGE_SIZE), m)) := by
  obtain ⟨h1, h2, h3, -, -⟩ := hc.depth_facts
  refine ⟨h1, ?_, ?_, ?_, ?_⟩
  · intro v hv
    refine ⟨by simp [page_indices], fun d _ => hc.level_index_lt _ d, ?_⟩
    rw [hc.fold_page_indices]
    apply Nat.mod_eq_of_lt
    rw [hc.memory_size] at hv
    rw [Nat.shiftRight_eq_div_pow, ← Nat.pow_mul, Nat.mul_comm]
    have hle : 2 ^ (c.VIRTUAL_ADDRESS_WIDTH - c.OFFSET_WIDTH) ≤
        2 ^ (c.TABLES_DEPTH * c.OFFSET_WIDTH) := Nat.pow_le_pow_right (by decide) h2
    refine lt_of_lt_of_le ?_ hle
    rw [Nat.div_lt_iff_lt_mul (Nat.two_pow_pos _), ← Nat.pow_add,
      Nat.sub_add_cancel (le_of_lt hc.offset_lt)]
    exact hv
  · intro σ pm m v _
    exact hc.toPhysical_offset pm v m
  · intro path hlen hpath
    exact (hc.page_indices_fold path hlen hpath).1
  · intro σ pm m forbid targetPage hne
    have hleaf : leaf_below c pm m c.TABLES_DEPTH 0 0
        (dfs c pm m forbid targetPage c.TABLES_DEPTH 0 0 UINT64_MAX Search.initial) := by
      rcases dfs_leaf c pm m forbid targetPage c.TABLES_DEPTH 0 0 UINT64_MAX Search.initial with
        hs | hb
      · exact absurd hs.1 hne
      · exact hb
    obtain ⟨path, hlen, hpath, hdesc, hpage⟩ := hleaf
    have hidx := (hc.page_indices_fold path hlen hpath).1
    rw [← hpage] at hidx
    have hd : descend c pm m
        (page_indices c
          (dfs c pm m forbid targetPage c.TABLES_DEPTH 0 0 UINT64_MAX
            Search.initial).bestLeafPage) 0 =
        some (dfs c pm m forbid targetPage c.TABLES_DEPTH 0 0 UINT64_MAX
          Search.initial).bestLeafFrame := by
      rw [hidx]; exact hdesc
    refine ⟨hd, fun v hv => ?_⟩
    rw [← hv] at hd
    rw [toPhysical_of_descend c pm v m _ (by omega) hd, hc.page_size,
      Nat.and_pow_two_sub_one_eq_mod]

theorem example_constants_valid : example_constants.valid :=
  ⟨by decide, by decide, by decide, by decide, by decide, by decide⟩

theorem page_index_decomposition_witness :
    example_constants.valid ∧
    109 < example_constants.VIRTUAL_MEMORY_SIZE ∧
    page_indices example_constants (109 >>> 2) = [1, 2, 3] ∧
    (page_indices example_constants (109 >>> 2)).foldl (childPrefix example_constants) 0 =
      27 ∧
    (dfs example_constants example_memory example_ram [0, UINT64_MAX, UINT64_MAX] 0 3 0 0
      UINT64_MAX Search.initial).bestLeafFrame = 3 ∧
    (dfs example_constants example_memory example_ram [0, UINT64_MAX, UINT64_MAX] 0 3 0 0
      UINT64_MAX Search.initial).bestLeafPage = 27 ∧
    toPhysical example_constants example_memory 109 example_ram = (13, example_ram) := by
  obtain ⟨-, h2, -, -, h5⟩ := page_index_decomposition example_constants example_constants_valid
  have hv : 109 < example_constants.VIRTUAL_MEMORY_SIZE := by decide
  have hf : (dfs example_constants example_memory example_ram [0, UINT64_MAX, UINT64_MAX] 0 3 0
      0 UINT64_MAX Search.initial).bestLeafFrame = 3 := by decide
  have hp : (dfs example_constants example_memory example_ram [0, UINT64_MAX, UINT64_MAX] 0 3 0
      0 UINT64_MAX Search.initial).bestLeafPage = 27 := by decide
  have h := (h5 _ example_memory example_ram [0, UINT64_MAX, UINT64_MAX] 0
    (by rw [show example_constants.TABLES_DEPTH = 3 from rfl, hf]; decide)).2 109
    (by rw [show example_constants.TABLES_DEPTH = 3 from rfl, hp]; rfl)
  refine ⟨example_constants_valid, hv, by decide, (h2 109 hv).2.2, hf, hp, ?_⟩
  rw [h, show example_constants.TABLES_DEPTH = 3 from rfl, hf]
  rfl

end VirtualMemory
